import Mathlib

/-!
Verification development for the dingir-exchange matching-engine core.

The Rust sources are shallowly embedded:
* `rust_decimal::Decimal` values are modelled as `ℚ`; the two rounding
  strategies used by the code (`RoundingStrategy::ToZero` and the default
  `MidpointNearestEven` of `round_dp`) are modelled explicitly as
  `roundToZeroDp` and `roundHalfEvenDp`.
* `debug_assert!` statements are modelled as fatal checks (the spec classifies
  internal invariant failures as process-abort-worthy), so functions that can
  hit one return `Option`/a `panicked` outcome.
* Maps (`BTreeMap`, `HashMap`, `TtlCache`) are modelled as functions or
  association lists; the two ordered book indices are kept as lists sorted by
  the corresponding key ordering.
* Diagnostic-only payload fields (timestamps inside events, JSON detail blobs,
  signatures, interned name strings) are omitted; they carry no behaviour.
-/

namespace Dingir

/-! ## Decimal rounding (rust_decimal semantics over ℚ) -/

/-- Integer truncation toward zero of a rational. -/
def truncQ (x : ℚ) : ℤ := if 0 ≤ x then ⌊x⌋ else ⌈x⌉

/-- `round_dp_with_strategy(p, RoundingStrategy::ToZero)`:
truncate toward zero at `p` decimal places. -/
def roundToZeroDp (p : ℕ) (x : ℚ) : ℚ := (truncQ (x * 10 ^ p) : ℚ) / 10 ^ p

/-- Round a rational to the nearest integer, ties to even
(`MidpointNearestEven`, the default strategy of `round_dp`). -/
def halfEvenZ (x : ℚ) : ℤ :=
  if x - ⌊x⌋ < 1 / 2 then ⌊x⌋
  else if (1 : ℚ) / 2 < x - ⌊x⌋ then ⌊x⌋ + 1
  else if ⌊x⌋ % 2 = 0 then ⌊x⌋ else ⌊x⌋ + 1

/-- `round_dp(p)`: round half-even at `p` decimal places. -/
def roundHalfEvenDp (p : ℕ) (x : ℚ) : ℚ := (halfEvenZ (x * 10 ^ p) : ℚ) / 10 ^ p

/-- `x` is representable with `p` decimal places. -/
def isDp (p : ℕ) (x : ℚ) : Prop := ∃ n : ℤ, x = (n : ℚ) / 10 ^ p

/-! ## Basic data model (types.rs / market/order.rs) -/

/-- `BalanceType` from balance_manager.rs. -/
inductive BalanceType
  | AVAILABLE
  | FREEZE
deriving DecidableEq, Repr

/-- The two assets of a single market (`self.base` / `self.quote` label
strings in market/mod.rs). -/
inductive AssetKind
  | base
  | quote
deriving DecidableEq, Repr

inductive OrderSide
  | ASK
  | BID
deriving DecidableEq, Repr

inductive OrderType
  | LIMIT
  | MARKET
deriving DecidableEq, Repr

inductive MarketRole
  | TAKER
  | MAKER
deriving DecidableEq, Repr

inductive OrderEventType
  | PUT
  | UPDATE
  | FINISH
deriving DecidableEq, Repr

/-- `Order` from market/order.rs (market/asset labels, signature and
timestamps omitted). -/
structure Order where
  id : ℕ
  type_ : OrderType
  side : OrderSide
  user : ℕ
  post_only : Bool
  price : ℚ
  amount : ℚ
  maker_fee : ℚ
  taker_fee : ℚ
  remain : ℚ
  frozen : ℚ
  finished_base : ℚ
  finished_quote : ℚ
  finished_fee : ℚ
deriving DecidableEq, Repr

def Order.is_ask (o : Order) : Bool := o.side = OrderSide.ASK

/-- `Trade` from market/trade.rs (labels, timestamps and the optional verbose
state snapshots omitted). -/
structure Trade where
  id : ℕ
  price : ℚ
  amount : ℚ
  quote_amount : ℚ
  ask_user_id : ℕ
  ask_order_id : ℕ
  ask_role : MarketRole
  ask_fee : ℚ
  bid_user_id : ℕ
  bid_order_id : ℕ
  bid_role : MarketRole
  bid_fee : ℚ
deriving DecidableEq, Repr

/-! ## BalanceManager (asset/balance_manager.rs)

Balances are a total map from `(user_id, balance_type, asset)` to `ℚ`;
missing keys read as zero, so the empty map is `fun _ => 0`.
`debug_assert!` is modelled as a fatal check (`none`). -/

structure BalanceMapKey where
  user_id : ℕ
  balance_type : BalanceType
  asset : AssetKind
deriving DecidableEq, Repr

def Bal : Type := BalanceMapKey → ℚ

/-- Asset save-precision lookup (`asset_manager.asset_prec`). -/
def PrecOf : Type := AssetKind → ℕ

namespace BalanceManager

/-- `get_by_key` / `get`: missing keys read as zero (already total here). -/
def get (b : Bal) (user_id : ℕ) (bt : BalanceType) (asset : AssetKind) : ℚ :=
  b ⟨user_id, bt, asset⟩

/-- `set_by_key`: `debug_assert!(amount.is_sign_positive())`, then store the
amount rounded (half-even) to the asset's save precision. -/
def setByKey (prec : PrecOf) (b : Bal) (k : BalanceMapKey) (amount : ℚ) :
    Option Bal :=
  if amount < 0 then none
  else some (fun k2 => if k2 = k then roundHalfEvenDp (prec k.asset) amount else b k2)

/-- `add`: assert non-negative, round the increment, add, store. -/
def add (prec : PrecOf) (b : Bal) (user_id : ℕ) (bt : BalanceType)
    (asset : AssetKind) (amount : ℚ) : Option (Bal × ℚ) :=
  if amount < 0 then none
  else
    let amount2 := roundHalfEvenDp (prec asset) amount
    let key : BalanceMapKey := ⟨user_id, bt, asset⟩
    let old_value := b key
    let new_value := old_value + amount2
    (setByKey prec b key new_value).map (fun b2 => (b2, new_value))

/-- `sub`: assert non-negative, round the decrement, assert
`old_value ≥ amount`, subtract, assert the result non-negative, store. -/
def sub (prec : PrecOf) (b : Bal) (user_id : ℕ) (bt : BalanceType)
    (asset : AssetKind) (amount : ℚ) : Option (Bal × ℚ) :=
  if amount < 0 then none
  else
    let amount2 := roundHalfEvenDp (prec asset) amount
    let key : BalanceMapKey := ⟨user_id, bt, asset⟩
    let old_value := b key
    if old_value < amount2 then none
    else
      let new_value := old_value - amount2
      if new_value < 0 then none
      else (setByKey prec b key new_value).map (fun b2 => (b2, new_value))

/-- `frozen`: assert AVAILABLE ≥ amount, then AVAILABLE -= amount and
FREEZE += amount. -/
def frozen (prec : PrecOf) (b : Bal) (user_id : ℕ) (asset : AssetKind)
    (amount : ℚ) : Option Bal :=
  if amount < 0 then none
  else
    let amount2 := roundHalfEvenDp (prec asset) amount
    let old_available := b ⟨user_id, BalanceType.AVAILABLE, asset⟩
    if old_available < amount2 then none
    else
      match sub prec b user_id BalanceType.AVAILABLE asset amount2 with
      | none => none
      | some (b2, _) =>
        match add prec b2 user_id BalanceType.FREEZE asset amount2 with
        | none => none
        | some (b3, _) => some b3

/-- `unfrozen`: assert FREEZE ≥ amount, then AVAILABLE += amount and
FREEZE -= amount. -/
def unfrozen (prec : PrecOf) (b : Bal) (user_id : ℕ) (asset : AssetKind)
    (amount : ℚ) : Option Bal :=
  if amount < 0 then none
  else
    let amount2 := roundHalfEvenDp (prec asset) amount
    let old_frozen := b ⟨user_id, BalanceType.FREEZE, asset⟩
    if old_frozen < amount2 then none
    else
      match add prec b user_id BalanceType.AVAILABLE asset amount2 with
      | none => none
      | some (b2, _) =>
        match sub prec b2 user_id BalanceType.FREEZE asset amount2 with
        | none => none
        | some (b3, _) => some b3

/-- `total`: AVAILABLE + FREEZE. -/
def total (b : Bal) (user_id : ℕ) (asset : AssetKind) : ℚ :=
  get b user_id BalanceType.AVAILABLE asset + get b user_id BalanceType.FREEZE asset

end BalanceManager

/-! ## BalanceUpdateController (asset/update_controller.rs)

The `TtlCache` is modelled as a list of `(key, expiry-time)` pairs; a key is
contained iff some entry for it has not yet expired. The capacity bound
(10^6 entries) is not modelled — no claim concerns eviction by capacity. -/

inductive BusinessType
  | Deposit
  | Trade
  | Transfer
  | Withdraw
deriving DecidableEq, Repr

/-- The deduplication fingerprint. -/
structure BalanceUpdateKey where
  balance_type : BalanceType
  business_type : BusinessType
  user_id : ℕ
  asset : AssetKind
  business : String
  business_id : ℕ
deriving DecidableEq, Repr

def Cache : Type := List (BalanceUpdateKey × ℚ)

/-- `TtlCache::contains_key`: an entry is live while `now < expiry`. -/
def cacheContains (c : Cache) (now : ℚ) (k : BalanceUpdateKey) : Bool :=
  c.any (fun e => e.1 = k ∧ now < e.2)

/-- `TtlCache::insert` with TTL 3600 s. -/
def cacheInsert (c : Cache) (now : ℚ) (k : BalanceUpdateKey) : Cache :=
  (k, now + 3600) :: c

/-- `BalanceUpdateController::on_timer`: `self.cache.clear()` — the whole
cache is emptied, expired or not. -/
def onTimer (_c : Cache) : Cache := []

/-- `BalanceUpdateController::reset` — also a full clear. -/
def controllerReset (_c : Cache) : Cache := []

/-- `BalanceUpdateParams` (diagnostic fields `market_price`, `detail`,
`signature` omitted). -/
structure BalanceUpdateParams where
  balance_type : BalanceType
  business_type : BusinessType
  user_id : ℕ
  business_id : ℕ
  asset : AssetKind
  business : String
  change : ℚ
deriving DecidableEq, Repr

/-- Events sent to the persistor (`PersistExector`). Only behaviourally
relevant payload is kept. -/
inductive Event
  | order (o : Order) (t : OrderEventType)
  | trade (t : Trade)
  | balance (user_id : ℕ) (asset : AssetKind) (business : String)
      (business_id : ℕ) (change balance_available balance_frozen : ℚ)
  | deposit (user_id : ℕ) (asset : AssetKind) (business_id : ℕ) (change : ℚ)
  | withdraw (user_id : ℕ) (asset : AssetKind) (business_id : ℕ) (change : ℚ)
deriving DecidableEq, Repr

/-- Outcome of `update_user_balance`: `ok`, an `anyhow` error (`bail!`), or a
fatal `debug_assert!` failure inside the balance manager. -/
inductive UbResult
  | ok
  | err (e : String)
  | panic
deriving DecidableEq, Repr

/-- The fingerprint a submission hashes to in the dedup cache. -/
def fingerprint (p : BalanceUpdateParams) : BalanceUpdateKey :=
  ⟨p.balance_type, p.business_type, p.user_id, p.asset, p.business, p.business_id⟩

/-- The ledger key a submission mutates. -/
def bkey (p : BalanceUpdateParams) : BalanceMapKey :=
  ⟨p.user_id, p.balance_type, p.asset⟩

/-- The ledger mutation of `update_user_balance` step 3:
`none` = the explicit "balance not enough" `bail!`, `some none` = a
`debug_assert!` failure inside `add`/`sub`, `some (some b2)` = success.
`change.is_sign_positive()` → `add`, `is_sign_negative()` → check then
`sub`, zero change → no mutation (modelled by the `add` of zero). -/
def ubApply (prec : PrecOf) (b : Bal) (p : BalanceUpdateParams) :
    Option (Option Bal) :=
  let old_balance := BalanceManager.get b p.user_id p.balance_type p.asset
  let change := p.change
  let abs_change := |change|
  if 0 ≤ change then
    some ((BalanceManager.add prec b p.user_id p.balance_type p.asset
      abs_change).map Prod.fst)
  else if old_balance < abs_change then none  -- bail "balance not enough"
  else
    some ((BalanceManager.sub prec b p.user_id p.balance_type p.asset
      abs_change).map Prod.fst)

/-- The `BalanceHistory` (plus deposit/withdraw) emission of
`update_user_balance` step 5, reading post-mutation balances. -/
def ubEvents (realPersist : Bool) (b2 : Bal) (p : BalanceUpdateParams) :
    List Event :=
  if realPersist ∧ p.change ≠ 0 then
    let balance_available :=
      BalanceManager.get b2 p.user_id BalanceType.AVAILABLE p.asset
    let balance_frozen :=
      BalanceManager.get b2 p.user_id BalanceType.FREEZE p.asset
    Event.balance p.user_id p.asset p.business p.business_id p.change
        balance_available balance_frozen ::
      (match p.business_type with
       | BusinessType.Deposit =>
         [Event.deposit p.user_id p.asset p.business_id p.change]
       | BusinessType.Withdraw =>
         [Event.withdraw p.user_id p.asset p.business_id p.change]
       | _ => [])
  else []

/-- `update_user_balance`. On `err` the returned balances and cache are the
unmodified inputs, mirroring that `bail!` returns before any mutation. -/
def updateUserBalance (prec : PrecOf) (realPersist : Bool) (now : ℚ)
    (b : Bal) (c : Cache) (p : BalanceUpdateParams) :
    UbResult × Bal × Cache × List Event :=
  let cache_key : BalanceUpdateKey := fingerprint p
  if cacheContains c now cache_key then (UbResult.err "duplicate request", b, c, [])
  else
    match ubApply prec b p with
    | none => (UbResult.err "balance not enough", b, c, [])
    | some none => (UbResult.panic, b, c, [])
    | some (some b2) =>
      (UbResult.ok, b2, cacheInsert c now cache_key, ubEvents realPersist b2 p)

/-! ## Order-book key orderings (market/order.rs) -/

structure MarketKeyAsk where
  order_price : ℚ
  order_id : ℕ
deriving DecidableEq, Repr

structure MarketKeyBid where
  order_price : ℚ
  order_id : ℕ
deriving DecidableEq, Repr

/-- The derived lexicographic `Ord` of `MarketKeyAsk`: price ascending, then
order id ascending. -/
def MarketKeyAsk.cmp (a b : MarketKeyAsk) : Ordering :=
  if a.order_price < b.order_price then Ordering.lt
  else if b.order_price < a.order_price then Ordering.gt
  else if a.order_id < b.order_id then Ordering.lt
  else if b.order_id < a.order_id then Ordering.gt
  else Ordering.eq

/-- The hand-written `Ord` of `MarketKeyBid`: price comparison reversed,
ties broken by order id ascending. -/
def MarketKeyBid.cmp (a b : MarketKeyBid) : Ordering :=
  if a.order_price < b.order_price then Ordering.gt
  else if b.order_price < a.order_price then Ordering.lt
  else if a.order_id < b.order_id then Ordering.lt
  else if b.order_id < a.order_id then Ordering.gt
  else Ordering.eq

def Order.get_ask_key (o : Order) : MarketKeyAsk := ⟨o.price, o.id⟩

def Order.get_bid_key (o : Order) : MarketKeyBid := ⟨o.price, o.id⟩

/-- Strict before-relation in the asks BTreeMap. -/
def askKeyLt (a b : Order) : Prop :=
  MarketKeyAsk.cmp a.get_ask_key b.get_ask_key = Ordering.lt

/-- Strict before-relation in the bids BTreeMap. -/
def bidKeyLt (a b : Order) : Prop :=
  MarketKeyBid.cmp a.get_bid_key b.get_bid_key = Ordering.lt

instance : DecidableRel askKeyLt := fun a b => by unfold askKeyLt; infer_instance

instance : DecidableRel bidKeyLt := fun a b => by unfold bidKeyLt; infer_instance

/-! ## Market and engine state (market/mod.rs) -/

/-- Constant market configuration (`Market` fields that never change). -/
structure MarketParams where
  amount_prec : ℕ
  price_prec : ℕ
  base_prec : ℕ
  quote_prec : ℕ
  fee_prec : ℕ
  min_amount : ℚ
  disable_self_trade : Bool
  disable_market_order : Bool

/-- `asset_prec` for this market's two assets (`Market::new` snapshots
`base_prec`/`quote_prec` from the asset manager). -/
def MarketParams.precOf (mp : MarketParams) : PrecOf := fun a =>
  match a with
  | AssetKind.base => mp.base_prec
  | AssetKind.quote => mp.quote_prec

/-- Mutable engine state touched by `put_order`: the market's book sides
(sorted lists standing for the two BTreeMaps), last trade price and trade
count, the balance ledger, the dedup cache and the sequencer counters. -/
structure EngineState where
  price : ℚ
  asks : List Order
  bids : List Order
  trade_count : ℕ
  bal : Bal
  cache : Cache
  order_id : ℕ
  trade_id : ℕ

/-- `OrderInput` (market string and signature omitted). -/
structure OrderInput where
  user_id : ℕ
  side : OrderSide
  type_ : OrderType
  amount : ℚ
  price : ℚ
  quote_limit : ℚ
  taker_fee : ℚ
  maker_fee : ℚ
  post_only : Bool
deriving DecidableEq, Repr

/-- Result of `put_order`: an `anyhow` error (`rejected`), a fatal
panic/assertion (`panicked`), or the returned taker order copy. -/
inductive POResult
  | rejected (e : String)
  | panicked
  | ok (o : Order)
deriving DecidableEq, Repr

/-- The effective quote limit computed in `put_order` step 5: only a MARKET
BID gets one; zero supplied means the whole AVAILABLE quote balance,
otherwise the minimum of the balance and the supplied limit truncated at the
quote asset's save precision. -/
def computeQuoteLimit (mp : MarketParams) (b : Bal) (inp : OrderInput) : ℚ :=
  if inp.type_ = OrderType.MARKET ∧ inp.side = OrderSide.BID then
    let balance := BalanceManager.get b inp.user_id BalanceType.AVAILABLE AssetKind.quote
    if inp.quote_limit = 0 then balance
    else min balance (roundToZeroDp (mp.precOf AssetKind.quote) inp.quote_limit)
  else 0

/-- The four `update_user_balance` calls of execute_order Step 6, in source
order; any `err` hits the `.unwrap()` (`none` = panic). -/
def tradeBalanceUpdates (prec : PrecOf) (rp : Bool) (now : ℚ) (b : Bal)
    (c : Cache) (trade_id : ℕ) (maker_is_ask : Bool) (ask_user bid_user : ℕ)
    (traded_base traded_quote bid_fee ask_fee : ℚ) :
    Option (Bal × Cache × List Event) :=
  -- bid user gains base, less the bid fee when that fee is positive
  let p1 : BalanceUpdateParams :=
    { balance_type := BalanceType.AVAILABLE, business_type := BusinessType.Trade,
      user_id := bid_user, business_id := trade_id, asset := AssetKind.base,
      business := "trade",
      change := if 0 ≤ bid_fee then traded_base - bid_fee else traded_base }
  match updateUserBalance prec rp now b c p1 with
  | (UbResult.ok, b1, c1, ev1) =>
    -- ask user pays base, from FREEZE when the ask order is the maker
    let p2 : BalanceUpdateParams :=
      { balance_type := if maker_is_ask then BalanceType.FREEZE else BalanceType.AVAILABLE,
        business_type := BusinessType.Trade, user_id := ask_user,
        business_id := trade_id, asset := AssetKind.base, business := "trade",
        change := -traded_base }
    match updateUserBalance prec rp now b1 c1 p2 with
    | (UbResult.ok, b2, c2, ev2) =>
      -- ask user gains quote, less the ask fee when that fee is positive
      let p3 : BalanceUpdateParams :=
        { balance_type := BalanceType.AVAILABLE, business_type := BusinessType.Trade,
          user_id := ask_user, business_id := trade_id, asset := AssetKind.quote,
          business := "trade",
          change := if 0 ≤ ask_fee then traded_quote - ask_fee else traded_quote }
      match updateUserBalance prec rp now b2 c2 p3 with
      | (UbResult.ok, b3, c3, ev3) =>
        -- bid user pays quote, from FREEZE when the bid order is the maker
        let p4 : BalanceUpdateParams :=
          { balance_type := if maker_is_ask then BalanceType.AVAILABLE else BalanceType.FREEZE,
            business_type := BusinessType.Trade, user_id := bid_user,
            business_id := trade_id, asset := AssetKind.quote, business := "trade",
            change := -traded_quote }
        match updateUserBalance prec rp now b3 c3 p4 with
        | (UbResult.ok, b4, c4, ev4) => some (b4, c4, ev1 ++ ev2 ++ ev3 ++ ev4)
        | _ => none
      | _ => none
    | _ => none
  | _ => none

/-- Accumulator for the matching loop of `execute_order`. `kept` are already
visited makers that stay in the book, `finished` the fully filled ones
awaiting `order_finish`. -/
structure MatchAcc where
  taker : Order
  quote_sum : ℚ
  bal : Bal
  cache : Cache
  market_price : ℚ
  trade_count : ℕ
  trade_id : ℕ
  events : List Event
  kept : List Order
  finished : List Order
  need_cancel : Bool

/-- One iteration outcome: `brk` = the Rust `break` (the current maker stays
untouched), `panic` = a failed `debug_assert!`/`unwrap`, `next` = continue. -/
inductive StepOut
  | brk (acc : MatchAcc)
  | panic
  | next (acc : MatchAcc)

/-- One iteration of the matching loop of `execute_order` over the current
counter-side maker. -/
def matchStep (mp : MarketParams) (rp : Bool) (now : ℚ) (quote_limit : ℚ)
    (taker_is_ask is_limit_order is_post_only : Bool)
    (acc : MatchAcc) (maker : Order) : StepOut :=
  if acc.taker.remain = 0 then StepOut.brk { acc with kept := acc.kept ++ [maker] }
  else
    let taker := acc.taker
    let ask_fee_rate := if taker_is_ask then taker.taker_fee else maker.maker_fee
    let bid_fee_rate := if taker_is_ask then maker.maker_fee else taker.taker_fee
    let price := maker.price
    let ask_order := if taker_is_ask then taker else maker
    let bid_order := if taker_is_ask then maker else taker
    if is_limit_order ∧ bid_order.price < ask_order.price then
      StepOut.brk { acc with kept := acc.kept ++ [maker] }
    else if is_post_only then
      StepOut.brk { acc with need_cancel := true, kept := acc.kept ++ [maker] }
    else if ask_order.user = bid_order.user ∧ mp.disable_self_trade then
      StepOut.brk { acc with need_cancel := true, kept := acc.kept ++ [maker] }
    else
      let taker_is_bid := ¬taker_is_ask
      let is_market_order := ¬is_limit_order
      let tb0 := min ask_order.remain bid_order.remain
      let overLimit :=
        taker_is_bid ∧ is_market_order ∧ quote_limit < acc.quote_sum + price * tb0
      let tb :=
        if overLimit then
          roundToZeroDp mp.amount_prec ((quote_limit - acc.quote_sum) / price)
        else tb0
      if overLimit ∧ tb = 0 then StepOut.brk { acc with kept := acc.kept ++ [maker] }
      else
        let tq := price * tb
        if tb = 0 then StepOut.panic        -- debug_assert!(!traded_base_amount.is_zero())
        else if tq = 0 then StepOut.panic   -- debug_assert!(!traded_quote_amount.is_zero())
        else
          let quote_sum := acc.quote_sum + tq
          if taker_is_bid ∧ is_market_order ∧ quote_limit < quote_sum then
            StepOut.panic                   -- debug_assert!(quote_sum <= *quote_limit)
          else
            let bid_fee := roundToZeroDp mp.base_prec (tb * bid_fee_rate)
            let ask_fee := roundToZeroDp mp.quote_prec (tq * ask_fee_rate)
            let trade_id := acc.trade_id + 1
            let trade : Trade :=
              { id := trade_id, price := price, amount := tb, quote_amount := tq,
                ask_user_id := ask_order.user, ask_order_id := ask_order.id,
                ask_role := if taker_is_ask then MarketRole.TAKER else MarketRole.MAKER,
                ask_fee := ask_fee,
                bid_user_id := bid_order.user, bid_order_id := bid_order.id,
                bid_role := if taker_is_ask then MarketRole.MAKER else MarketRole.TAKER,
                bid_fee := bid_fee }
            if mp.disable_self_trade ∧ trade.ask_user_id = trade.bid_user_id then
              StepOut.panic                 -- debug_assert_ne!(ask_user_id, bid_user_id)
            else
              let ask_order2 : Order :=
                { ask_order with
                  remain := ask_order.remain - tb,
                  finished_base := ask_order.finished_base + tb,
                  finished_quote := ask_order.finished_quote + tq,
                  finished_fee := ask_order.finished_fee + ask_fee }
              let bid_order2 : Order :=
                { bid_order with
                  remain := bid_order.remain - tb,
                  finished_base := bid_order.finished_base + tb,
                  finished_quote := bid_order.finished_quote + tq,
                  finished_fee := bid_order.finished_fee + bid_fee }
              if ask_order2.remain < 0 then StepOut.panic
              else if bid_order2.remain < 0 then StepOut.panic
              else
                let maker_is_ask := ¬taker_is_ask
                match tradeBalanceUpdates mp.precOf rp now acc.bal acc.cache trade_id
                    maker_is_ask ask_order.user bid_order.user tb tq bid_fee ask_fee with
                | none => StepOut.panic     -- a .unwrap() fired
                | some (b4, c4, ubEvents) =>
                  let taker2 := if taker_is_ask then ask_order2 else bid_order2
                  let maker2 := if taker_is_ask then bid_order2 else ask_order2
                  let maker_is_bid := taker_is_ask
                  let maker3 : Order :=
                    { maker2 with
                      frozen := maker2.frozen - (if maker_is_bid then tq else tb) }
                  let acc2 : MatchAcc :=
                    { acc with
                      taker := taker2,
                      quote_sum := quote_sum,
                      bal := b4,
                      cache := c4,
                      trade_id := trade_id,
                      trade_count := acc.trade_count + 1,
                      market_price := price,
                      events := acc.events ++ ubEvents ++ [Event.trade trade] }
                  if maker3.remain = 0 then
                    StepOut.next { acc2 with finished := acc2.finished ++ [maker3] }
                  else
                    StepOut.next
                      { acc2 with
                        kept := acc2.kept ++ [maker3],
                        events := acc2.events ++ [Event.order maker3 OrderEventType.UPDATE] }

/-- The matching loop: iterate counter-side makers in book order. -/
def matchLoop (mp : MarketParams) (rp : Bool) (now : ℚ) (quote_limit : ℚ)
    (taker_is_ask is_limit_order is_post_only : Bool)
    (acc : MatchAcc) : List Order → Option MatchAcc
  | [] => some acc
  | maker :: rest =>
    match matchStep mp rp now quote_limit taker_is_ask is_limit_order is_post_only
        acc maker with
    | StepOut.brk acc2 => some { acc2 with kept := acc2.kept ++ rest }
    | StepOut.panic => none
    | StepOut.next acc2 =>
      matchLoop mp rp now quote_limit taker_is_ask is_limit_order is_post_only acc2 rest

/-- `Market::unfrozen_balance`: no-op when `remain` is zero, otherwise
unfreeze the order's `frozen` amount of its locking asset. -/
def unfrozenBalance (mp : MarketParams) (b : Bal) (o : Order) : Option Bal :=
  if o.remain < 0 then none   -- debug_assert!(order.remain.is_sign_positive())
  else if o.remain = 0 then some b
  else
    let asset := if o.is_ask then AssetKind.base else AssetKind.quote
    BalanceManager.unfrozen mp.precOf b o.user asset o.frozen

/-- `Market::frozen_balance`: freeze the order's `frozen` amount of its
locking asset. -/
def frozenBalance (mp : MarketParams) (b : Bal) (o : Order) : Option Bal :=
  let asset := if o.is_ask then AssetKind.base else AssetKind.quote
  BalanceManager.frozen mp.precOf b o.user asset o.frozen

/-- The after-loop sweep over `finished_orders`: each gets `order_finish`
(already removed from the book lists here; unfreeze residue, emit FINISH). -/
def finishOrders (mp : MarketParams) (b : Bal) : List Order → Option (Bal × List Event)
  | [] => some (b, [])
  | o :: rest =>
    match unfrozenBalance mp b o with
    | none => none
    | some b2 =>
      match finishOrders mp b2 rest with
      | none => none
      | some (b3, evs) => some (b3, Event.order o OrderEventType.FINISH :: evs)

/-- Insert into the asks BTreeMap: keep the list sorted by the ask key. -/
def insertAskList (o : Order) : List Order → List Order
  | [] => [o]
  | m :: rest =>
    if MarketKeyAsk.cmp m.get_ask_key o.get_ask_key = Ordering.lt then
      m :: insertAskList o rest
    else o :: m :: rest

/-- Insert into the bids BTreeMap: keep the list sorted by the bid key. -/
def insertBidList (o : Order) : List Order → List Order
  | [] => [o]
  | m :: rest =>
    if MarketKeyBid.cmp m.get_bid_key o.get_bid_key = Ordering.lt then
      m :: insertBidList o rest
    else o :: m :: rest

/-- `insert_order_into_orderbook`: set `frozen` from the side rule, assert
the order is LIMIT and its key fresh, and insert into the side index.
(The `orders` and per-user maps are views derived from the two sides here.) -/
def insertOrderIntoOrderbook (s : EngineState) (order0 : Order) :
    Option (EngineState × Order) :=
  let order : Order :=
    if order0.side = OrderSide.ASK then { order0 with frozen := order0.remain }
    else { order0 with frozen := order0.remain * order0.price }
  if order.type_ ≠ OrderType.LIMIT then none  -- debug_assert_eq!(order.type, LIMIT)
  else if order.side = OrderSide.ASK then
    if s.asks.any (fun m => m.get_ask_key = order.get_ask_key) then none
    else some ({ s with asks := insertAskList order s.asks }, order)
  else
    if s.bids.any (fun m => m.get_bid_key = order.get_bid_key) then none
    else some ({ s with bids := insertBidList order s.bids }, order)

/-- `execute_order`: emit PUT, run the matching loop against the counter
side, finish filled makers, then settle the taker (cancel / market finish /
limit finish / rest in the book with its balance frozen).
On a panic the returned state and events are not meaningful (the process
aborts); the original state is returned as a placeholder. -/
def executeOrder (mp : MarketParams) (rp : Bool) (now : ℚ) (s : EngineState)
    (quote_limit : ℚ) (taker : Order) : POResult × EngineState × List Event :=
  let ev0 : List Event := [Event.order taker OrderEventType.PUT]
  let taker_is_ask := taker.side = OrderSide.ASK
  let is_limit_order := taker.type_ = OrderType.LIMIT
  let is_post_only := taker.post_only
  -- maker_is_bid = taker_is_ask, so the counter side is bids for an ask taker
  let counter_orders := if taker_is_ask then s.bids else s.asks
  let acc0 : MatchAcc :=
    { taker := taker, quote_sum := 0, bal := s.bal, cache := s.cache,
      market_price := s.price, trade_count := s.trade_count,
      trade_id := s.trade_id, events := [], kept := [], finished := [],
      need_cancel := false }
  match matchLoop mp rp now quote_limit taker_is_ask is_limit_order is_post_only
      acc0 counter_orders with
  | none => (POResult.panicked, s, ev0)
  | some acc =>
    match finishOrders mp acc.bal acc.finished with
    | none => (POResult.panicked, s, ev0)
    | some (b5, finEvents) =>
      let s2 : EngineState :=
        { s with
          price := acc.market_price,
          trade_count := acc.trade_count,
          trade_id := acc.trade_id,
          bal := b5,
          cache := acc.cache,
          asks := if taker_is_ask then s.asks else acc.kept,
          bids := if taker_is_ask then acc.kept else s.bids }
      let evs := ev0 ++ acc.events ++ finEvents
      let taker1 := acc.taker
      if acc.need_cancel then
        (POResult.ok taker1, s2, evs ++ [Event.order taker1 OrderEventType.FINISH])
      else if taker1.type_ = OrderType.MARKET then
        (POResult.ok taker1, s2, evs ++ [Event.order taker1 OrderEventType.FINISH])
      else if taker1.remain = 0 then
        (POResult.ok taker1, s2, evs ++ [Event.order taker1 OrderEventType.FINISH])
      else
        match insertOrderIntoOrderbook s2 taker1 with
        | none => (POResult.panicked, s, ev0)
        | some (s3, taker2) =>
          match frozenBalance mp s3.bal taker2 with
          | none => (POResult.panicked, s, ev0)
          | some b6 => (POResult.ok taker2, { s3 with bal := b6 }, evs)

/-- The validation chain of `put_order` (its `bail!`s, in source order):
`some e` means the corresponding `bail!` fires. -/
def orderCheck (mp : MarketParams) (s : EngineState) (inp : OrderInput) :
    Option String :=
  if inp.type_ = OrderType.MARKET ∧ mp.disable_market_order then
    some "market orders disabled"
  else if inp.amount < mp.min_amount then
    some "invalid amount"
  else if mp.fee_prec = 0 ∧ (inp.taker_fee ≠ 0 ∨ inp.maker_fee ≠ 0) then
    some "only 0 fee is supported now"
  else if roundToZeroDp mp.amount_prec inp.amount ≠ inp.amount then
    some "invalid amount precision"
  else if roundHalfEvenDp mp.price_prec inp.price ≠ inp.price then
    some "invalid price precision"
  else if inp.type_ = OrderType.MARKET ∧ inp.price ≠ 0 then
    some "market order should not have a price"
  else if inp.type_ = OrderType.MARKET ∧ inp.post_only then
    some "market order cannot be post only"
  else if inp.type_ = OrderType.MARKET ∧
      ((inp.side = OrderSide.ASK ∧ s.bids = []) ∨
       (inp.side = OrderSide.BID ∧ s.asks = [])) then
    some "no counter orders"
  else if inp.type_ ≠ OrderType.MARKET ∧ inp.price = 0 then
    some "invalid price for limit order"
  else if inp.side = OrderSide.ASK ∧
      BalanceManager.get s.bal inp.user_id BalanceType.AVAILABLE AssetKind.base <
        inp.amount then
    some "balance not enough"
  else if inp.side = OrderSide.BID ∧ inp.type_ = OrderType.LIMIT ∧
      BalanceManager.get s.bal inp.user_id BalanceType.AVAILABLE AssetKind.quote <
        inp.amount * inp.price then
    some "balance not enough"
  else none

/-- `put_order`: the validation chain, then order construction (the order id
is the pre-incremented sequencer counter) and `execute_order`. Every `bail!`
returns the state untouched with no events. -/
def putOrder (mp : MarketParams) (rp : Bool) (now : ℚ) (s : EngineState)
    (inp : OrderInput) : POResult × EngineState × List Event :=
  match orderCheck mp s inp with
  | some e => (POResult.rejected e, s, [])
  | none =>
    let quote_limit := computeQuoteLimit mp s.bal inp
    let oid := s.order_id + 1
    let order : Order :=
      { id := oid, type_ := inp.type_, side := inp.side, user := inp.user_id,
        post_only := inp.post_only, price := inp.price, amount := inp.amount,
        maker_fee := inp.maker_fee, taker_fee := inp.taker_fee,
        remain := inp.amount, frozen := 0, finished_base := 0,
        finished_quote := 0, finished_fee := 0 }
    executeOrder mp rp now { s with order_id := oid } quote_limit order

/-- The trades among a list of emitted events. -/
def tradesOf (evs : List Event) : List Trade :=
  evs.filterMap fun e =>
    match e with
    | Event.trade t => some t
    | _ => none

/-! ## Derived predicates and witness fixtures -/

/-- The disjunction of put_order's precondition failures (claim C4's list). -/
def rejectCond (mp : MarketParams) (s : EngineState) (inp : OrderInput) : Prop :=
  (inp.type_ = OrderType.MARKET ∧ mp.disable_market_order) ∨
  inp.amount < mp.min_amount ∨
  (mp.fee_prec = 0 ∧ (inp.taker_fee ≠ 0 ∨ inp.maker_fee ≠ 0)) ∨
  roundToZeroDp mp.amount_prec inp.amount ≠ inp.amount ∨
  roundHalfEvenDp mp.price_prec inp.price ≠ inp.price ∨
  (inp.type_ = OrderType.MARKET ∧
    (inp.price ≠ 0 ∨ inp.post_only = true ∨
     (inp.side = OrderSide.ASK ∧ s.bids = []) ∨
     (inp.side = OrderSide.BID ∧ s.asks = []))) ∨
  (inp.type_ ≠ OrderType.MARKET ∧ inp.price = 0) ∨
  (inp.side = OrderSide.ASK ∧
    BalanceManager.get s.bal inp.user_id BalanceType.AVAILABLE AssetKind.base <
      inp.amount) ∨
  (inp.side = OrderSide.BID ∧ inp.type_ = OrderType.LIMIT ∧
    BalanceManager.get s.bal inp.user_id BalanceType.AVAILABLE AssetKind.quote <
      inp.amount * inp.price)

/-- Whether the first counter-side order crosses the taker's limit price —
the condition under which execute_order's loop would generate a trade
(the loop inspects the head of the counter side; for a sorted book the head
is the best price, so this is "a match is possible"). -/
def crossHead (t : Order) (counter : List Order) : Prop :=
  ∃ m ∈ counter.head?,
    if t.side = OrderSide.ASK then ¬ (m.price < t.price) else ¬ (t.price < m.price)

/-- A concrete failing submission: withdraw 1 from an empty balance. -/
def pC6 : BalanceUpdateParams :=
  { balance_type := BalanceType.AVAILABLE, business_type := BusinessType.Withdraw,
    user_id := 1, business_id := 9, asset := AssetKind.base,
    business := "withdraw", change := -1 }

/-- A concrete succeeding submission: deposit 5. -/
def pC6ok : BalanceUpdateParams :=
  { balance_type := BalanceType.AVAILABLE, business_type := BusinessType.Deposit,
    user_id := 1, business_id := 9, asset := AssetKind.base,
    business := "deposit", change := 5 }

/-- A concrete resting limit order, for witnesses. -/
def mkRest (i : ℕ) (sd : OrderSide) (p amt : ℚ) : Order :=
  { id := i, type_ := OrderType.LIMIT, side := sd, user := 1,
    post_only := false, price := p, amount := amt, maker_fee := 0,
    taker_fee := 0, remain := amt,
    frozen := if sd = OrderSide.ASK then amt else amt * p,
    finished_base := 0, finished_quote := 0, finished_fee := 0 }

/-- Rejection fixture: a limit order below the market's minimum amount. -/
def mpC4 : MarketParams :=
  { amount_prec := 2, price_prec := 2, base_prec := 4, quote_prec := 4,
    fee_prec := 2, min_amount := 1, disable_self_trade := true,
    disable_market_order := false }

def sC4 : EngineState :=
  { price := 0, asks := [], bids := [], trade_count := 0, bal := fun _ => 0,
    cache := [], order_id := 0, trade_id := 0 }

def inC4 : OrderInput :=
  { user_id := 1, side := OrderSide.BID, type_ := OrderType.LIMIT,
    amount := 1 / 2, price := 1, quote_limit := 0, taker_fee := 0,
    maker_fee := 0, post_only := false }

/-- The taker `Order` record `put_order` builds from its input before calling
`execute_order` (id is the freshly incremented sequencer id). -/
def takerOf (s : EngineState) (inp : OrderInput) : Order :=
  { id := s.order_id + 1, type_ := inp.type_, side := inp.side,
    user := inp.user_id, post_only := inp.post_only, price := inp.price,
    amount := inp.amount, maker_fee := inp.maker_fee, taker_fee := inp.taker_fee,
    remain := inp.amount, frozen := 0, finished_base := 0,
    finished_quote := 0, finished_fee := 0 }

/-- C9 fixture: a market with `min_amount = 0`, so a zero-amount order passes
all of put_order's checks. -/
def mpC9 : MarketParams :=
  { amount_prec := 2, price_prec := 2, base_prec := 4, quote_prec := 4,
    fee_prec := 2, min_amount := 0, disable_self_trade := true,
    disable_market_order := false }

def sC9 : EngineState :=
  { price := 0, asks := [], bids := [], trade_count := 0, bal := fun _ => 0,
    cache := [], order_id := 0, trade_id := 0 }

/-- A zero-amount post-only limit bid into an empty book. -/
def inC9 : OrderInput :=
  { user_id := 1, side := OrderSide.BID, type_ := OrderType.LIMIT,
    amount := 0, price := 1, quote_limit := 0, taker_fee := 0,
    maker_fee := 0, post_only := true }

/-- Trade-run fixture: a resting ask (user 2, price 1, amount 1) and a
matching limit bid from user 1. -/
def mpT : MarketParams :=
  { amount_prec := 2, price_prec := 2, base_prec := 4, quote_prec := 4,
    fee_prec := 2, min_amount := 1 / 100, disable_self_trade := true,
    disable_market_order := false }

def makerT : Order :=
  { id := 1, type_ := OrderType.LIMIT, side := OrderSide.ASK, user := 2,
    post_only := false, price := 1, amount := 1, maker_fee := 0,
    taker_fee := 0, remain := 1, frozen := 1, finished_base := 0,
    finished_quote := 0, finished_fee := 0 }

def balT : Bal := fun k =>
  if k.user_id = 1 ∧ k.balance_type = BalanceType.AVAILABLE ∧
      k.asset = AssetKind.quote then 10
  else if k.user_id = 2 ∧ k.balance_type = BalanceType.FREEZE ∧
      k.asset = AssetKind.base then 1
  else 0

def sT : EngineState :=
  { price := 0, asks := [makerT], bids := [], trade_count := 0, bal := balT,
    cache := [], order_id := 1, trade_id := 0 }

/-- A crossing limit bid with a positive taker fee rate. -/
def inT8 : OrderInput :=
  { user_id := 1, side := OrderSide.BID, type_ := OrderType.LIMIT,
    amount := 1, price := 1, quote_limit := 0, taker_fee := 1 / 10,
    maker_fee := 0, post_only := false }

/-- The same crossing limit bid with a negative taker fee rate. -/
def inT2 : OrderInput :=
  { user_id := 1, side := OrderSide.BID, type_ := OrderType.LIMIT,
    amount := 1, price := 1, quote_limit := 0, taker_fee := -1,
    maker_fee := 0, post_only := false }

/-- The trade emitted by the `inT8` run. -/
def trT8 : Trade :=
  { id := 1, price := 1, amount := 1, quote_amount := 1, ask_user_id := 2,
    ask_order_id := 1, ask_role := MarketRole.MAKER, ask_fee := 0,
    bid_user_id := 1, bid_order_id := 2, bid_role := MarketRole.TAKER,
    bid_fee := 1 / 10 }

/-- The trade emitted by the `inT2` run: its bid_fee is negative. -/
def trT2 : Trade :=
  { id := 1, price := 1, amount := 1, quote_amount := 1, ask_user_id := 2,
    ask_order_id := 1, ask_role := MarketRole.MAKER, ask_fee := 0,
    bid_user_id := 1, bid_order_id := 2, bid_role := MarketRole.TAKER,
    bid_fee := -1 }

/-- Total quote amount across the trades in an event list. -/
def qsum (evs : List Event) : ℚ :=
  ((tradesOf evs).map Trade.quote_amount).sum

/-- A MARKET BID with a negative quote_limit, against the `sT` book. -/
def inC1 : OrderInput :=
  { user_id := 1, side := OrderSide.BID, type_ := OrderType.MARKET,
    amount := 1, price := 0, quote_limit := -(1 / 1000), taker_fee := 0,
    maker_fee := 0, post_only := false }

/-- A MARKET BID with quote_limit 0 (so the effective limit is the user's
AVAILABLE quote balance), against the `sT` book. -/
def inC1w : OrderInput :=
  { user_id := 1, side := OrderSide.BID, type_ := OrderType.MARKET,
    amount := 1, price := 0, quote_limit := 0, taker_fee := 0,
    maker_fee := 0, post_only := false }

/-- The order returned by the accepted `inC1w` market-bid run. -/
def oC1w : Order :=
  { id := 2, type_ := OrderType.MARKET, side := OrderSide.BID, user := 1,
    post_only := false, price := 0, amount := 1, maker_fee := 0,
    taker_fee := 0, remain := 0, frozen := 0, finished_base := 1,
    finished_quote := 1, finished_fee := 0 }

/-- Well-formedness of a resting ask (claim C3's field invariants, plus the
precision facts that make the balance stores exact). -/
def askWF (mp : MarketParams) (o : Order) : Prop :=
  o.side = OrderSide.ASK ∧ o.type_ = OrderType.LIMIT ∧ 0 < o.remain ∧
  o.remain + o.finished_base = o.amount ∧ o.frozen = o.remain ∧
  isDp mp.amount_prec o.remain ∧ isDp mp.price_prec o.price

/-- Well-formedness of a resting bid. -/
def bidWF (mp : MarketParams) (o : Order) : Prop :=
  o.side = OrderSide.BID ∧ o.type_ = OrderType.LIMIT ∧ 0 < o.remain ∧
  o.remain + o.finished_base = o.amount ∧ o.frozen = o.remain * o.price ∧
  isDp mp.amount_prec o.remain ∧ isDp mp.price_prec o.price

/-- The freeze contribution of user `u`'s orders in a book side. -/
def frozenSum (u : ℕ) (os : List Order) : ℚ :=
  ((os.filter (fun o => o.user = u)).map Order.frozen).sum

/-- Claim C3's resting-book invariant: every resting order is well formed
and each user's FREEZE balance equals the freeze contributions of their
resting orders, per asset; balances are representable at save precision. -/
def WF (mp : MarketParams) (s : EngineState) : Prop :=
  (∀ k, isDp (mp.precOf k.asset) (s.bal k)) ∧
  (∀ o ∈ s.asks, askWF mp o) ∧
  (∀ o ∈ s.bids, bidWF mp o) ∧
  (∀ u, BalanceManager.get s.bal u BalanceType.FREEZE AssetKind.base =
    frozenSum u s.asks) ∧
  (∀ u, BalanceManager.get s.bal u BalanceType.FREEZE AssetKind.quote =
    frozenSum u s.bids)

/-! # Lemmas and theorems -/

/-! ## Rounding lemmas -/

theorem truncQ_intCast (n : ℤ) : truncQ (n : ℚ) = n := by
  unfold truncQ
  split <;> simp

theorem halfEvenZ_intCast (n : ℤ) : halfEvenZ (n : ℚ) = n := by
  unfold halfEvenZ
  norm_num

theorem ten_pow_pos (p : ℕ) : (0 : ℚ) < 10 ^ p := by positivity

theorem isDp.roundToZeroDp_eq {p : ℕ} {x : ℚ} (h : isDp p x) :
    roundToZeroDp p x = x := by
  obtain ⟨n, rfl⟩ := h
  have h10 : (10 : ℚ) ^ p ≠ 0 := ne_of_gt (ten_pow_pos p)
  unfold roundToZeroDp
  rw [div_mul_cancel₀ _ h10, truncQ_intCast]

theorem isDp.roundHalfEvenDp_eq {p : ℕ} {x : ℚ} (h : isDp p x) :
    roundHalfEvenDp p x = x := by
  obtain ⟨n, rfl⟩ := h
  have h10 : (10 : ℚ) ^ p ≠ 0 := ne_of_gt (ten_pow_pos p)
  unfold roundHalfEvenDp
  rw [div_mul_cancel₀ _ h10, halfEvenZ_intCast]

theorem isDp_roundToZeroDp (p : ℕ) (x : ℚ) : isDp p (roundToZeroDp p x) :=
  ⟨truncQ (x * 10 ^ p), rfl⟩

theorem isDp_roundHalfEvenDp (p : ℕ) (x : ℚ) : isDp p (roundHalfEvenDp p x) :=
  ⟨halfEvenZ (x * 10 ^ p), rfl⟩

theorem isDp_zero (p : ℕ) : isDp p 0 := ⟨0, by simp⟩

theorem isDp.add {p : ℕ} {x y : ℚ} (hx : isDp p x) (hy : isDp p y) :
    isDp p (x + y) := by
  obtain ⟨n, rfl⟩ := hx
  obtain ⟨m, rfl⟩ := hy
  exact ⟨n + m, by push_cast; ring⟩

theorem isDp.neg {p : ℕ} {x : ℚ} (hx : isDp p x) : isDp p (-x) := by
  obtain ⟨n, rfl⟩ := hx
  exact ⟨-n, by push_cast; ring⟩

theorem isDp.sub {p : ℕ} {x y : ℚ} (hx : isDp p x) (hy : isDp p y) :
    isDp p (x - y) := by
  simpa [sub_eq_add_neg] using hx.add hy.neg

theorem isDp.mono {p q : ℕ} {x : ℚ} (hpq : p ≤ q) (hx : isDp p x) : isDp q x := by
  obtain ⟨n, rfl⟩ := hx
  refine ⟨n * 10 ^ (q - p), ?_⟩
  have : q = p + (q - p) := by omega
  rw [this]
  push_cast
  rw [pow_add]
  field_simp
  ring

theorem isDp.mul {p q : ℕ} {x y : ℚ} (hx : isDp p x) (hy : isDp q y) :
    isDp (p + q) (x * y) := by
  obtain ⟨n, rfl⟩ := hx
  obtain ⟨m, rfl⟩ := hy
  refine ⟨n * m, ?_⟩
  push_cast
  rw [pow_add]
  field_simp

theorem isDp.min {p : ℕ} {x y : ℚ} (hx : isDp p x) (hy : isDp p y) :
    isDp p (min x y) := by
  rcases min_choice x y with h | h <;> rw [h] <;> assumption

theorem isDp.abs {p : ℕ} {x : ℚ} (hx : isDp p x) : isDp p |x| := by
  rcases abs_choice x with h | h <;> rw [h]
  · exact hx
  · exact hx.neg

theorem truncQ_nonneg {x : ℚ} (h : 0 ≤ x) : 0 ≤ truncQ x := by
  unfold truncQ
  rw [if_pos h]
  exact Int.floor_nonneg.mpr h

theorem truncQ_le {x : ℚ} (h : 0 ≤ x) : (truncQ x : ℚ) ≤ x := by
  unfold truncQ
  rw [if_pos h]
  exact Int.floor_le x

theorem roundToZeroDp_nonneg {x : ℚ} (p : ℕ) (h : 0 ≤ x) :
    0 ≤ roundToZeroDp p x := by
  unfold roundToZeroDp
  have h1 : 0 ≤ x * 10 ^ p := by positivity
  have h2 : (0 : ℚ) ≤ (truncQ (x * 10 ^ p) : ℚ) := by
    exact_mod_cast truncQ_nonneg h1
  positivity

theorem roundToZeroDp_le {x : ℚ} (p : ℕ) (h : 0 ≤ x) :
    roundToZeroDp p x ≤ x := by
  unfold roundToZeroDp
  have h1 : 0 ≤ x * 10 ^ p := by positivity
  have h2 := truncQ_le h1
  calc (truncQ (x * 10 ^ p) : ℚ) / 10 ^ p ≤ (x * 10 ^ p) / 10 ^ p :=
        div_le_div_of_nonneg_right h2 (ten_pow_pos p).le
    _ = x := by field_simp

/-! ## BalanceManager lemmas -/

theorem add_ok (prec : PrecOf) (b : Bal) (u : ℕ) (bt : BalanceType)
    (a : AssetKind) (amount : ℚ) (hamt : 0 ≤ amount)
    (hdp : isDp (prec a) amount) (hold : isDp (prec a) (b ⟨u, bt, a⟩))
    (hpos : 0 ≤ b ⟨u, bt, a⟩ + amount) :
    BalanceManager.add prec b u bt a amount =
      some (fun k => if k = ⟨u, bt, a⟩ then b ⟨u, bt, a⟩ + amount else b k,
            b ⟨u, bt, a⟩ + amount) := by
  have hnew : roundHalfEvenDp (prec a) (b ⟨u, bt, a⟩ + amount) =
      b ⟨u, bt, a⟩ + amount := (hold.add hdp).roundHalfEvenDp_eq
  unfold BalanceManager.add BalanceManager.setByKey
  rw [if_neg (not_lt.mpr hamt)]
  simp only [hdp.roundHalfEvenDp_eq]
  rw [if_neg (not_lt.mpr hpos)]
  simp only [Option.map_some']
  refine congrArg some ?_
  refine Prod.ext ?_ rfl
  funext k2
  by_cases hk : k2 = (⟨u, bt, a⟩ : BalanceMapKey) <;> simp [hk, hnew]

theorem sub_ok (prec : PrecOf) (b : Bal) (u : ℕ) (bt : BalanceType)
    (a : AssetKind) (amount : ℚ) (hamt : 0 ≤ amount)
    (hdp : isDp (prec a) amount) (hold : isDp (prec a) (b ⟨u, bt, a⟩))
    (hle : amount ≤ b ⟨u, bt, a⟩) :
    BalanceManager.sub prec b u bt a amount =
      some (fun k => if k = ⟨u, bt, a⟩ then b ⟨u, bt, a⟩ - amount else b k,
            b ⟨u, bt, a⟩ - amount) := by
  have hnew : roundHalfEvenDp (prec a) (b ⟨u, bt, a⟩ - amount) =
      b ⟨u, bt, a⟩ - amount := (hold.sub hdp).roundHalfEvenDp_eq
  unfold BalanceManager.sub BalanceManager.setByKey
  rw [if_neg (not_lt.mpr hamt)]
  simp only [hdp.roundHalfEvenDp_eq]
  rw [if_neg (not_lt.mpr hle)]
  rw [if_neg (not_lt.mpr (by linarith : (0 : ℚ) ≤ b ⟨u, bt, a⟩ - amount))]
  rw [if_neg (not_lt.mpr (by linarith : (0 : ℚ) ≤ b ⟨u, bt, a⟩ - amount))]
  simp only [Option.map_some']
  refine congrArg some ?_
  refine Prod.ext ?_ rfl
  funext k2
  by_cases hk : k2 = (⟨u, bt, a⟩ : BalanceMapKey) <;> simp [hk, hnew]

/-! ## Update-controller lemmas -/

theorem ubApply_ok (prec : PrecOf) (b : Bal) (p : BalanceUpdateParams)
    (hch : isDp (prec p.asset) p.change)
    (hold : isDp (prec p.asset) (b (bkey p)))
    (hpos : 0 ≤ b (bkey p) + p.change) :
    ubApply prec b p =
      some (some (fun k => if k = bkey p then b (bkey p) + p.change else b k)) := by
  simp only [bkey] at hold hpos ⊢
  unfold ubApply
  simp only [BalanceManager.get]
  by_cases hc : 0 ≤ p.change
  · rw [if_pos hc]
    have habs : |p.change| = p.change := abs_of_nonneg hc
    rw [habs,
      add_ok prec b p.user_id p.balance_type p.asset p.change hc hch hold hpos]
    rfl
  · push_neg at hc
    rw [if_neg (not_le.mpr hc)]
    have habs : |p.change| = -p.change := abs_of_neg hc
    have hle : -p.change ≤ b ⟨p.user_id, p.balance_type, p.asset⟩ := by linarith
    have hnn : 0 ≤ -p.change := by linarith
    rw [habs]
    rw [if_neg (not_lt.mpr hle),
      sub_ok prec b p.user_id p.balance_type p.asset (-p.change) hnn hch.neg hold hle]
    simp only [Option.map_some']
    refine congrArg some (congrArg some ?_)
    funext k2
    by_cases hk : k2 = (⟨p.user_id, p.balance_type, p.asset⟩ : BalanceMapKey) <;>
      simp [hk, sub_neg_eq_add]

theorem ub_dup (prec : PrecOf) (rp : Bool) (now : ℚ) (b : Bal) (c : Cache)
    (p : BalanceUpdateParams)
    (h : cacheContains c now (fingerprint p) = true) :
    updateUserBalance prec rp now b c p =
      (UbResult.err "duplicate request", b, c, []) := by
  unfold updateUserBalance
  rw [if_pos h]

theorem ub_ok_state (prec : PrecOf) (rp : Bool) (now : ℚ) (b : Bal) (c : Cache)
    (p : BalanceUpdateParams)
    (hch : isDp (prec p.asset) p.change)
    (hold : isDp (prec p.asset) (b (bkey p)))
    (hndup : cacheContains c now (fingerprint p) = false)
    (hpos : 0 ≤ b (bkey p) + p.change) :
    ∃ evs, updateUserBalance prec rp now b c p =
      (UbResult.ok, (fun k => if k = bkey p then b (bkey p) + p.change else b k),
       cacheInsert c now (fingerprint p), evs) := by
  unfold updateUserBalance
  rw [if_neg (by simp [hndup]), ubApply_ok prec b p hch hold hpos]
  exact ⟨_, rfl⟩

theorem ub_err_unchanged (prec : PrecOf) (rp : Bool) (now : ℚ) (b : Bal)
    (c : Cache) (p : BalanceUpdateParams) (e : String)
    (h : (updateUserBalance prec rp now b c p).1 = UbResult.err e) :
    updateUserBalance prec rp now b c p = (UbResult.err e, b, c, []) := by
  unfold updateUserBalance at h ⊢
  by_cases h1 : cacheContains c now (fingerprint p)
  · simp only [h1, if_true] at h ⊢
    obtain rfl : "duplicate request" = e := by
      simpa using h
    rfl
  · simp only [eq_false_intro h1, if_false, Bool.false_eq_true] at h ⊢
    rcases h2 : ubApply prec b p with _ | (_ | b2) <;> simp_all

theorem ub_ok_not_dup (prec : PrecOf) (rp : Bool) (now : ℚ) (b : Bal)
    (c : Cache) (p : BalanceUpdateParams)
    (h : (updateUserBalance prec rp now b c p).1 = UbResult.ok) :
    cacheContains c now (fingerprint p) = false := by
  by_cases h1 : cacheContains c now (fingerprint p)
  · rw [ub_dup prec rp now b c p h1] at h
    simp at h
  · simpa using h1

theorem ub_ok_cache (prec : PrecOf) (rp : Bool) (now : ℚ) (b : Bal)
    (c : Cache) (p : BalanceUpdateParams)
    (h : (updateUserBalance prec rp now b c p).1 = UbResult.ok) :
    (updateUserBalance prec rp now b c p).2.2.1 =
      cacheInsert c now (fingerprint p) := by
  have h1 := ub_ok_not_dup prec rp now b c p h
  unfold updateUserBalance at h ⊢
  simp only [h1, Bool.false_eq_true, if_false] at h ⊢
  rcases h2 : ubApply prec b p with _ | (_ | b2) <;> simp_all

theorem cacheContains_insert_self (c : Cache) (t t2 : ℚ) (k : BalanceUpdateKey)
    (h : t2 < t + 3600) :
    cacheContains (cacheInsert c t k) t2 k = true := by
  simp only [cacheContains, cacheInsert, List.any_cons, Bool.or_eq_true,
    decide_eq_true_eq]
  exact Or.inl ⟨trivial, h⟩

theorem ub_never_dup_after_clear (prec : PrecOf) (rp : Bool) (now : ℚ)
    (b : Bal) (c : Cache) (p : BalanceUpdateParams) :
    (updateUserBalance prec rp now b (onTimer c) p).1 ≠
      UbResult.err "duplicate request" ∧
    ((updateUserBalance prec rp now b (onTimer c) p).1 = UbResult.ok ∨
     (updateUserBalance prec rp now b (onTimer c) p).1 =
       UbResult.err "balance not enough" ∨
     (updateUserBalance prec rp now b (onTimer c) p).1 = UbResult.panic) := by
  have hnc : cacheContains (onTimer c) now (fingerprint p) = false := by
    simp [onTimer, cacheContains]
  unfold updateUserBalance
  simp only [hnc, Bool.false_eq_true, if_false]
  rcases h2 : ubApply prec b p with _ | (_ | b2) <;> simp

/-! ## Claim C5 — BalanceManager.sub -/

/-- C5 counterexample: with asset save precision 0, a current balance of 1
and amount 1.4, the current balance is strictly below the amount, yet `sub`
does not fail — it subtracts the half-even-rounded amount (1) and returns 0.
The claim as stated (fail whenever current < amount) is therefore false. -/
theorem C5_counterexample :
    (fun _ => (1 : ℚ) : Bal) ⟨7, BalanceType.AVAILABLE, AssetKind.base⟩ < 7 / 5 ∧
    (BalanceManager.sub (fun _ => 0) (fun _ => (1 : ℚ)) 7 BalanceType.AVAILABLE
        AssetKind.base (7 / 5)).map Prod.snd = some 0 := by
  have hf : (⌊(7 : ℚ) / 5⌋ : ℤ) = 1 := by norm_num [Int.floor_eq_iff]
  have h1 : roundHalfEvenDp 0 ((7 : ℚ) / 5) = 1 := by
    norm_num [roundHalfEvenDp, halfEvenZ, hf]
  constructor
  · norm_num
  · norm_num [BalanceManager.sub, BalanceManager.setByKey, h1, roundHalfEvenDp,
      halfEvenZ]

/-- C5 amended: `sub` first rounds the non-negative amount half-even to the
asset's save precision; it fails (leaving every balance unchanged, here: it
aborts before storing) iff the current balance is below that ROUNDED amount;
otherwise it subtracts the rounded amount and returns the new balance, which
is never negative, and no other key changes. -/
theorem C5_amended (prec : PrecOf) (b : Bal) (u : ℕ) (bt : BalanceType)
    (a : AssetKind) (amount : ℚ) (hamt : 0 ≤ amount)
    (hold : isDp (prec a) (b ⟨u, bt, a⟩)) :
    (b ⟨u, bt, a⟩ < roundHalfEvenDp (prec a) amount →
      BalanceManager.sub prec b u bt a amount = none) ∧
    (roundHalfEvenDp (prec a) amount ≤ b ⟨u, bt, a⟩ →
      ∃ b2, BalanceManager.sub prec b u bt a amount =
          some (b2, b ⟨u, bt, a⟩ - roundHalfEvenDp (prec a) amount) ∧
        0 ≤ b ⟨u, bt, a⟩ - roundHalfEvenDp (prec a) amount ∧
        b2 ⟨u, bt, a⟩ = b ⟨u, bt, a⟩ - roundHalfEvenDp (prec a) amount ∧
        ∀ k, k ≠ (⟨u, bt, a⟩ : BalanceMapKey) → b2 k = b k) := by
  have h0 : ¬ (amount < 0) := not_lt.mpr hamt
  constructor
  · intro hlt
    simp only [BalanceManager.sub, h0, if_false]
    rw [if_pos hlt]
  · intro hle
    have hdp2 := isDp_roundHalfEvenDp (prec a) amount
    have hnewdp := hold.sub hdp2
    have hnn : 0 ≤ b ⟨u, bt, a⟩ - roundHalfEvenDp (prec a) amount := by linarith
    refine ⟨fun k => if k = ⟨u, bt, a⟩ then
      b ⟨u, bt, a⟩ - roundHalfEvenDp (prec a) amount else b k, ?_, hnn, by simp,
      fun k hk => by simp [hk]⟩
    simp only [BalanceManager.sub, BalanceManager.setByKey, h0, if_false]
    rw [if_neg (not_lt.mpr hle), if_neg (not_lt.mpr hnn), if_neg (not_lt.mpr hnn)]
    simp only [Option.map_some']
    refine congrArg some (Prod.ext ?_ rfl)
    funext k2
    by_cases hk : k2 = (⟨u, bt, a⟩ : BalanceMapKey) <;>
      simp [hk, hnewdp.roundHalfEvenDp_eq]

/-- C5 amended witness: with save precision 2, balance 5 and amount 1, the
rounded amount is 1 ≤ 5, so `sub` succeeds. -/
theorem C5_amended_witness :
    0 ≤ (1 : ℚ) ∧
    BalanceManager.sub (fun _ => 2) (fun _ => (5 : ℚ)) 3 BalanceType.FREEZE
        AssetKind.quote 1 ≠ none := by
  refine ⟨by norm_num, ?_⟩
  have hr : roundHalfEvenDp 2 (1 : ℚ) = 1 :=
    isDp.roundHalfEvenDp_eq ⟨100, by norm_num [inC9, mpC9]⟩
  have h := C5_amended (fun _ => 2) (fun _ => (5 : ℚ)) 3 BalanceType.FREEZE
    AssetKind.quote 1 (by norm_num) ⟨500, by norm_num⟩
  obtain ⟨b2, heq, -, -, -⟩ := h.2 (by rw [hr]; norm_num)
  rw [heq]
  simp

/-! ## Claim C6 — duplicate-request deduplication -/

/-- C6 counterexample: two calls with the same fingerprint inside the TTL
window whose FIRST call fails ("balance not enough", so nothing is cached);
the second call then fails with "balance not enough" again, not with
"duplicate request" as the claim demands. -/
theorem C6_counterexample :
    (updateUserBalance (fun _ => 2) true 0 (fun _ => 0) [] pC6).1 =
      UbResult.err "balance not enough" ∧
    (updateUserBalance (fun _ => 2) true 1
        (updateUserBalance (fun _ => 2) true 0 (fun _ => 0) [] pC6).2.1
        (updateUserBalance (fun _ => 2) true 0 (fun _ => 0) [] pC6).2.2.1 pC6).1 =
      UbResult.err "balance not enough" ∧
    (updateUserBalance (fun _ => 2) true 1
        (updateUserBalance (fun _ => 2) true 0 (fun _ => 0) [] pC6).2.1
        (updateUserBalance (fun _ => 2) true 0 (fun _ => 0) [] pC6).2.2.1 pC6).1 ≠
      UbResult.err "duplicate request" := by
  have happ : ubApply (fun _ => 2) (fun _ => (0 : ℚ)) pC6 = none := by
    norm_num [ubApply, BalanceManager.get, pC6]
  have h1 : updateUserBalance (fun _ => 2) true 0 (fun _ => (0 : ℚ)) [] pC6 =
      (UbResult.err "balance not enough", fun _ => 0, [], []) := by
    unfold updateUserBalance
    rw [if_neg (by simp [cacheContains]), happ]
  have h2 : updateUserBalance (fun _ => 2) true 1 (fun _ => (0 : ℚ)) [] pC6 =
      (UbResult.err "balance not enough", fun _ => 0, [], []) := by
    unfold updateUserBalance
    rw [if_neg (by simp [cacheContains]), happ]
  rw [h1]
  refine ⟨rfl, ?_, ?_⟩
  · show (updateUserBalance (fun _ => 2) true 1 (fun _ => (0 : ℚ)) [] pC6).1 = _
    rw [h2]
  · show (updateUserBalance (fun _ => 2) true 1 (fun _ => (0 : ℚ)) [] pC6).1 ≠ _
    rw [h2]
    simp

/-- C6 amended: if the first call SUCCEEDS, then a second call whose
parameters yield the same fingerprint, within the 1-hour TTL window, fails
with "duplicate request" and mutates nothing; and any failing call returns
the ledger and the dedup cache unchanged with no events. -/
theorem C6_amended (prec : PrecOf) (rp rp2 : Bool) (t1 t2 : ℚ) (b b2 : Bal)
    (c : Cache) (p p2 : BalanceUpdateParams)
    (hfp : fingerprint p2 = fingerprint p)
    (hok : (updateUserBalance prec rp t1 b c p).1 = UbResult.ok)
    (ht : t2 < t1 + 3600) :
    updateUserBalance prec rp2 t2 b2 (updateUserBalance prec rp t1 b c p).2.2.1 p2 =
      (UbResult.err "duplicate request", b2,
        (updateUserBalance prec rp t1 b c p).2.2.1, []) ∧
    (∀ b3 c3 e, (updateUserBalance prec rp2 t2 b3 c3 p2).1 = UbResult.err e →
      updateUserBalance prec rp2 t2 b3 c3 p2 = (UbResult.err e, b3, c3, [])) := by
  constructor
  · rw [ub_ok_cache prec rp t1 b c p hok]
    apply ub_dup
    rw [hfp]
    exact cacheContains_insert_self c t1 t2 (fingerprint p) ht
  · intro b3 c3 e h
    exact ub_err_unchanged prec rp2 t2 b3 c3 p2 e h

/-- C6 amended witness: a deposit succeeds, and resubmitting the same
fingerprint 10 s later is rejected as a duplicate. -/
theorem C6_amended_witness :
    (updateUserBalance (fun _ => 2) true 10 (fun _ => 0)
        (updateUserBalance (fun _ => 2) true 0 (fun _ => 0) [] pC6ok).2.2.1
        pC6ok).1 = UbResult.err "duplicate request" := by
  obtain ⟨evs, heq⟩ := ub_ok_state (fun _ => 2) true 0 (fun _ => 0) [] pC6ok
    ⟨500, by norm_num [pC6ok]⟩ ⟨0, by norm_num⟩ (by simp [cacheContains])
    (by norm_num [pC6ok, bkey])
  have hok : (updateUserBalance (fun _ => 2) true 0 (fun _ => (0 : ℚ)) []
      pC6ok).1 = UbResult.ok := by rw [heq]
  have h := C6_amended (fun _ => 2) true true 0 10 (fun _ => 0) (fun _ => 0) []
    pC6ok pC6ok rfl hok (by norm_num)
  rw [h.1]

/-! ## Claim C10 — on_timer clears the whole cache -/

/-- C10: `on_timer` empties the entire dedup cache: a fingerprint accepted at
`t1` would still be live at `t2 < t1 + 3600` (second conjunct), yet after the
sweep an identical submission is no longer rejected as a duplicate (third
conjunct); the cache after the sweep is empty (first conjunct). -/
theorem C10_on_timer_clears_all (prec : PrecOf) (rp rp2 : Bool) (t1 t2 : ℚ)
    (b b2 : Bal) (c : Cache) (p p2 : BalanceUpdateParams)
    (hfp : fingerprint p2 = fingerprint p)
    (hok : (updateUserBalance prec rp t1 b c p).1 = UbResult.ok)
    (ht : t2 < t1 + 3600) :
    onTimer (updateUserBalance prec rp t1 b c p).2.2.1 = [] ∧
    cacheContains (updateUserBalance prec rp t1 b c p).2.2.1 t2 (fingerprint p2) =
      true ∧
    (updateUserBalance prec rp2 t2 b2
        (onTimer (updateUserBalance prec rp t1 b c p).2.2.1) p2).1 ≠
      UbResult.err "duplicate request" := by
  refine ⟨rfl, ?_, ?_⟩
  · rw [ub_ok_cache prec rp t1 b c p hok, hfp]
    exact cacheContains_insert_self c t1 t2 (fingerprint p) ht
  · exact (ub_never_dup_after_clear prec rp2 t2 b2 _ p2).1

/-- C10 witness: concrete deposit, sweep, resubmission 10 s later. -/
theorem C10_witness :
    (updateUserBalance (fun _ => 2) true 10 (fun _ => 0)
        (onTimer (updateUserBalance (fun _ => 2) true 0 (fun _ => 0) []
          pC6ok).2.2.1) pC6ok).1 ≠ UbResult.err "duplicate request" := by
  obtain ⟨evs, heq⟩ := ub_ok_state (fun _ => 2) true 0 (fun _ => 0) [] pC6ok
    ⟨500, by norm_num [pC6ok]⟩ ⟨0, by norm_num⟩ (by simp [cacheContains])
    (by norm_num [pC6ok, bkey])
  have hok : (updateUserBalance (fun _ => 2) true 0 (fun _ => (0 : ℚ)) []
      pC6ok).1 = UbResult.ok := by rw [heq]
  exact (C10_on_timer_clears_all (fun _ => 2) true true 0 10 (fun _ => 0)
    (fun _ => 0) [] pC6ok pC6ok rfl hok (by norm_num)).2.2

/-! ## Claim C7 — price-time priority of the book indices -/

theorem askKeyLt_iff (a b : Order) :
    askKeyLt a b ↔
      a.price < b.price ∨ (a.price = b.price ∧ a.id < b.id) := by
  unfold askKeyLt MarketKeyAsk.cmp Order.get_ask_key
  dsimp only
  split_ifs with h1 h2 h3 h4
  · exact iff_of_true rfl (Or.inl h1)
  · refine iff_of_false (by simp) ?_
    rintro (h | ⟨he, -⟩)
    · exact h1 h
    · rw [he] at h2
      exact lt_irrefl _ h2
  · have he : a.price = b.price := le_antisymm (not_lt.mp h2) (not_lt.mp h1)
    exact iff_of_true rfl (Or.inr ⟨he, h3⟩)
  · refine iff_of_false (by simp) ?_
    rintro (h | ⟨-, hid⟩)
    · exact h1 h
    · exact h3 hid
  · refine iff_of_false (by simp) ?_
    rintro (h | ⟨-, hid⟩)
    · exact h1 h
    · exact h3 hid

theorem bidKeyLt_iff (a b : Order) :
    bidKeyLt a b ↔
      b.price < a.price ∨ (a.price = b.price ∧ a.id < b.id) := by
  unfold bidKeyLt MarketKeyBid.cmp Order.get_bid_key
  dsimp only
  split_ifs with h1 h2 h3 h4
  · refine iff_of_false (by simp) ?_
    rintro (h | ⟨he, -⟩)
    · exact absurd h1 (not_lt.mpr h.le)
    · rw [he] at h1
      exact lt_irrefl _ h1
  · exact iff_of_true rfl (Or.inl h2)
  · have he : a.price = b.price := le_antisymm (not_lt.mp h2) (not_lt.mp h1)
    exact iff_of_true rfl (Or.inr ⟨he, h3⟩)
  · refine iff_of_false (by simp) ?_
    rintro (h | ⟨-, hid⟩)
    · exact h2 h
    · exact h3 hid
  · refine iff_of_false (by simp) ?_
    rintro (h | ⟨-, hid⟩)
    · exact h2 h
    · exact h3 hid

/-- C7: when the ask index is sorted by its key ordering (price ascending,
then id ascending — as the asks BTreeMap maintains) and the bid index by its
key ordering (price descending, then id ascending), iteration yields the
counter-side orders in price-time priority: for any earlier position `i` and
later position `j`, an ask at `i` has a strictly lower price or the same
price and a smaller (older) id; a bid at `i` has a strictly higher price or
the same price and a smaller id. -/
theorem C7_price_time_priority (asks bids : List Order)
    (ha : asks.Pairwise askKeyLt) (hb : bids.Pairwise bidKeyLt) :
    (∀ i j : Fin asks.length, i < j →
      (asks.get i).price < (asks.get j).price ∨
      ((asks.get i).price = (asks.get j).price ∧
       (asks.get i).id < (asks.get j).id)) ∧
    (∀ i j : Fin bids.length, i < j →
      (bids.get j).price < (bids.get i).price ∨
      ((bids.get i).price = (bids.get j).price ∧
       (bids.get i).id < (bids.get j).id)) := by
  constructor
  · intro i j hij
    exact (askKeyLt_iff _ _).mp (List.pairwise_iff_get.mp ha i j hij)
  · intro i j hij
    exact (bidKeyLt_iff _ _).mp (List.pairwise_iff_get.mp hb i j hij)

/-- C7 witness: a concrete sorted book with two asks and two bids. -/
theorem C7_witness :
    (([mkRest 1 OrderSide.ASK 1 5, mkRest 2 OrderSide.ASK 2 5] :
        List Order).get ⟨0, by norm_num⟩).price <
      (([mkRest 1 OrderSide.ASK 1 5, mkRest 2 OrderSide.ASK 2 5] :
        List Order).get ⟨1, by norm_num⟩).price ∨
    ((([mkRest 1 OrderSide.ASK 1 5, mkRest 2 OrderSide.ASK 2 5] :
        List Order).get ⟨0, by norm_num⟩).price =
      (([mkRest 1 OrderSide.ASK 1 5, mkRest 2 OrderSide.ASK 2 5] :
        List Order).get ⟨1, by norm_num⟩).price ∧
     (([mkRest 1 OrderSide.ASK 1 5, mkRest 2 OrderSide.ASK 2 5] :
        List Order).get ⟨0, by norm_num⟩).id <
      (([mkRest 1 OrderSide.ASK 1 5, mkRest 2 OrderSide.ASK 2 5] :
        List Order).get ⟨1, by norm_num⟩).id) := by
  have hA : ([mkRest 1 OrderSide.ASK 1 5, mkRest 2 OrderSide.ASK 2 5] :
      List Order).Pairwise askKeyLt := by
    simp [List.pairwise_cons, askKeyLt_iff, mkRest]
  have hB : ([mkRest 3 OrderSide.BID 2 5, mkRest 4 OrderSide.BID 1 5] :
      List Order).Pairwise bidKeyLt := by
    simp [List.pairwise_cons, bidKeyLt_iff, mkRest]
  exact (C7_price_time_priority _ _ hA hB).1 ⟨0, by norm_num⟩ ⟨1, by norm_num⟩
    (by norm_num)

/-! ## Claim C4 — rejected orders leave no trace -/

theorem executeOrder_not_rejected (mp : MarketParams) (rp : Bool) (now : ℚ)
    (s : EngineState) (q : ℚ) (t : Order) (e : String) :
    (executeOrder mp rp now s q t).1 ≠ POResult.rejected e := by
  unfold executeOrder
  dsimp only
  split
  · simp
  · split
    · simp
    · split_ifs <;> (repeat' split) <;> simp

/-- C4: whenever put_order rejects an order, the full engine state (order
book, balances, dedup cache, sequencer counters, last price) is returned
unchanged and no event — in particular no trade — is emitted; and put_order
rejects exactly when one of the claim's listed precondition failures holds. -/
theorem ifSomeNoneIff (c : Prop) [Decidable c] (e : String)
    (rest : Option String) :
    ((if c then some e else rest) = none) ↔ (¬ c ∧ rest = none) := by
  split_ifs with h <;> simp [h]

theorem orderCheck_none_iff (mp : MarketParams) (s : EngineState)
    (inp : OrderInput) :
    orderCheck mp s inp = none ↔ ¬ rejectCond mp s inp := by
  constructor
  · intro hoc
    unfold orderCheck at hoc
    simp only [ifSomeNoneIff] at hoc
    obtain ⟨h1, h2, h3, h4, h5, h6, h7, h8, h9, h10, h11, -⟩ := hoc
    rintro (hc | hc | hc | hc | hc | hc | hc | hc | hc)
    · exact h1 hc
    · exact h2 hc
    · exact h3 hc
    · exact h4 hc
    · exact h5 hc
    · rcases hc with ⟨hm, hp | hp | hp | hp⟩
      · exact h6 ⟨hm, hp⟩
      · exact h7 ⟨hm, hp⟩
      · exact h8 ⟨hm, Or.inl hp⟩
      · exact h8 ⟨hm, Or.inr hp⟩
    · exact h9 hc
    · exact h10 hc
    · exact h11 hc
  · intro hn
    have n1 : ¬(inp.type_ = OrderType.MARKET ∧ mp.disable_market_order) :=
      fun hc => hn (Or.inl hc)
    have n2 : ¬(inp.amount < mp.min_amount) :=
      fun hc => hn (Or.inr (Or.inl hc))
    have n3 : ¬(mp.fee_prec = 0 ∧ (inp.taker_fee ≠ 0 ∨ inp.maker_fee ≠ 0)) :=
      fun hc => hn (Or.inr (Or.inr (Or.inl hc)))
    have n4 : ¬(roundToZeroDp mp.amount_prec inp.amount ≠ inp.amount) :=
      fun hc => hn (Or.inr (Or.inr (Or.inr (Or.inl hc))))
    have n5 : ¬(roundHalfEvenDp mp.price_prec inp.price ≠ inp.price) :=
      fun hc => hn (Or.inr (Or.inr (Or.inr (Or.inr (Or.inl hc)))))
    have n6 : ¬(inp.type_ = OrderType.MARKET ∧ inp.price ≠ 0) :=
      fun hc => hn (Or.inr (Or.inr (Or.inr (Or.inr (Or.inr (Or.inl
        ⟨hc.1, Or.inl hc.2⟩))))))
    have n7 : ¬(inp.type_ = OrderType.MARKET ∧ inp.post_only = true) :=
      fun hc => hn (Or.inr (Or.inr (Or.inr (Or.inr (Or.inr (Or.inl
        ⟨hc.1, Or.inr (Or.inl hc.2)⟩))))))
    have n8 : ¬(inp.type_ = OrderType.MARKET ∧
        ((inp.side = OrderSide.ASK ∧ s.bids = []) ∨
         (inp.side = OrderSide.BID ∧ s.asks = []))) := by
      rintro ⟨hm, hp | hp⟩
      · exact hn (Or.inr (Or.inr (Or.inr (Or.inr (Or.inr (Or.inl
          ⟨hm, Or.inr (Or.inr (Or.inl hp))⟩))))))
      · exact hn (Or.inr (Or.inr (Or.inr (Or.inr (Or.inr (Or.inl
          ⟨hm, Or.inr (Or.inr (Or.inr hp))⟩))))))
    have n9 : ¬(inp.type_ ≠ OrderType.MARKET ∧ inp.price = 0) :=
      fun hc => hn (Or.inr (Or.inr (Or.inr (Or.inr (Or.inr (Or.inr
        (Or.inl hc)))))))
    have n10 : ¬(inp.side = OrderSide.ASK ∧
        BalanceManager.get s.bal inp.user_id BalanceType.AVAILABLE AssetKind.base <
          inp.amount) :=
      fun hc => hn (Or.inr (Or.inr (Or.inr (Or.inr (Or.inr (Or.inr (Or.inr
        (Or.inl hc))))))))
    have n11 : ¬(inp.side = OrderSide.BID ∧ inp.type_ = OrderType.LIMIT ∧
        BalanceManager.get s.bal inp.user_id BalanceType.AVAILABLE AssetKind.quote <
          inp.amount * inp.price) :=
      fun hc => hn (Or.inr (Or.inr (Or.inr (Or.inr (Or.inr (Or.inr (Or.inr
        (Or.inr hc))))))))
    unfold orderCheck
    simp only [ifSomeNoneIff]
    exact ⟨n1, n2, n3, n4, n5, n6, n7, n8, n9, n10, n11, trivial⟩

theorem C4_reject_no_state_change (mp : MarketParams) (rp : Bool) (now : ℚ)
    (s : EngineState) (inp : OrderInput) :
    (∀ e s2 evs, putOrder mp rp now s inp = (POResult.rejected e, s2, evs) →
      s2 = s ∧ evs = [] ∧ tradesOf evs = []) ∧
    ((∃ e, (putOrder mp rp now s inp).1 = POResult.rejected e) ↔
      rejectCond mp s inp) := by
  constructor
  · intro e s2 evs heq
    unfold putOrder at heq
    rcases hoc : orderCheck mp s inp with _ | e2
    · rw [hoc] at heq
      dsimp only at heq
      exact absurd (by rw [heq] :
          (executeOrder mp rp now { s with order_id := s.order_id + 1 }
            (computeQuoteLimit mp s.bal inp)
            { id := s.order_id + 1, type_ := inp.type_, side := inp.side,
              user := inp.user_id, post_only := inp.post_only,
              price := inp.price, amount := inp.amount,
              maker_fee := inp.maker_fee, taker_fee := inp.taker_fee,
              remain := inp.amount, frozen := 0, finished_base := 0,
              finished_quote := 0, finished_fee := 0 }).1 = POResult.rejected e)
          (executeOrder_not_rejected mp rp now _ _ _ e)
    · rw [hoc] at heq
      simp only [Prod.mk.injEq] at heq
      exact ⟨heq.2.1.symm, heq.2.2.symm, by rw [← heq.2.2]; rfl⟩
  · rcases hoc : orderCheck mp s inp with _ | e2
    · have hrc : ¬ rejectCond mp s inp := (orderCheck_none_iff mp s inp).mp hoc
      refine iff_of_false ?_ hrc
      rintro ⟨e, he⟩
      unfold putOrder at he
      rw [hoc] at he
      exact absurd he (executeOrder_not_rejected mp rp now _ _ _ e)
    · have hrc : rejectCond mp s inp := by
        by_contra hn
        rw [(orderCheck_none_iff mp s inp).mpr hn] at hoc
        exact absurd hoc (by simp)
      refine iff_of_true ⟨e2, ?_⟩ hrc
      unfold putOrder
      rw [hoc]

/-- C4 witness: a rejected order (amount below min_amount) leaves the state
unchanged and emits nothing. -/
theorem C4_witness :
    (putOrder mpC4 true 0 sC4 inC4).2.1 = sC4 ∧
    (putOrder mpC4 true 0 sC4 inC4).2.2 = [] := by
  have hchk : orderCheck mpC4 sC4 inC4 = some "invalid amount" := by
    unfold orderCheck
    rw [if_neg (by simp [inC4]), if_pos (by norm_num [inC4, mpC4])]
  have heq : putOrder mpC4 true 0 sC4 inC4 =
      (POResult.rejected "invalid amount", sC4, []) := by
    unfold putOrder
    rw [hchk]
  have h := (C4_reject_no_state_change mpC4 true 0 sC4 inC4).1
    "invalid amount" sC4 [] heq
  rw [heq]
  exact ⟨h.1, h.2.1⟩

/-! ## Claim C9 — post-only orders never trade as taker -/

theorem mem_insertAskList (o : Order) (l : List Order) : o ∈ insertAskList o l := by
  induction l with
  | nil => simp [insertAskList]
  | cons m rest ih =>
    unfold insertAskList
    split_ifs <;> simp [ih]

theorem mem_insertBidList (o : Order) (l : List Order) : o ∈ insertBidList o l := by
  induction l with
  | nil => simp [insertBidList]
  | cons m rest ih =>
    unfold insertBidList
    split_ifs <;> simp [ih]

theorem matchStep_remain_zero (mp : MarketParams) (rp : Bool) (now q : ℚ)
    (tia ilo ipo : Bool) (acc : MatchAcc) (maker : Order)
    (h : acc.taker.remain = 0) :
    matchStep mp rp now q tia ilo ipo acc maker =
      StepOut.brk { acc with kept := acc.kept ++ [maker] } := by
  unfold matchStep
  rw [if_pos h]

theorem matchStep_post_only (mp : MarketParams) (rp : Bool) (now q : ℚ)
    (tia ilo : Bool) (acc : MatchAcc) (maker : Order)
    (hr : ¬ acc.taker.remain = 0) :
    matchStep mp rp now q tia ilo true acc maker =
      if ilo = true ∧ (if tia = true then maker else acc.taker).price <
          (if tia = true then acc.taker else maker).price
      then StepOut.brk { acc with kept := acc.kept ++ [maker] }
      else StepOut.brk { acc with need_cancel := true, kept := acc.kept ++ [maker] } := by
  unfold matchStep
  rw [if_neg hr]
  dsimp only
  by_cases h1 : ilo = true ∧ (if tia = true then maker else acc.taker).price <
      (if tia = true then acc.taker else maker).price
  · rw [if_pos h1, if_pos h1]
  · rw [if_neg h1, if_neg h1]
    rw [if_pos rfl]

theorem executeOrder_post_only_spec (mp : MarketParams) (rp : Bool) (now q : ℚ)
    (s : EngineState) (t o : Order) (s2 : EngineState) (evs : List Event)
    (hpo : t.post_only = true) (hlim : t.type_ = OrderType.LIMIT)
    (heq : executeOrder mp rp now s q t = (POResult.ok o, s2, evs)) :
    tradesOf evs = [] ∧
    (crossHead t (if t.side = OrderSide.ASK then s.bids else s.asks) →
      o = t ∧ s2 = s ∧
      evs = [Event.order t OrderEventType.PUT,
             Event.order t OrderEventType.FINISH]) ∧
    (¬ crossHead t (if t.side = OrderSide.ASK then s.bids else s.asks) →
      t.remain ≠ 0 →
      ((t.side = OrderSide.ASK → s2.bids = s.bids ∧ o ∈ s2.asks) ∧
       (t.side = OrderSide.BID → s2.asks = s.asks ∧ o ∈ s2.bids))) := by
  unfold executeOrder at heq
  dsimp only at heq
  rcases hside : t.side with _ | _
  all_goals simp only [hside, hlim, hpo] at heq ⊢
  -- ASK taker: counter side is the bids
  · simp only [eq_self_iff_true, decide_True, reduceCtorEq, decide_False,
      if_true, if_false, reduceIte] at heq
    rcases hc : s.bids with _ | ⟨m, rest⟩
    · -- empty counter side: no match possible
      rw [hc] at heq
      simp only [matchLoop, finishOrders] at heq
      rw [if_neg (by simp), if_neg (by simp [hlim])] at heq
      by_cases hr0 : t.remain = 0
      · rw [if_pos hr0] at heq
        simp only [Prod.mk.injEq, POResult.ok.injEq] at heq
        obtain ⟨ho, hs2, hevs⟩ := heq
        refine ⟨by rw [← hevs]; rfl, ?_, ?_⟩
        · intro hcr
          rcases hcr with ⟨mm, hmm, -⟩
          simp [hc] at hmm
        · intro hncr hrne
          exact absurd hr0 hrne
      · rw [if_neg hr0] at heq
        unfold insertOrderIntoOrderbook at heq
        dsimp only at heq
        rw [if_pos hside, if_neg (by simp [hlim]), if_pos hside] at heq
        by_cases hdup : (s.asks.any
            (fun mm => mm.get_ask_key = ({ t with frozen := t.remain } : Order).get_ask_key))
        · rw [if_pos hdup] at heq
          simp at heq
        · rw [if_neg hdup] at heq
          dsimp only at heq
          rcases hfb : frozenBalance mp s.bal { t with frozen := t.remain } with _ | b6
          · rw [hfb] at heq
            simp at heq
          · rw [hfb] at heq
            simp only [Prod.mk.injEq, POResult.ok.injEq] at heq
            obtain ⟨ho, hs2, hevs⟩ := heq
            refine ⟨by rw [← hevs]; rfl, ?_, ?_⟩
            · rintro ⟨mm, hmm, -⟩
              simp [hc] at hmm
            · intro hncr hrne
              constructor
              · intro hra
                constructor
                · rw [← hs2]
                · rw [← hs2, ← ho]
                  simpa using mem_insertAskList _ _
              · intro hrb
                exact absurd hrb (by simp)
    · -- counter side has a head maker m
      rw [hc] at heq
      simp only [matchLoop] at heq
      by_cases hr0 : t.remain = 0
      · rw [matchStep_remain_zero mp rp now q true true true _ m hr0] at heq
        dsimp only at heq
        simp only [finishOrders, List.nil_append, List.cons_append] at heq
        rw [if_neg (by simp), if_neg (by simp [hlim]), if_pos hr0] at heq
        simp only [Prod.mk.injEq, POResult.ok.injEq] at heq
        obtain ⟨ho, hs2, hevs⟩ := heq
        refine ⟨by rw [← hevs]; rfl, ?_, ?_⟩
        · intro hcr
          refine ⟨ho.symm, ?_, hevs.symm⟩
          rw [← hs2, ← hc]
        · intro hncr hrne
          exact absurd hr0 hrne
      · rw [matchStep_post_only mp rp now q true true _ m hr0] at heq
        simp only [eq_self_iff_true, true_and, if_true, reduceIte] at heq
        by_cases hcr : m.price < t.price
        · -- book does not cross: the loop breaks, the order rests
          rw [if_pos hcr] at heq
          dsimp only at heq
          simp only [finishOrders, List.nil_append, List.cons_append] at heq
          rw [if_neg (by simp), if_neg (by simp [hlim]), if_neg hr0] at heq
          unfold insertOrderIntoOrderbook at heq
          dsimp only at heq
          rw [if_pos hside, if_neg (by simp [hlim]), if_pos hside] at heq
          by_cases hdup : (s.asks.any
              (fun mm => mm.get_ask_key = ({ t with frozen := t.remain } : Order).get_ask_key))
          · rw [if_pos hdup] at heq
            simp at heq
          · rw [if_neg hdup] at heq
            dsimp only at heq
            rcases hfb : frozenBalance mp s.bal { t with frozen := t.remain } with _ | b6
            · rw [hfb] at heq
              simp at heq
            · rw [hfb] at heq
              simp only [Prod.mk.injEq, POResult.ok.injEq] at heq
              obtain ⟨ho, hs2, hevs⟩ := heq
              refine ⟨by rw [← hevs]; rfl, ?_, ?_⟩
              · intro hcross
                exfalso
                obtain ⟨mm, hmm, hmp⟩ := hcross
                simp only [hside] at hmp
                simp at hmm
                subst hmm
                simp at hmp
                exact absurd hcr (by simpa using hmp)
              · intro hncr hrne
                constructor
                · intro hra
                  constructor
                  · rw [← hs2]
                  · rw [← hs2, ← ho]
                    simpa using mem_insertAskList _ _
                · intro hrb
                  exact absurd hrb (by simp)
        · -- book crosses: post-only cancels without a fill
          rw [if_neg hcr] at heq
          dsimp only at heq
          simp only [finishOrders, List.nil_append, List.cons_append] at heq
          rw [if_pos trivial] at heq
          simp only [Prod.mk.injEq, POResult.ok.injEq] at heq
          obtain ⟨ho, hs2, hevs⟩ := heq
          refine ⟨by rw [← hevs]; rfl, ?_, ?_⟩
          · intro hcross
            refine ⟨ho.symm, ?_, hevs.symm⟩
            rw [← hs2, ← hc]
          · intro hncr hrne
            exfalso
            apply hncr
            refine ⟨m, by simp, ?_⟩
            simp only [hside]
            simpa using hcr
  -- BID taker: counter side is the asks
  · simp only [eq_self_iff_true, decide_True, reduceCtorEq, decide_False,
      if_true, if_false, reduceIte] at heq
    rcases hc : s.asks with _ | ⟨m, rest⟩
    · rw [hc] at heq
      simp only [matchLoop, finishOrders] at heq
      rw [if_neg (by simp), if_neg (by simp [hlim])] at heq
      by_cases hr0 : t.remain = 0
      · rw [if_pos hr0] at heq
        simp only [Prod.mk.injEq, POResult.ok.injEq] at heq
        obtain ⟨ho, hs2, hevs⟩ := heq
        refine ⟨by rw [← hevs]; rfl, ?_, ?_⟩
        · intro hcr
          rcases hcr with ⟨mm, hmm, -⟩
          simp [hc] at hmm
        · intro hncr hrne
          exact absurd hr0 hrne
      · rw [if_neg hr0] at heq
        unfold insertOrderIntoOrderbook at heq
        simp only [hside, hlim, ne_eq, eq_self_iff_true, not_true, reduceCtorEq,
          if_false, reduceIte, ite_false, not_false_iff, if_true, ite_true] at heq
        split at heq
        · simp at heq
        · rename_i s3 taker2 hsome
          split at heq
          · simp at heq
          · rename_i b6 hfb
            split at hsome
            · exact absurd hsome (by simp)
            · simp only [Option.some.injEq, Prod.mk.injEq] at hsome
              obtain ⟨hs3, htk⟩ := hsome
              subst hs3
              subst htk
              simp only [Prod.mk.injEq, POResult.ok.injEq] at heq
              obtain ⟨ho, hs2, hevs⟩ := heq
              refine ⟨by rw [← hevs]; rfl, ?_, ?_⟩
              · rintro ⟨mm, hmm, -⟩
                simp [hc] at hmm
              · intro hncr hrne
                constructor
                · intro hra
                  exact absurd hra (by simp)
                · intro hrb
                  constructor
                  · rw [← hs2]
                  · rw [← hs2, ← ho]
                    simpa using mem_insertBidList _ _
    · rw [hc] at heq
      simp only [matchLoop] at heq
      by_cases hr0 : t.remain = 0
      · rw [matchStep_remain_zero mp rp now q false true true _ m hr0] at heq
        dsimp only at heq
        simp only [finishOrders, List.nil_append, List.cons_append] at heq
        rw [if_neg (by simp), if_neg (by simp [hlim]), if_pos hr0] at heq
        simp only [Prod.mk.injEq, POResult.ok.injEq] at heq
        obtain ⟨ho, hs2, hevs⟩ := heq
        refine ⟨by rw [← hevs]; rfl, ?_, ?_⟩
        · intro hcr
          refine ⟨ho.symm, ?_, hevs.symm⟩
          rw [← hs2, ← hc]
        · intro hncr hrne
          exact absurd hr0 hrne
      · rw [matchStep_post_only mp rp now q false true _ m hr0] at heq
        simp only [eq_self_iff_true, true_and, if_true, reduceCtorEq, false_and,
          if_false, reduceIte] at heq
        by_cases hcr : t.price < m.price
        · rw [if_pos hcr] at heq
          dsimp only at heq
          simp only [finishOrders, List.nil_append, List.cons_append] at heq
          rw [if_neg (by simp), if_neg (by simp [hlim]), if_neg hr0] at heq
          unfold insertOrderIntoOrderbook at heq
          simp only [hside, hlim, ne_eq, eq_self_iff_true, not_true, reduceCtorEq,
            if_false, reduceIte, ite_false, not_false_iff, if_true, ite_true] at heq
          split at heq
          · simp at heq
          · rename_i s3 taker2 hsome
            split at heq
            · simp at heq
            · rename_i b6 hfb
              split at hsome
              · exact absurd hsome (by simp)
              · simp only [Option.some.injEq, Prod.mk.injEq] at hsome
                obtain ⟨hs3, htk⟩ := hsome
                subst hs3
                subst htk
                simp only [Prod.mk.injEq, POResult.ok.injEq] at heq
                obtain ⟨ho, hs2, hevs⟩ := heq
                refine ⟨by rw [← hevs]; rfl, ?_, ?_⟩
                · intro hcross
                  exfalso
                  obtain ⟨mm, hmm, hmp⟩ := hcross
                  simp only [hside] at hmp
                  simp at hmm
                  subst hmm
                  simp at hmp
                  exact absurd hcr (by simpa using hmp)
                · intro hncr hrne
                  constructor
                  · intro hra
                    exact absurd hra (by simp)
                  · intro hrb
                    constructor
                    · rw [← hs2]
                    · rw [← hs2, ← ho]
                      simpa using mem_insertBidList _ _
        · rw [if_neg hcr] at heq
          dsimp only at heq
          simp only [finishOrders, List.nil_append, List.cons_append] at heq
          rw [if_pos trivial] at heq
          simp only [Prod.mk.injEq, POResult.ok.injEq] at heq
          obtain ⟨ho, hs2, hevs⟩ := heq
          refine ⟨by rw [← hevs]; rfl, ?_, ?_⟩
          · intro hcross
            refine ⟨ho.symm, ?_, hevs.symm⟩
            rw [← hs2, ← hc]
          · intro hncr hrne
            exfalso
            apply hncr
            refine ⟨m, by simp, ?_⟩
            simp only [hside]
            simpa using hcr

/-! ## Claim C9 — post-only orders never trade as taker -/

theorem putOrder_C9_eval :
    putOrder mpC9 false 0 sC9 inC9 =
      (POResult.ok (takerOf sC9 inC9), { sC9 with order_id := 1 },
       [Event.order (takerOf sC9 inC9) OrderEventType.PUT,
        Event.order (takerOf sC9 inC9) OrderEventType.FINISH]) := by
  have h4 : roundToZeroDp mpC9.amount_prec inC9.amount = inC9.amount :=
    (isDp_zero mpC9.amount_prec).roundToZeroDp_eq
  have h5 : roundHalfEvenDp mpC9.price_prec inC9.price = inC9.price :=
    isDp.roundHalfEvenDp_eq ⟨100, by norm_num [inC9, mpC9]⟩
  have hoc : orderCheck mpC9 sC9 inC9 = none := by
    unfold orderCheck
    rw [if_neg (by simp [inC9, mpC9]), if_neg (by norm_num [inC9, mpC9]),
        if_neg (by simp [mpC9]), if_neg (by simp [h4]),
        if_neg (by simp [h5]), if_neg (by simp [inC9]),
        if_neg (by simp [inC9]), if_neg (by simp [inC9]),
        if_neg (by norm_num [inC9]), if_neg (by simp [inC9]),
        if_neg (by norm_num [inC9, sC9, BalanceManager.get])]
  unfold putOrder
  rw [hoc]
  rfl

/-- C9 counterexample: the claim says a post-only order that cannot match
"rests in the book", but a zero-amount post-only limit bid (legal when
min_amount is 0) is accepted against an empty book — no match is possible —
yet it is finalized (PUT then FINISH) and rests on neither side. -/
theorem C9_counterexample :
    inC9.post_only = true ∧
    (∃ o, (putOrder mpC9 false 0 sC9 inC9).1 = POResult.ok o) ∧
    ¬ crossHead (takerOf sC9 inC9) sC9.asks ∧
    tradesOf (putOrder mpC9 false 0 sC9 inC9).2.2 = [] ∧
    (putOrder mpC9 false 0 sC9 inC9).2.1.bids = [] ∧
    (putOrder mpC9 false 0 sC9 inC9).2.1.asks = [] ∧
    (putOrder mpC9 false 0 sC9 inC9).2.2 =
      [Event.order (takerOf sC9 inC9) OrderEventType.PUT,
       Event.order (takerOf sC9 inC9) OrderEventType.FINISH] := by
  rw [putOrder_C9_eval]
  refine ⟨rfl, ⟨takerOf sC9 inC9, rfl⟩, ?_, rfl, rfl, rfl, rfl⟩
  rintro ⟨m, hm, -⟩
  simp [sC9] at hm

/-- C9 (amended): a post-only order accepted by put_order never produces a
trade as taker; if the head of the counter side crosses its limit price it is
finalized (PUT then FINISH events, no fill, book and balances untouched), and
otherwise — provided its amount is nonzero — it rests in the book on its own
side, leaving the counter side unchanged.  (A zero-amount post-only order is
instead finalized immediately.) -/
theorem C9_amended (mp : MarketParams) (rp : Bool) (now : ℚ) (s : EngineState)
    (inp : OrderInput) (o : Order) (s2 : EngineState) (evs : List Event)
    (hpo : inp.post_only = true)
    (heq : putOrder mp rp now s inp = (POResult.ok o, s2, evs)) :
    tradesOf evs = [] ∧
    (crossHead (takerOf s inp)
        (if inp.side = OrderSide.ASK then s.bids else s.asks) →
      o = takerOf s inp ∧ s2 = { s with order_id := s.order_id + 1 } ∧
      evs = [Event.order (takerOf s inp) OrderEventType.PUT,
             Event.order (takerOf s inp) OrderEventType.FINISH]) ∧
    (¬ crossHead (takerOf s inp)
        (if inp.side = OrderSide.ASK then s.bids else s.asks) →
      inp.amount ≠ 0 →
      ((inp.side = OrderSide.ASK → s2.bids = s.bids ∧ o ∈ s2.asks) ∧
       (inp.side = OrderSide.BID → s2.asks = s.asks ∧ o ∈ s2.bids))) := by
  rcases hoc : orderCheck mp s inp with _ | e
  · have hnr := (orderCheck_none_iff mp s inp).mp hoc
    have hlim : inp.type_ = OrderType.LIMIT := by
      cases htype : inp.type_
      · rfl
      · exact absurd (Or.inr (Or.inr (Or.inr (Or.inr (Or.inr (Or.inl
          ⟨htype, Or.inr (Or.inl hpo)⟩)))))) hnr
    unfold putOrder at heq
    rw [hoc] at heq
    exact executeOrder_post_only_spec mp rp now
      (computeQuoteLimit mp s.bal inp)
      { s with order_id := s.order_id + 1 } (takerOf s inp) o s2 evs
      hpo hlim heq
  · unfold putOrder at heq
    rw [hoc] at heq
    simp at heq

theorem C9_amended_witness :
    inC9.post_only = true ∧
    tradesOf (putOrder mpC9 false 0 sC9 inC9).2.2 = [] := by
  refine ⟨rfl, ?_⟩
  have h := C9_amended mpC9 false 0 sC9 inC9 (takerOf sC9 inC9)
    { sC9 with order_id := 1 }
    [Event.order (takerOf sC9 inC9) OrderEventType.PUT,
     Event.order (takerOf sC9 inC9) OrderEventType.FINISH]
    rfl putOrder_C9_eval
  rw [putOrder_C9_eval]
  exact h.1

/-! ## Claim C8 — trade field correctness (helper lemmas) -/

theorem tradesOf_append (a b : List Event) :
    tradesOf (a ++ b) = tradesOf a ++ tradesOf b := by
  simp [tradesOf]

theorem tradesOf_ubEvents (rp : Bool) (b : Bal) (p : BalanceUpdateParams) :
    tradesOf (ubEvents rp b p) = [] := by
  unfold ubEvents
  split
  · cases p.business_type <;> simp [tradesOf]
  · rfl

theorem trades_updateUserBalance (prec : PrecOf) (rp : Bool) (now : ℚ)
    (b : Bal) (c : Cache) (p : BalanceUpdateParams) :
    tradesOf (updateUserBalance prec rp now b c p).2.2.2 = [] := by
  unfold updateUserBalance
  dsimp only
  split
  · rfl
  · split
    · rfl
    · rfl
    · exact tradesOf_ubEvents rp _ p

theorem trades_tradeBalanceUpdates (prec : PrecOf) (rp : Bool) (now : ℚ)
    (b : Bal) (c : Cache) (tid : ℕ) (mia : Bool) (au bu : ℕ)
    (tb tq bf af : ℚ) (b4 : Bal) (c4 : Cache) (evs : List Event)
    (h : tradeBalanceUpdates prec rp now b c tid mia au bu tb tq bf af =
      some (b4, c4, evs)) :
    tradesOf evs = [] := by
  unfold tradeBalanceUpdates at h
  dsimp only at h
  split at h
  · rename_i b1 c1 ev1 heq1
    split at h
    · rename_i b2 c2 ev2 heq2
      split at h
      · rename_i b3 c3 ev3 heq3
        split at h
        · rename_i b4x c4x ev4 heq4
          simp only [Option.some.injEq, Prod.mk.injEq] at h
          obtain ⟨-, -, hevs⟩ := h
          have t1 := congrArg (fun r => tradesOf r.2.2.2) heq1
          have t2 := congrArg (fun r => tradesOf r.2.2.2) heq2
          have t3 := congrArg (fun r => tradesOf r.2.2.2) heq3
          have t4 := congrArg (fun r => tradesOf r.2.2.2) heq4
          dsimp only at t1 t2 t3 t4
          rw [trades_updateUserBalance] at t1 t2 t3 t4
          rw [← hevs]
          simp only [tradesOf_append, ← t1, ← t2, ← t3, ← t4]
          rfl
        · simp at h
      · simp at h
    · simp at h
  · simp at h

theorem matchStep_next_trades (mp : MarketParams) (rp : Bool) (now ql : ℚ)
    (tia ilo ipo : Bool) (acc : MatchAcc) (maker : Order) (acc2 : MatchAcc)
    (h : matchStep mp rp now ql tia ilo ipo acc maker = StepOut.next acc2) :
    acc2.taker.taker_fee = acc.taker.taker_fee ∧
    ∀ tr ∈ tradesOf acc2.events,
      tr ∈ tradesOf acc.events ∨
      (tr.quote_amount = tr.price * tr.amount ∧ tr.price = maker.price ∧
       tr.bid_fee = roundToZeroDp mp.base_prec
         (tr.amount * (if tia then maker.maker_fee else acc.taker.taker_fee)) ∧
       tr.ask_fee = roundToZeroDp mp.quote_prec
         (tr.quote_amount *
           (if tia then acc.taker.taker_fee else maker.maker_fee))) := by
  unfold matchStep at h
  split at h
  · exact StepOut.noConfusion h
  · lift_lets at h
    extract_lets taker ask_fee_rate bid_fee_rate price ask_order bid_order
      taker_is_bid is_market_order tb0 overLimit tb tq quote_sum
      bid_fee ask_fee trade_id trade ask_order2 bid_order2
      taker2 maker2 maker_is_bid maker3 at h
    by_cases c2 : ilo = true ∧ bid_order.price < ask_order.price
    · rw [if_pos c2] at h
      exact StepOut.noConfusion h
    rw [if_neg c2] at h
    by_cases c3 : ipo = true
    · rw [if_pos c3] at h
      exact StepOut.noConfusion h
    rw [if_neg c3] at h
    by_cases c4 : ask_order.user = bid_order.user ∧ mp.disable_self_trade = true
    · rw [if_pos c4] at h
      exact StepOut.noConfusion h
    rw [if_neg c4] at h
    by_cases c5 : overLimit ∧ tb = 0
    · rw [if_pos c5] at h
      exact StepOut.noConfusion h
    rw [if_neg c5] at h
    by_cases c6 : tb = 0
    · rw [if_pos c6] at h
      exact StepOut.noConfusion h
    rw [if_neg c6] at h
    by_cases c7 : tq = 0
    · rw [if_pos c7] at h
      exact StepOut.noConfusion h
    rw [if_neg c7] at h
    by_cases c8 : taker_is_bid ∧ is_market_order ∧ ql < quote_sum
    · rw [if_pos c8] at h
      exact StepOut.noConfusion h
    rw [if_neg c8] at h
    by_cases c9 : mp.disable_self_trade = true ∧
      trade.ask_user_id = trade.bid_user_id
    · rw [if_pos c9] at h
      exact StepOut.noConfusion h
    rw [if_neg c9] at h
    by_cases c10 : ask_order2.remain < 0
    · rw [if_pos c10] at h
      exact StepOut.noConfusion h
    rw [if_neg c10] at h
    by_cases c11 : bid_order2.remain < 0
    · rw [if_pos c11] at h
      exact StepOut.noConfusion h
    rw [if_neg c11] at h
    split at h
    · exact StepOut.noConfusion h
    · rename_i b4 c4x ubEvs heqtbu
      lift_lets at h
      extract_lets acc3 at h
      have hub : tradesOf ubEvs = [] :=
        trades_tradeBalanceUpdates _ _ _ _ _ _ _ _ _ _ _ _ _ _ _ _ heqtbu
      have htf : taker2.taker_fee = acc.taker.taker_fee := by
        show (if tia = true then ask_order2 else bid_order2).taker_fee =
          acc.taker.taker_fee
        by_cases htia : tia = true
        · rw [if_pos htia]
          show (if tia = true then acc.taker else maker).taker_fee =
            acc.taker.taker_fee
          rw [if_pos htia]
        · rw [if_neg htia]
          show (if tia = true then maker else acc.taker).taker_fee =
            acc.taker.taker_fee
          rw [if_neg htia]
      by_cases c13 : maker3.remain = 0
      · rw [if_pos c13] at h
        cases h
        refine ⟨htf, ?_⟩
        intro tr htr
        have htr2 : tr ∈ tradesOf
            (acc.events ++ ubEvs ++ [Event.trade trade]) := htr
        rw [tradesOf_append, tradesOf_append, hub] at htr2
        simp only [tradesOf, List.filterMap_cons, List.filterMap_nil,
          List.append_nil, List.mem_append, List.mem_singleton] at htr2
        rcases htr2 with htr2 | htr2
        · exact Or.inl htr2
        · subst htr2
          exact Or.inr ⟨rfl, rfl, rfl, rfl⟩
      · rw [if_neg c13] at h
        cases h
        refine ⟨htf, ?_⟩
        intro tr htr
        have htr2 : tr ∈ tradesOf
            (acc.events ++ ubEvs ++ [Event.trade trade] ++
             [Event.order maker3 OrderEventType.UPDATE]) := htr
        rw [tradesOf_append, tradesOf_append, tradesOf_append, hub] at htr2
        simp only [tradesOf, List.filterMap_cons, List.filterMap_nil,
          List.append_nil, List.mem_append, List.mem_singleton] at htr2
        rcases htr2 with htr2 | htr2
        · exact Or.inl htr2
        · subst htr2
          exact Or.inr ⟨rfl, rfl, rfl, rfl⟩

theorem matchStep_brk_events (mp : MarketParams) (rp : Bool) (now ql : ℚ)
    (tia ilo ipo : Bool) (acc : MatchAcc) (maker : Order) (acc2 : MatchAcc)
    (h : matchStep mp rp now ql tia ilo ipo acc maker = StepOut.brk acc2) :
    acc2.events = acc.events ∧ acc2.taker = acc.taker ∧
    acc2.quote_sum = acc.quote_sum ∧ acc2.bal = acc.bal ∧
    acc2.finished = acc.finished ∧ acc2.kept = acc.kept ++ [maker] := by
  unfold matchStep at h
  split at h
  · cases h
    exact ⟨rfl, rfl, rfl, rfl, rfl, rfl⟩
  · lift_lets at h
    extract_lets taker ask_fee_rate bid_fee_rate price ask_order bid_order
      taker_is_bid is_market_order tb0 overLimit tb tq quote_sum
      bid_fee ask_fee trade_id trade ask_order2 bid_order2
      taker2 maker2 maker_is_bid maker3 at h
    by_cases c2 : ilo = true ∧ bid_order.price < ask_order.price
    · rw [if_pos c2] at h
      cases h
      exact ⟨rfl, rfl, rfl, rfl, rfl, rfl⟩
    rw [if_neg c2] at h
    by_cases c3 : ipo = true
    · rw [if_pos c3] at h
      cases h
      exact ⟨rfl, rfl, rfl, rfl, rfl, rfl⟩
    rw [if_neg c3] at h
    by_cases c4 : ask_order.user = bid_order.user ∧ mp.disable_self_trade = true
    · rw [if_pos c4] at h
      cases h
      exact ⟨rfl, rfl, rfl, rfl, rfl, rfl⟩
    rw [if_neg c4] at h
    by_cases c5 : overLimit ∧ tb = 0
    · rw [if_pos c5] at h
      cases h
      exact ⟨rfl, rfl, rfl, rfl, rfl, rfl⟩
    rw [if_neg c5] at h
    by_cases c6 : tb = 0
    · rw [if_pos c6] at h
      exact StepOut.noConfusion h
    rw [if_neg c6] at h
    by_cases c7 : tq = 0
    · rw [if_pos c7] at h
      exact StepOut.noConfusion h
    rw [if_neg c7] at h
    by_cases c8 : taker_is_bid ∧ is_market_order ∧ ql < quote_sum
    · rw [if_pos c8] at h
      exact StepOut.noConfusion h
    rw [if_neg c8] at h
    by_cases c9 : mp.disable_self_trade = true ∧
      trade.ask_user_id = trade.bid_user_id
    · rw [if_pos c9] at h
      exact StepOut.noConfusion h
    rw [if_neg c9] at h
    by_cases c10 : ask_order2.remain < 0
    · rw [if_pos c10] at h
      exact StepOut.noConfusion h
    rw [if_neg c10] at h
    by_cases c11 : bid_order2.remain < 0
    · rw [if_pos c11] at h
      exact StepOut.noConfusion h
    rw [if_neg c11] at h
    split at h
    · exact StepOut.noConfusion h
    · rename_i b4 c4x ubEvs heqtbu
      lift_lets at h
      extract_lets acc3 at h
      by_cases c13 : maker3.remain = 0
      · rw [if_pos c13] at h
        exact StepOut.noConfusion h
      · rw [if_neg c13] at h
        exact StepOut.noConfusion h

theorem trades_finishOrders (mp : MarketParams) (b : Bal) (os : List Order)
    (b2 : Bal) (evs : List Event)
    (h : finishOrders mp b os = some (b2, evs)) : tradesOf evs = [] := by
  induction os generalizing b evs with
  | nil =>
    simp only [finishOrders, Option.some.injEq, Prod.mk.injEq] at h
    rw [← h.2]
    rfl
  | cons o rest ih =>
    rw [finishOrders] at h
    rcases hu : unfrozenBalance mp b o with _ | b3
    · rw [hu] at h
      exact Option.noConfusion h
    · rw [hu] at h
      dsimp only at h
      rcases hf : finishOrders mp b3 rest with _ | ⟨b4, evs2⟩
      · rw [hf] at h
        exact Option.noConfusion h
      · rw [hf] at h
        simp only [Option.some.injEq, Prod.mk.injEq] at h
        obtain ⟨hb, hevs⟩ := h
        rw [← hevs]
        simpa [tradesOf] using ih b3 evs2 (hb ▸ hf)

theorem matchLoop_trades (mp : MarketParams) (rp : Bool) (now ql : ℚ)
    (tia ilo ipo : Bool) (makers : List Order) (acc acc2 : MatchAcc)
    (h : matchLoop mp rp now ql tia ilo ipo acc makers = some acc2) :
    acc2.taker.taker_fee = acc.taker.taker_fee ∧
    ∀ tr ∈ tradesOf acc2.events,
      tr ∈ tradesOf acc.events ∨
      ∃ mk ∈ makers,
        tr.quote_amount = tr.price * tr.amount ∧ tr.price = mk.price ∧
        tr.bid_fee = roundToZeroDp mp.base_prec
          (tr.amount * (if tia then mk.maker_fee else acc.taker.taker_fee)) ∧
        tr.ask_fee = roundToZeroDp mp.quote_prec
          (tr.quote_amount *
            (if tia then acc.taker.taker_fee else mk.maker_fee)) := by
  induction makers generalizing acc with
  | nil =>
    simp only [matchLoop, Option.some.injEq] at h
    subst h
    exact ⟨rfl, fun tr htr => Or.inl htr⟩
  | cons maker rest ih =>
    rw [matchLoop] at h
    rcases hstep : matchStep mp rp now ql tia ilo ipo acc maker
      with acc3 | _ | acc3
    · rw [hstep] at h
      simp only [Option.some.injEq] at h
      subst h
      obtain ⟨hev, htk, -, -, -, -⟩ :=
        matchStep_brk_events _ _ _ _ _ _ _ _ _ _ hstep
      refine ⟨?_, ?_⟩
      · show acc3.taker.taker_fee = acc.taker.taker_fee
        rw [htk]
      · intro tr htr
        have htr2 : tr ∈ tradesOf acc3.events := htr
        rw [hev] at htr2
        exact Or.inl htr2
    · rw [hstep] at h
      exact Option.noConfusion h
    · rw [hstep] at h
      obtain ⟨htf, hstept⟩ := matchStep_next_trades _ _ _ _ _ _ _ _ _ _ hstep
      obtain ⟨ihtf, ihtr⟩ := ih acc3 h
      refine ⟨ihtf.trans htf, ?_⟩
      intro tr htr
      rcases ihtr tr htr with htr2 | ⟨mk, hmk, hp⟩
      · rcases hstept tr htr2 with htr3 | hnew
        · exact Or.inl htr3
        · exact Or.inr ⟨maker, List.mem_cons_self _ _, hnew⟩
      · rw [htf] at hp
        exact Or.inr ⟨mk, List.mem_cons_of_mem _ hmk, hp⟩

/-- C8: every Trade produced by put_order has the matched maker's resting
price, quote_amount = price × amount, bid_fee = traded base × bid fee rate
rounded toward zero at the base asset's save precision, ask_fee = traded
quote × ask fee rate rounded toward zero at the quote asset's save
precision, where the taker leg uses the input's taker_fee rate and the
maker leg the resting maker's maker_fee rate. -/
theorem C8_trade_fields (mp : MarketParams) (rp : Bool) (now : ℚ)
    (s : EngineState) (inp : OrderInput) (res : POResult) (s2 : EngineState)
    (evs : List Event)
    (heq : putOrder mp rp now s inp = (res, s2, evs)) :
    ∀ tr ∈ tradesOf evs,
      tr.quote_amount = tr.price * tr.amount ∧
      ∃ mk ∈ (if inp.side = OrderSide.ASK then s.bids else s.asks),
        tr.price = mk.price ∧
        tr.bid_fee = roundToZeroDp mp.base_prec
          (tr.amount *
            (if inp.side = OrderSide.ASK then mk.maker_fee
             else inp.taker_fee)) ∧
        tr.ask_fee = roundToZeroDp mp.quote_prec
          (tr.quote_amount *
            (if inp.side = OrderSide.ASK then inp.taker_fee
             else mk.maker_fee)) := by
  have hPUT : ∀ (o : Order) (ty : OrderEventType),
      tradesOf [Event.order o ty] = [] := fun _ _ => rfl
  unfold putOrder at heq
  rcases hoc : orderCheck mp s inp with _ | e
  · rw [hoc] at heq
    dsimp only at heq
    unfold executeOrder at heq
    dsimp only at heq
    split at heq
    · simp only [Prod.mk.injEq] at heq
      obtain ⟨-, -, hevs⟩ := heq
      intro tr htr
      rw [← hevs] at htr
      simp [tradesOf] at htr
    · rename_i acc hml
      split at heq
      · simp only [Prod.mk.injEq] at heq
        obtain ⟨-, -, hevs⟩ := heq
        intro tr htr
        rw [← hevs] at htr
        simp [tradesOf] at htr
      · rename_i b5 finEvents hfo
        have hfin : tradesOf finEvents = [] :=
          trades_finishOrders _ _ _ _ _ hfo
        have hmain := matchLoop_trades _ _ _ _ _ _ _ _ _ _ hml
        have hconc : ∀ tr, tr ∈ tradesOf acc.events →
            (tr.quote_amount = tr.price * tr.amount ∧
             ∃ mk ∈ (if inp.side = OrderSide.ASK then s.bids else s.asks),
               tr.price = mk.price ∧
               tr.bid_fee = roundToZeroDp mp.base_prec
                 (tr.amount *
                   (if inp.side = OrderSide.ASK then mk.maker_fee
                    else inp.taker_fee)) ∧
               tr.ask_fee = roundToZeroDp mp.quote_prec
                 (tr.quote_amount *
                   (if inp.side = OrderSide.ASK then inp.taker_fee
                    else mk.maker_fee))) := by
          intro tr htr
          rcases hmain.2 tr htr with h0 | ⟨mk, hmk, hqa, hpr, hbf, haf⟩
          · exact absurd h0 (by simp [tradesOf])
          · dsimp only at hmk hbf haf
            by_cases hside : inp.side = OrderSide.ASK
            · refine ⟨hqa, mk, ?_, hpr, ?_, ?_⟩
              · simpa [hside] using hmk
              · simpa [hside] using hbf
              · simpa [hside] using haf
            · refine ⟨hqa, mk, ?_, hpr, ?_, ?_⟩
              · simpa [hside] using hmk
              · simpa [hside] using hbf
              · simpa [hside] using haf
        split at heq
        · simp only [Prod.mk.injEq] at heq
          obtain ⟨-, -, hevs⟩ := heq
          intro tr htr
          rw [← hevs] at htr
          simp only [tradesOf_append, hfin, hPUT, List.append_nil,
            List.nil_append] at htr
          exact hconc tr htr
        · split at heq
          · simp only [Prod.mk.injEq] at heq
            obtain ⟨-, -, hevs⟩ := heq
            intro tr htr
            rw [← hevs] at htr
            simp only [tradesOf_append, hfin, hPUT, List.append_nil,
              List.nil_append] at htr
            exact hconc tr htr
          · split at heq
            · simp only [Prod.mk.injEq] at heq
              obtain ⟨-, -, hevs⟩ := heq
              intro tr htr
              rw [← hevs] at htr
              simp only [tradesOf_append, hfin, hPUT, List.append_nil,
                List.nil_append] at htr
              exact hconc tr htr
            · split at heq
              · simp only [Prod.mk.injEq] at heq
                obtain ⟨-, -, hevs⟩ := heq
                intro tr htr
                rw [← hevs] at htr
                simp [tradesOf] at htr
              · rename_i s3 taker2 hins
                split at heq
                · simp only [Prod.mk.injEq] at heq
                  obtain ⟨-, -, hevs⟩ := heq
                  intro tr htr
                  rw [← hevs] at htr
                  simp [tradesOf] at htr
                · simp only [Prod.mk.injEq] at heq
                  obtain ⟨-, -, hevs⟩ := heq
                  intro tr htr
                  rw [← hevs] at htr
                  simp only [tradesOf_append, hfin, hPUT, List.append_nil,
                    List.nil_append] at htr
                  exact hconc tr htr
  · rw [hoc] at heq
    simp only [Prod.mk.injEq] at heq
    obtain ⟨-, -, hevs⟩ := heq
    intro tr htr
    rw [← hevs] at htr
    simp [tradesOf] at htr

/-! ## Claim C2 — per-trade conservation (helper lemmas) -/

theorem ubApply_ok_inv (prec : PrecOf) (b : Bal) (p : BalanceUpdateParams)
    (b2 : Bal)
    (hch : isDp (prec p.asset) p.change)
    (hold : isDp (prec p.asset) (b (bkey p)))
    (h : ubApply prec b p = some (some b2)) :
    b2 = (fun k => if k = bkey p then b (bkey p) + p.change else b k) ∧
    0 ≤ b (bkey p) + p.change := by
  by_cases hc : 0 ≤ p.change
  · by_cases hpos : 0 ≤ b (bkey p) + p.change
    · rw [ubApply_ok prec b p hch hold hpos] at h
      simp only [Option.some.injEq] at h
      exact ⟨h.symm, hpos⟩
    · exfalso
      push_neg at hpos
      have hpos2 : b ⟨p.user_id, p.balance_type, p.asset⟩ + p.change < 0 := hpos
      unfold ubApply at h
      dsimp only at h
      rw [if_pos hc, abs_of_nonneg hc] at h
      unfold BalanceManager.add at h
      rw [if_neg (not_lt.mpr hc)] at h
      dsimp only at h
      rw [hch.roundHalfEvenDp_eq] at h
      unfold BalanceManager.setByKey at h
      rw [if_pos hpos2] at h
      simp at h
  · push_neg at hc
    by_cases hlt : BalanceManager.get b p.user_id p.balance_type p.asset <
      -p.change
    · exfalso
      unfold ubApply at h
      dsimp only at h
      rw [if_neg (not_le.mpr hc), abs_of_neg hc, if_pos hlt] at h
      exact Option.noConfusion h
    · have hge := not_lt.mp hlt
      have hpos : 0 ≤ b (bkey p) + p.change := by
        show (0 : ℚ) ≤ BalanceManager.get b p.user_id p.balance_type p.asset +
          p.change
        linarith
      rw [ubApply_ok prec b p hch hold hpos] at h
      simp only [Option.some.injEq] at h
      exact ⟨h.symm, hpos⟩

theorem ub_ok_inv (prec : PrecOf) (rp : Bool) (now : ℚ) (b : Bal) (c : Cache)
    (p : BalanceUpdateParams) (b2 : Bal) (c2 : Cache) (evs : List Event)
    (hch : isDp (prec p.asset) p.change)
    (hold : isDp (prec p.asset) (b (bkey p)))
    (h : updateUserBalance prec rp now b c p = (UbResult.ok, b2, c2, evs)) :
    b2 = (fun k => if k = bkey p then b (bkey p) + p.change else b k) ∧
    c2 = cacheInsert c now (fingerprint p) ∧
    cacheContains c now (fingerprint p) = false ∧
    0 ≤ b (bkey p) + p.change := by
  have hnd : cacheContains c now (fingerprint p) = false :=
    ub_ok_not_dup prec rp now b c p (by rw [h])
  unfold updateUserBalance at h
  rw [if_neg (by simp [hnd])] at h
  rcases ha : ubApply prec b p with _ | ob
  · rw [ha] at h
    simp at h
  · rcases ob with _ | b2x
    · rw [ha] at h
      simp at h
    · rw [ha] at h
      dsimp only at h
      simp only [Prod.mk.injEq] at h
      obtain ⟨-, hb2, hc2, -⟩ := h
      obtain ⟨hb2x, hpos⟩ := ubApply_ok_inv prec b p b2x hch hold ha
      exact ⟨hb2.symm.trans hb2x, hc2.symm, hnd, hpos⟩

theorem isDp_update (prec : PrecOf) (b : Bal) (k0 : BalanceMapKey) (v : ℚ)
    (hb : ∀ k, isDp (prec k.asset) (b k)) (hv : isDp (prec k0.asset) v) :
    ∀ k, isDp (prec k.asset)
      ((fun k => if k = k0 then b k0 + v else b k) k) := by
  intro k
  by_cases hk : k = k0
  · subst hk
    simp only [if_pos rfl]
    exact (hb k).add hv
  · simp only [if_neg hk]
    exact hb k

theorem total_update (b : Bal) (k0 : BalanceMapKey) (v : ℚ) (u : ℕ)
    (a : AssetKind) :
    BalanceManager.total (fun k => if k = k0 then b k0 + v else b k) u a =
      BalanceManager.total b u a +
        (if k0.user_id = u ∧ k0.asset = a then v else 0) := by
  rcases k0 with ⟨u0, bt0, a0⟩
  unfold BalanceManager.total BalanceManager.get
  dsimp only
  by_cases hu : u0 = u
  · by_cases ha : a0 = a
    · subst hu
      subst ha
      cases bt0
      · rw [if_pos rfl, if_neg (by simp), if_pos ⟨rfl, rfl⟩]
        ring
      · rw [if_neg (by simp), if_pos rfl, if_pos ⟨rfl, rfl⟩]
        ring
    · have ha2 : a ≠ a0 := fun hh => ha hh.symm
      rw [if_neg (by simp [ha2]), if_neg (by simp [ha2]),
        if_neg (by simp [ha])]
      ring
  · have hu2 : u ≠ u0 := fun hh => hu hh.symm
    rw [if_neg (by simp [hu2]), if_neg (by simp [hu2]),
      if_neg (by simp [hu])]
    ring

/-- Conservation of each asset across a trade's four balance-update calls:
success implies distinct parties, and the two parties' total (AVAILABLE +
FREEZE) balances change by −max(bid_fee, 0) in the base asset and
−max(ask_fee, 0) in the quote asset, given save-precision representability. -/
theorem tbu_conservation (prec : PrecOf) (rp : Bool) (now : ℚ) (b : Bal) (c : Cache)
    (tid : ℕ) (mia : Bool) (au bu : ℕ) (tb tq bf af : ℚ)
    (b4 : Bal) (c4 : Cache) (evs : List Event)
    (hdtb : isDp (prec AssetKind.base) tb)
    (hdbf : isDp (prec AssetKind.base) bf)
    (hdtq : isDp (prec AssetKind.quote) tq)
    (hdaf : isDp (prec AssetKind.quote) af)
    (hb : ∀ k, isDp (prec k.asset) (b k))
    (h : tradeBalanceUpdates prec rp now b c tid mia au bu tb tq bf af =
      some (b4, c4, evs)) :
    au ≠ bu ∧
    (BalanceManager.total b4 au AssetKind.base -
        BalanceManager.total b au AssetKind.base) +
      (BalanceManager.total b4 bu AssetKind.base -
        BalanceManager.total b bu AssetKind.base) =
      -(if 0 ≤ bf then bf else 0) ∧
    (BalanceManager.total b4 au AssetKind.quote -
        BalanceManager.total b au AssetKind.quote) +
      (BalanceManager.total b4 bu AssetKind.quote -
        BalanceManager.total b bu AssetKind.quote) =
      -(if 0 ≤ af then af else 0) := by
  have hch1 : isDp (prec AssetKind.base) (if 0 ≤ bf then tb - bf else tb) := by
    rcases le_or_lt 0 bf with h0 | h0
    · rw [if_pos h0]
      exact hdtb.sub hdbf
    · rw [if_neg (not_le.mpr h0)]
      exact hdtb
  have hch3 : isDp (prec AssetKind.quote) (if 0 ≤ af then tq - af else tq) := by
    rcases le_or_lt 0 af with h0 | h0
    · rw [if_pos h0]
      exact hdtq.sub hdaf
    · rw [if_neg (not_le.mpr h0)]
      exact hdtq
  unfold tradeBalanceUpdates at h
  dsimp only at h
  split at h
  · rename_i b1 c1 ev1 heq1
    split at h
    · rename_i b2 c2 ev2 heq2
      split at h
      · rename_i b3 c3 ev3 heq3
        split at h
        · rename_i b4x c4x ev4 heq4
          simp only [Option.some.injEq, Prod.mk.injEq] at h
          obtain ⟨hb4, -, -⟩ := h
          obtain ⟨hB1, hc1, hnd1, -⟩ :=
            ub_ok_inv prec rp now b c _ b1 c1 ev1 hch1 (hb _) heq1
          have hb1 : ∀ k, isDp (prec k.asset) (b1 k) := by
            rw [hB1]
            exact isDp_update prec b _ _ hb hch1
          obtain ⟨hB2, hc2, hnd2, -⟩ :=
            ub_ok_inv prec rp now b1 c1 _ b2 c2 ev2 hdtb.neg (hb1 _) heq2
          have hb2 : ∀ k, isDp (prec k.asset) (b2 k) := by
            rw [hB2]
            exact isDp_update prec b1 _ _ hb1 hdtb.neg
          obtain ⟨hB3, hc3, hnd3, -⟩ :=
            ub_ok_inv prec rp now b2 c2 _ b3 c3 ev3 hch3 (hb2 _) heq3
          have hb3 : ∀ k, isDp (prec k.asset) (b3 k) := by
            rw [hB3]
            exact isDp_update prec b2 _ _ hb2 hch3
          obtain ⟨hB4, hc4x, hnd4, -⟩ :=
            ub_ok_inv prec rp now b3 c3 _ b4x c4x ev4 hdtq.neg (hb3 _) heq4
          have hB4f := hb4.symm.trans hB4
          have hne : au ≠ bu := by
            intro he
            subst he
            cases mia with
            | false =>
              rw [hc1] at hnd2
              have h2 := cacheContains_insert_self c now now
                (fingerprint
                  { balance_type := BalanceType.AVAILABLE,
                    business_type := BusinessType.Trade, user_id := au,
                    business_id := tid, asset := AssetKind.base,
                    business := "trade",
                    change := if 0 ≤ bf then tb - bf else tb })
                (by linarith)
              exact Bool.noConfusion (h2.symm.trans hnd2)
            | true =>
              rw [hc3] at hnd4
              have h2 := cacheContains_insert_self c2 now now
                (fingerprint
                  { balance_type := BalanceType.AVAILABLE,
                    business_type := BusinessType.Trade, user_id := au,
                    business_id := tid, asset := AssetKind.quote,
                    business := "trade",
                    change := if 0 ≤ af then tq - af else tq })
                (by linarith)
              exact Bool.noConfusion (h2.symm.trans hnd4)
          have key : ∀ (u : ℕ) (a : AssetKind),
              BalanceManager.total b4 u a =
                BalanceManager.total b u a +
                  (if bu = u ∧ AssetKind.base = a then
                    (if 0 ≤ bf then tb - bf else tb) else 0) +
                  (if au = u ∧ AssetKind.base = a then -tb else 0) +
                  (if au = u ∧ AssetKind.quote = a then
                    (if 0 ≤ af then tq - af else tq) else 0) +
                  (if bu = u ∧ AssetKind.quote = a then -tq else 0) := by
            intro u a
            rw [hB4f, total_update, hB3, total_update, hB2, total_update,
              hB1, total_update]
            dsimp only [bkey]
          have e_ab := key au AssetKind.base
          have e_bb := key bu AssetKind.base
          have e_aq := key au AssetKind.quote
          have e_bq := key bu AssetKind.quote
          simp only [Ne.symm hne, hne, eq_self_iff_true, true_and, and_true,
            false_and, and_false, if_true, if_false, reduceCtorEq, add_zero,
            zero_add, ite_true, ite_false] at e_ab e_bb e_aq e_bq
          refine ⟨hne, ?_, ?_⟩
          · rw [e_ab, e_bb]
            rcases le_or_lt 0 bf with h0 | h0
            · rw [if_pos h0, if_pos h0]
              ring
            · rw [if_neg (not_le.mpr h0), if_neg (not_le.mpr h0)]
              ring
          · rw [e_aq, e_bq]
            rcases le_or_lt 0 af with h0 | h0
            · rw [if_pos h0, if_pos h0]
              ring
            · rw [if_neg (not_le.mpr h0), if_neg (not_le.mpr h0)]
              ring
        · simp at h
      · simp at h
    · simp at h
  · simp at h

/-! ## Concrete trade-run evaluations (C2 and C8 evidence) -/

theorem eq_false_limit_market : (OrderType.LIMIT = OrderType.MARKET) = False := by
  simp

theorem eq_false_market_limit : (OrderType.MARKET = OrderType.LIMIT) = False := by
  simp

theorem eq_false_bid_ask : (OrderSide.BID = OrderSide.ASK) = False := by
  simp

theorem eq_false_ask_bid : (OrderSide.ASK = OrderSide.BID) = False := by
  simp

theorem eq_false_base_quote : (AssetKind.base = AssetKind.quote) = False := by
  simp

theorem eq_false_quote_base : (AssetKind.quote = AssetKind.base) = False := by
  simp

/-- `halfEvenZ` with its fractional-part comparisons phrased so that the
branches evaluate on closed rationals. -/
theorem halfEvenZ_eval (x : ℚ) : halfEvenZ x =
    if x < (⌊x⌋ : ℚ) + 1 / 2 then ⌊x⌋
    else if (⌊x⌋ : ℚ) + 1 / 2 < x then ⌊x⌋ + 1
    else if ⌊x⌋ % 2 = 0 then ⌊x⌋ else ⌊x⌋ + 1 := by
  unfold halfEvenZ
  simp only [sub_lt_iff_lt_add', lt_sub_iff_add_lt']

set_option maxHeartbeats 4000000 in
theorem putOrder_trT8 :
    tradesOf (putOrder mpT false 0 sT inT8).2.2 = [trT8] := by
  norm_num [Int.ceil_neg, Int.floor_neg, eq_false_limit_market,
    eq_false_market_limit, eq_false_bid_ask, eq_false_ask_bid,
    eq_false_base_quote, eq_false_quote_base, List.filterMap_cons,
    List.filterMap_nil, trT8, trT2, abs_of_nonneg, abs_of_nonpos,
    reduceCtorEq, decide_eq_true_eq, decide_True, decide_False,
    eq_self_iff_true, BalanceUpdateKey.mk.injEq, BalanceMapKey.mk.injEq,
    MarketKeyBid.mk.injEq, Order.mk.injEq, putOrder, orderCheck,
    executeOrder, matchLoop, matchStep, computeQuoteLimit,
    tradeBalanceUpdates, updateUserBalance, ubApply, ubEvents, cacheContains,
    cacheInsert, fingerprint, bkey, BalanceManager.get, BalanceManager.add,
    BalanceManager.sub, BalanceManager.setByKey, MarketParams.precOf,
    roundToZeroDp, roundHalfEvenDp, truncQ, halfEvenZ_eval, finishOrders,
    unfrozenBalance, frozenBalance, insertOrderIntoOrderbook, insertAskList,
    insertBidList, mpT, sT, inT8, inT2, makerT, balT, tradesOf]

set_option maxHeartbeats 4000000 in
theorem putOrder_trT2 :
    tradesOf (putOrder mpT false 0 sT inT2).2.2 = [trT2] := by
  norm_num [Int.ceil_neg, Int.floor_neg, eq_false_limit_market,
    eq_false_market_limit, eq_false_bid_ask, eq_false_ask_bid,
    eq_false_base_quote, eq_false_quote_base, List.filterMap_cons,
    List.filterMap_nil, trT8, trT2, abs_of_nonneg, abs_of_nonpos,
    reduceCtorEq, decide_eq_true_eq, decide_True, decide_False,
    eq_self_iff_true, BalanceUpdateKey.mk.injEq, BalanceMapKey.mk.injEq,
    MarketKeyBid.mk.injEq, Order.mk.injEq, putOrder, orderCheck,
    executeOrder, matchLoop, matchStep, computeQuoteLimit,
    tradeBalanceUpdates, updateUserBalance, ubApply, ubEvents, cacheContains,
    cacheInsert, fingerprint, bkey, BalanceManager.get, BalanceManager.add,
    BalanceManager.sub, BalanceManager.setByKey, MarketParams.precOf,
    roundToZeroDp, roundHalfEvenDp, truncQ, halfEvenZ_eval, finishOrders,
    unfrozenBalance, frozenBalance, insertOrderIntoOrderbook, insertAskList,
    insertBidList, mpT, sT, inT8, inT2, makerT, balT, tradesOf]

set_option maxHeartbeats 4000000 in
theorem tbuT2_isSome :
    (tradeBalanceUpdates mpT.precOf false 0 balT [] 1 true 2 1
      1 1 (-1) 0).isSome = true := by
  norm_num [Int.ceil_neg, Int.floor_neg, eq_false_limit_market,
    eq_false_market_limit, eq_false_bid_ask, eq_false_ask_bid,
    eq_false_base_quote, eq_false_quote_base, List.filterMap_cons,
    List.filterMap_nil, trT8, trT2, abs_of_nonneg, abs_of_nonpos,
    reduceCtorEq, decide_eq_true_eq, decide_True, decide_False,
    eq_self_iff_true, BalanceUpdateKey.mk.injEq, BalanceMapKey.mk.injEq,
    MarketKeyBid.mk.injEq, Order.mk.injEq, putOrder, orderCheck,
    executeOrder, matchLoop, matchStep, computeQuoteLimit,
    tradeBalanceUpdates, updateUserBalance, ubApply, ubEvents, cacheContains,
    cacheInsert, fingerprint, bkey, BalanceManager.get, BalanceManager.add,
    BalanceManager.sub, BalanceManager.setByKey, MarketParams.precOf,
    roundToZeroDp, roundHalfEvenDp, truncQ, halfEvenZ_eval, finishOrders,
    unfrozenBalance, frozenBalance, insertOrderIntoOrderbook, insertAskList,
    insertBidList, mpT, sT, inT8, inT2, makerT, balT, tradesOf]

set_option maxHeartbeats 4000000 in
theorem tbuT8_isSome :
    (tradeBalanceUpdates mpT.precOf false 0 balT [] 1 true 2 1
      1 1 (1 / 10) 0).isSome = true := by
  norm_num [Int.ceil_neg, Int.floor_neg, eq_false_limit_market,
    eq_false_market_limit, eq_false_bid_ask, eq_false_ask_bid,
    eq_false_base_quote, eq_false_quote_base, List.filterMap_cons,
    List.filterMap_nil, trT8, trT2, abs_of_nonneg, abs_of_nonpos,
    reduceCtorEq, decide_eq_true_eq, decide_True, decide_False,
    eq_self_iff_true, BalanceUpdateKey.mk.injEq, BalanceMapKey.mk.injEq,
    MarketKeyBid.mk.injEq, Order.mk.injEq, putOrder, orderCheck,
    executeOrder, matchLoop, matchStep, computeQuoteLimit,
    tradeBalanceUpdates, updateUserBalance, ubApply, ubEvents, cacheContains,
    cacheInsert, fingerprint, bkey, BalanceManager.get, BalanceManager.add,
    BalanceManager.sub, BalanceManager.setByKey, MarketParams.precOf,
    roundToZeroDp, roundHalfEvenDp, truncQ, halfEvenZ_eval, finishOrders,
    unfrozenBalance, frozenBalance, insertOrderIntoOrderbook, insertAskList,
    insertBidList, mpT, sT, inT8, inT2, makerT, balT, tradesOf]

theorem balT_isDp : ∀ k, isDp (mpT.precOf k.asset) (balT k) := by
  intro k
  rcases k with ⟨u, bt, a⟩
  have hp : mpT.precOf a = 4 := by cases a <;> rfl
  rw [hp]
  unfold balT
  dsimp only
  split_ifs
  · exact ⟨100000, by norm_num⟩
  · exact ⟨10000, by norm_num⟩
  · exact isDp_zero 4

/-- C2 (amended): the four balance-update calls of a trade (executed once per
trade inside put_order's matching loop), when they succeed, involve two
distinct users and change the two parties' total (AVAILABLE + FREEZE)
balances by −bid_fee in the base asset and −ask_fee in the quote asset when
the fee is non-negative, and by 0 when the fee is negative: a negative fee
is not credited to anyone — the receiving leg simply gets the gross amount.
Balances and amounts are assumed representable at the save precisions, so
the half-even stores round nothing away. -/
theorem C2_amended (prec : PrecOf) (rp : Bool) (now : ℚ) (b : Bal) (c : Cache)
    (tid : ℕ) (mia : Bool) (au bu : ℕ) (tb tq bf af : ℚ)
    (b4 : Bal) (c4 : Cache) (evs : List Event)
    (hdtb : isDp (prec AssetKind.base) tb)
    (hdbf : isDp (prec AssetKind.base) bf)
    (hdtq : isDp (prec AssetKind.quote) tq)
    (hdaf : isDp (prec AssetKind.quote) af)
    (hb : ∀ k, isDp (prec k.asset) (b k))
    (h : tradeBalanceUpdates prec rp now b c tid mia au bu tb tq bf af =
      some (b4, c4, evs)) :
    au ≠ bu ∧
    (BalanceManager.total b4 au AssetKind.base -
        BalanceManager.total b au AssetKind.base) +
      (BalanceManager.total b4 bu AssetKind.base -
        BalanceManager.total b bu AssetKind.base) =
      -(if 0 ≤ bf then bf else 0) ∧
    (BalanceManager.total b4 au AssetKind.quote -
        BalanceManager.total b au AssetKind.quote) +
      (BalanceManager.total b4 bu AssetKind.quote -
        BalanceManager.total b bu AssetKind.quote) =
      -(if 0 ≤ af then af else 0) :=
  tbu_conservation prec rp now b c tid mia au bu tb tq bf af b4 c4 evs
    hdtb hdbf hdtq hdaf hb h

/-- C2 counterexample: put_order emits a trade with bid_fee = −1 (a negative
taker fee is legal when fee_prec ≠ 0), and for that trade's four
balance-update calls the net base-asset change of the two parties is 0, not
−bid_fee = 1: the negative fee is not credited to the bid user. -/
theorem C2_counterexample :
    tradesOf (putOrder mpT false 0 sT inT2).2.2 = [trT2] ∧
    trT2.bid_fee = -1 ∧
    trT2.amount = 1 ∧ trT2.quote_amount = 1 ∧ trT2.ask_fee = 0 ∧
    ∃ b4 c4 evs,
      tradeBalanceUpdates mpT.precOf false 0 balT [] 1 true 2 1
        1 1 (-1) 0 = some (b4, c4, evs) ∧
      (BalanceManager.total b4 2 AssetKind.base -
          BalanceManager.total balT 2 AssetKind.base) +
        (BalanceManager.total b4 1 AssetKind.base -
          BalanceManager.total balT 1 AssetKind.base) = 0 ∧
      (0 : ℚ) ≠ -trT2.bid_fee := by
  refine ⟨putOrder_trT2, rfl, rfl, rfl, rfl, ?_⟩
  rcases hres : tradeBalanceUpdates mpT.precOf false 0 balT [] 1 true 2 1
      1 1 (-1) 0 with _ | ⟨b4, c4, evs⟩
  · exfalso
    have hs := tbuT2_isSome
    rw [hres] at hs
    simp at hs
  · have h := tbu_conservation mpT.precOf false 0 balT [] 1 true 2 1
      1 1 (-1) 0 b4 c4 evs
      ⟨10000, by norm_num [mpT, MarketParams.precOf]⟩
      ⟨-10000, by norm_num [mpT, MarketParams.precOf]⟩
      ⟨10000, by norm_num [mpT, MarketParams.precOf]⟩
      ⟨0, by norm_num [mpT, MarketParams.precOf]⟩
      balT_isDp hres
    refine ⟨b4, c4, evs, rfl, ?_, by norm_num [trT2]⟩
    refine h.2.1.trans ?_
    norm_num

/-- C2 witness (for the amended statement): a successful four-call trade
settlement with bid_fee = 1/10 conserves: the parties' base totals drop by
exactly the fee and the quote totals are conserved exactly. -/
theorem C2_amended_witness :
    ∃ b4 c4 evs,
      tradeBalanceUpdates mpT.precOf false 0 balT [] 1 true 2 1
        1 1 (1 / 10) 0 = some (b4, c4, evs) ∧
      ((2 : ℕ) ≠ 1 ∧
       (BalanceManager.total b4 2 AssetKind.base -
           BalanceManager.total balT 2 AssetKind.base) +
         (BalanceManager.total b4 1 AssetKind.base -
           BalanceManager.total balT 1 AssetKind.base) = -(1 / 10) ∧
       (BalanceManager.total b4 2 AssetKind.quote -
           BalanceManager.total balT 2 AssetKind.quote) +
         (BalanceManager.total b4 1 AssetKind.quote -
           BalanceManager.total balT 1 AssetKind.quote) = 0) := by
  rcases hres : tradeBalanceUpdates mpT.precOf false 0 balT [] 1 true 2 1
      1 1 (1 / 10) 0 with _ | ⟨b4, c4, evs⟩
  · exfalso
    have hs := tbuT8_isSome
    rw [hres] at hs
    simp at hs
  · have h := C2_amended mpT.precOf false 0 balT [] 1 true 2 1
      1 1 (1 / 10) 0 b4 c4 evs
      ⟨10000, by norm_num [mpT, MarketParams.precOf]⟩
      ⟨1000, by norm_num [mpT, MarketParams.precOf]⟩
      ⟨10000, by norm_num [mpT, MarketParams.precOf]⟩
      ⟨0, by norm_num [mpT, MarketParams.precOf]⟩
      balT_isDp hres
    exact ⟨b4, c4, evs, rfl, h.1, h.2.1.trans (by norm_num),
      h.2.2.trans (by norm_num)⟩

/-- C8 witness: the concrete crossing-bid run emits exactly one trade, and
its fields satisfy the maker-price / quote-amount / fee formulas. -/
theorem C8_witness :
    tradesOf (putOrder mpT false 0 sT inT8).2.2 = [trT8] ∧
    (trT8.quote_amount = trT8.price * trT8.amount ∧
     ∃ mk ∈ (if inT8.side = OrderSide.ASK then sT.bids else sT.asks),
       trT8.price = mk.price ∧
       trT8.bid_fee = roundToZeroDp mpT.base_prec
         (trT8.amount *
           (if inT8.side = OrderSide.ASK then mk.maker_fee
            else inT8.taker_fee)) ∧
       trT8.ask_fee = roundToZeroDp mpT.quote_prec
         (trT8.quote_amount *
           (if inT8.side = OrderSide.ASK then inT8.taker_fee
            else mk.maker_fee))) := by
  refine ⟨putOrder_trT8, ?_⟩
  have hmem : trT8 ∈ tradesOf (putOrder mpT false 0 sT inT8).2.2 := by
    rw [putOrder_trT8]
    exact List.mem_singleton_self _
  exact C8_trade_fields mpT false 0 sT inT8 _ _ _ rfl trT8 hmem

/-! ## Claim C1 — quote-limit bound for MARKET BID orders -/

theorem qsum_append (a b : List Event) : qsum (a ++ b) = qsum a + qsum b := by
  unfold qsum
  rw [tradesOf_append, List.map_append, List.sum_append]

theorem qsum_order (o : Order) (ty : OrderEventType) :
    qsum [Event.order o ty] = 0 := rfl

theorem matchStep_next_quote (mp : MarketParams) (rp : Bool) (now ql : ℚ)
    (ipo : Bool) (acc : MatchAcc) (maker : Order) (acc2 : MatchAcc)
    (h : matchStep mp rp now ql false false ipo acc maker =
      StepOut.next acc2) :
    ∃ tq : ℚ,
      acc2.quote_sum = acc.quote_sum + tq ∧
      qsum acc2.events = qsum acc.events + tq ∧
      acc2.quote_sum ≤ ql := by
  unfold matchStep at h
  split at h
  · exact StepOut.noConfusion h
  · lift_lets at h
    extract_lets taker ask_fee_rate bid_fee_rate price ask_order bid_order
      taker_is_bid tb0 overLimit tb tq quote_sum
      bid_fee ask_fee trade_id trade ask_order2 bid_order2
      taker2 maker2 maker_is_bid maker3 at h
    have htb : taker_is_bid := by
      show ¬ (false : Bool) = true
      simp
    by_cases c2 : (false : Bool) = true ∧ bid_order.price < ask_order.price
    · rw [if_pos c2] at h
      exact StepOut.noConfusion h
    rw [if_neg c2] at h
    by_cases c3 : ipo = true
    · rw [if_pos c3] at h
      exact StepOut.noConfusion h
    rw [if_neg c3] at h
    by_cases c4 : ask_order.user = bid_order.user ∧ mp.disable_self_trade = true
    · rw [if_pos c4] at h
      exact StepOut.noConfusion h
    rw [if_neg c4] at h
    by_cases c5 : overLimit ∧ tb = 0
    · rw [if_pos c5] at h
      exact StepOut.noConfusion h
    rw [if_neg c5] at h
    by_cases c6 : tb = 0
    · rw [if_pos c6] at h
      exact StepOut.noConfusion h
    rw [if_neg c6] at h
    by_cases c7 : tq = 0
    · rw [if_pos c7] at h
      exact StepOut.noConfusion h
    rw [if_neg c7] at h
    by_cases c8 : taker_is_bid ∧ taker_is_bid ∧ ql < quote_sum
    · rw [if_pos c8] at h
      exact StepOut.noConfusion h
    rw [if_neg c8] at h
    have hle : ¬ ql < quote_sum := fun hlt => c8 ⟨htb, htb, hlt⟩
    by_cases c9 : mp.disable_self_trade = true ∧
      trade.ask_user_id = trade.bid_user_id
    · rw [if_pos c9] at h
      exact StepOut.noConfusion h
    rw [if_neg c9] at h
    by_cases c10 : ask_order2.remain < 0
    · rw [if_pos c10] at h
      exact StepOut.noConfusion h
    rw [if_neg c10] at h
    by_cases c11 : bid_order2.remain < 0
    · rw [if_pos c11] at h
      exact StepOut.noConfusion h
    rw [if_neg c11] at h
    split at h
    · exact StepOut.noConfusion h
    · rename_i b4 c4x ubEvs heqtbu
      lift_lets at h
      extract_lets acc3 at h
      have hub : tradesOf ubEvs = [] :=
        trades_tradeBalanceUpdates _ _ _ _ _ _ _ _ _ _ _ _ _ _ _ _ heqtbu
      have hq0 : qsum ubEvs = 0 := by
        unfold qsum
        rw [hub]
        rfl
      by_cases c13 : maker3.remain = 0
      · rw [if_pos c13] at h
        cases h
        refine ⟨tq, rfl, ?_, le_of_not_lt hle⟩
        show qsum (acc.events ++ ubEvs ++ [Event.trade trade]) =
          qsum acc.events + tq
        rw [qsum_append, qsum_append, hq0]
        simp [qsum, tradesOf]
      · rw [if_neg c13] at h
        cases h
        refine ⟨tq, rfl, ?_, le_of_not_lt hle⟩
        show qsum (acc.events ++ ubEvs ++ [Event.trade trade] ++
          [Event.order maker3 OrderEventType.UPDATE]) = qsum acc.events + tq
        rw [qsum_append, qsum_append, qsum_append, hq0, qsum_order]
        simp [qsum, tradesOf]

theorem matchLoop_quote (mp : MarketParams) (rp : Bool) (now ql : ℚ)
    (ipo : Bool) (makers : List Order) (acc acc2 : MatchAcc)
    (h : matchLoop mp rp now ql false false ipo acc makers = some acc2) :
    acc2.quote_sum - qsum acc2.events = acc.quote_sum - qsum acc.events ∧
    (acc2.quote_sum = acc.quote_sum ∨ acc2.quote_sum ≤ ql) := by
  induction makers generalizing acc with
  | nil =>
    simp only [matchLoop, Option.some.injEq] at h
    subst h
    exact ⟨rfl, Or.inl rfl⟩
  | cons maker rest ih =>
    rw [matchLoop] at h
    rcases hstep : matchStep mp rp now ql false false ipo acc maker
      with acc3 | _ | acc3
    · rw [hstep] at h
      simp only [Option.some.injEq] at h
      subst h
      obtain ⟨hev, -, hqs, -, -, -⟩ :=
        matchStep_brk_events _ _ _ _ _ _ _ _ _ _ hstep
      constructor
      · show acc3.quote_sum - qsum acc3.events = _
        rw [hev, hqs]
      · exact Or.inl hqs
    · rw [hstep] at h
      exact Option.noConfusion h
    · rw [hstep] at h
      obtain ⟨tq, hq, hs, hb⟩ :=
        matchStep_next_quote _ _ _ _ _ _ _ _ hstep
      obtain ⟨ihd, ihor⟩ := ih acc3 h
      constructor
      · rw [ihd, hq, hs]
        ring
      · rcases ihor with h1 | h1
        · exact Or.inr (h1.trans_le hb)
        · exact Or.inr h1

/-- C1 (amended): for every MARKET BID order accepted by put_order, the total
quote amount across its trades never exceeds max(effective quote limit, 0):
the per-trade assertion bounds the running quote_sum by the limit whenever a
trade executes, and an order producing no trades spends 0. (The unamended
bound by the limit itself fails for a negative supplied quote_limit, which
put_order accepts.) -/
theorem C1_amended (mp : MarketParams) (rp : Bool) (now : ℚ)
    (s : EngineState) (inp : OrderInput) (o : Order) (s2 : EngineState)
    (evs : List Event)
    (hside : inp.side = OrderSide.BID) (htype : inp.type_ = OrderType.MARKET)
    (heq : putOrder mp rp now s inp = (POResult.ok o, s2, evs)) :
    qsum evs ≤ max (computeQuoteLimit mp s.bal inp) 0 := by
  unfold putOrder at heq
  rcases hoc : orderCheck mp s inp with _ | e
  · rw [hoc] at heq
    dsimp only at heq
    unfold executeOrder at heq
    dsimp only at heq
    rw [hside, htype] at heq
    split at heq
    · simp at heq
    · rename_i acc hml
      split at heq
      · simp at heq
      · rename_i b5 finEvents hfo
        have hfin : tradesOf finEvents = [] :=
          trades_finishOrders _ _ _ _ _ hfo
        have hqfin : qsum finEvents = 0 := by
          unfold qsum
          rw [hfin]
          rfl
        have hloop := matchLoop_quote _ _ _ _ _ _ _ _ hml
        have h1 : acc.quote_sum - qsum acc.events = 0 := by
          have h0 := hloop.1
          simpa [qsum, tradesOf] using h0
        have h2 : qsum acc.events ≤ max (computeQuoteLimit mp s.bal inp) 0 := by
          rcases hloop.2 with h2 | h2
          · have h3 : acc.quote_sum = 0 := by simpa using h2
            have h4 : qsum acc.events = 0 := by linarith
            rw [h4]
            exact le_max_right _ _
          · have h3 : qsum acc.events ≤ computeQuoteLimit mp s.bal inp := by
              linarith
            exact h3.trans (le_max_left _ _)
        split at heq
        · simp only [Prod.mk.injEq, POResult.ok.injEq] at heq
          obtain ⟨-, -, hevs⟩ := heq
          rw [← hevs]
          simp only [qsum_append, qsum_order, hqfin, zero_add, add_zero]
          exact h2
        · split at heq
          · simp only [Prod.mk.injEq, POResult.ok.injEq] at heq
            obtain ⟨-, -, hevs⟩ := heq
            rw [← hevs]
            simp only [qsum_append, qsum_order, hqfin, zero_add, add_zero]
            exact h2
          · split at heq
            · simp only [Prod.mk.injEq, POResult.ok.injEq] at heq
              obtain ⟨-, -, hevs⟩ := heq
              rw [← hevs]
              simp only [qsum_append, qsum_order, hqfin, zero_add, add_zero]
              exact h2
            · split at heq
              · simp at heq
              · rename_i s3 taker2 hins
                split at heq
                · simp at heq
                · simp only [Prod.mk.injEq, POResult.ok.injEq] at heq
                  obtain ⟨-, -, hevs⟩ := heq
                  rw [← hevs]
                  simp only [qsum_append, qsum_order, hqfin, zero_add,
                    add_zero]
                  exact h2
  · rw [hoc] at heq
    simp at heq

set_option maxHeartbeats 4000000 in
theorem putOrder_C1_ok :
    (putOrder mpT false 0 sT inC1).1 = POResult.ok (takerOf sT inC1) := by
  norm_num [Int.ceil_neg, Int.floor_neg, eq_false_limit_market,
    eq_false_market_limit, eq_false_bid_ask, eq_false_ask_bid,
    eq_false_base_quote, eq_false_quote_base, List.filterMap_cons,
    List.filterMap_nil, abs_of_nonneg, abs_of_nonpos,
    reduceCtorEq, decide_eq_true_eq, decide_True, decide_False,
    eq_self_iff_true, BalanceUpdateKey.mk.injEq, BalanceMapKey.mk.injEq,
    MarketKeyBid.mk.injEq, Order.mk.injEq, putOrder, orderCheck,
    executeOrder, matchLoop, matchStep, computeQuoteLimit,
    tradeBalanceUpdates, updateUserBalance, ubApply, ubEvents, cacheContains,
    cacheInsert, fingerprint, bkey, BalanceManager.get, BalanceManager.add,
    BalanceManager.sub, BalanceManager.setByKey, MarketParams.precOf,
    roundToZeroDp, roundHalfEvenDp, truncQ, halfEvenZ_eval, finishOrders,
    unfrozenBalance, frozenBalance, insertOrderIntoOrderbook, insertAskList,
    insertBidList, mpT, sT, inC1, inC1w, makerT, balT, tradesOf, takerOf,
    oC1w]

set_option maxHeartbeats 4000000 in
theorem putOrder_C1_trades :
    tradesOf (putOrder mpT false 0 sT inC1).2.2 = [] := by
  norm_num [Int.ceil_neg, Int.floor_neg, eq_false_limit_market,
    eq_false_market_limit, eq_false_bid_ask, eq_false_ask_bid,
    eq_false_base_quote, eq_false_quote_base, List.filterMap_cons,
    List.filterMap_nil, abs_of_nonneg, abs_of_nonpos,
    reduceCtorEq, decide_eq_true_eq, decide_True, decide_False,
    eq_self_iff_true, BalanceUpdateKey.mk.injEq, BalanceMapKey.mk.injEq,
    MarketKeyBid.mk.injEq, Order.mk.injEq, putOrder, orderCheck,
    executeOrder, matchLoop, matchStep, computeQuoteLimit,
    tradeBalanceUpdates, updateUserBalance, ubApply, ubEvents, cacheContains,
    cacheInsert, fingerprint, bkey, BalanceManager.get, BalanceManager.add,
    BalanceManager.sub, BalanceManager.setByKey, MarketParams.precOf,
    roundToZeroDp, roundHalfEvenDp, truncQ, halfEvenZ_eval, finishOrders,
    unfrozenBalance, frozenBalance, insertOrderIntoOrderbook, insertAskList,
    insertBidList, mpT, sT, inC1, inC1w, makerT, balT, tradesOf, takerOf,
    oC1w]

set_option maxHeartbeats 4000000 in
theorem putOrder_C1w_ok :
    (putOrder mpT false 0 sT inC1w).1 = POResult.ok oC1w := by
  norm_num [Int.ceil_neg, Int.floor_neg, eq_false_limit_market,
    eq_false_market_limit, eq_false_bid_ask, eq_false_ask_bid,
    eq_false_base_quote, eq_false_quote_base, List.filterMap_cons,
    List.filterMap_nil, abs_of_nonneg, abs_of_nonpos,
    reduceCtorEq, decide_eq_true_eq, decide_True, decide_False,
    eq_self_iff_true, BalanceUpdateKey.mk.injEq, BalanceMapKey.mk.injEq,
    MarketKeyBid.mk.injEq, Order.mk.injEq, putOrder, orderCheck,
    executeOrder, matchLoop, matchStep, computeQuoteLimit,
    tradeBalanceUpdates, updateUserBalance, ubApply, ubEvents, cacheContains,
    cacheInsert, fingerprint, bkey, BalanceManager.get, BalanceManager.add,
    BalanceManager.sub, BalanceManager.setByKey, MarketParams.precOf,
    roundToZeroDp, roundHalfEvenDp, truncQ, halfEvenZ_eval, finishOrders,
    unfrozenBalance, frozenBalance, insertOrderIntoOrderbook, insertAskList,
    insertBidList, mpT, sT, inC1, inC1w, makerT, balT, tradesOf, takerOf,
    oC1w]

theorem quoteLimit_C1 :
    computeQuoteLimit mpT sT.bal inC1 = -(1 / 1000) := by
  norm_num [Int.ceil_neg, Int.floor_neg, computeQuoteLimit,
    BalanceManager.get, MarketParams.precOf, roundToZeroDp, truncQ, mpT, sT,
    inC1, balT, eq_false_base_quote, eq_false_quote_base]

/-- C1 counterexample: a MARKET BID with supplied quote_limit −1/1000 is
accepted (its effective quote limit is −1/1000 after rounding and min with
the balance), yet it spends 0 across its (zero) trades — and 0 exceeds the
negative effective limit, contradicting the claimed bound. -/
theorem C1_counterexample :
    (∃ o, (putOrder mpT false 0 sT inC1).1 = POResult.ok o) ∧
    inC1.side = OrderSide.BID ∧ inC1.type_ = OrderType.MARKET ∧
    qsum (putOrder mpT false 0 sT inC1).2.2 = 0 ∧
    computeQuoteLimit mpT sT.bal inC1 <
      qsum (putOrder mpT false 0 sT inC1).2.2 := by
  have hq : qsum (putOrder mpT false 0 sT inC1).2.2 = 0 := by
    unfold qsum
    rw [putOrder_C1_trades]
    rfl
  refine ⟨⟨takerOf sT inC1, putOrder_C1_ok⟩, rfl, rfl, hq, ?_⟩
  rw [hq, quoteLimit_C1]
  norm_num

/-- C1 witness (for the amended statement): the accepted `inC1w` market bid
satisfies the quote-limit bound. -/
theorem C1_amended_witness :
    inC1w.side = OrderSide.BID ∧ inC1w.type_ = OrderType.MARKET ∧
    qsum (putOrder mpT false 0 sT inC1w).2.2 ≤
      max (computeQuoteLimit mpT sT.bal inC1w) 0 := by
  refine ⟨rfl, rfl, ?_⟩
  have heq : putOrder mpT false 0 sT inC1w =
      (POResult.ok oC1w, (putOrder mpT false 0 sT inC1w).2.1,
       (putOrder mpT false 0 sT inC1w).2.2) := by
    rw [← putOrder_C1w_ok]
  exact C1_amended mpT false 0 sT inC1w oC1w _ _ rfl rfl heq

/-! ## Claim C3 — book/freeze invariants (helper lemmas) -/

theorem finishOrders_noop (mp : MarketParams) (b : Bal) (os : List Order)
    (h : ∀ o ∈ os, o.remain = 0) :
    finishOrders mp b os =
      some (b, os.map (fun o => Event.order o OrderEventType.FINISH)) := by
  induction os with
  | nil => rfl
  | cons o rest ih =>
    rw [finishOrders]
    have h0 : o.remain = 0 := h o (List.mem_cons_self _ _)
    unfold unfrozenBalance
    rw [if_neg (by rw [h0]; exact lt_irrefl 0), if_pos h0]
    dsimp only
    rw [ih (fun x hx => h x (List.mem_cons_of_mem _ hx))]
    rfl

theorem frozenSum_nil (u : ℕ) : frozenSum u [] = 0 := rfl

theorem frozenSum_append (u : ℕ) (a b : List Order) :
    frozenSum u (a ++ b) = frozenSum u a + frozenSum u b := by
  unfold frozenSum
  rw [List.filter_append, List.map_append, List.sum_append]

theorem frozenSum_cons (u : ℕ) (o : Order) (l : List Order) :
    frozenSum u (o :: l) =
      (if o.user = u then o.frozen else 0) + frozenSum u l := by
  unfold frozenSum
  rw [List.filter_cons]
  by_cases h : o.user = u
  · simp [h]
  · simp [h]

theorem frozenSum_insertAskList (u : ℕ) (o : Order) (l : List Order) :
    frozenSum u (insertAskList o l) = frozenSum u (o :: l) := by
  induction l with
  | nil => rfl
  | cons m rest ih =>
    unfold insertAskList
    split_ifs
    · rw [frozenSum_cons, ih, frozenSum_cons, frozenSum_cons, frozenSum_cons]
      ring
    · rfl

theorem frozenSum_insertBidList (u : ℕ) (o : Order) (l : List Order) :
    frozenSum u (insertBidList o l) = frozenSum u (o :: l) := by
  induction l with
  | nil => rfl
  | cons m rest ih =>
    unfold insertBidList
    split_ifs
    · rw [frozenSum_cons, ih, frozenSum_cons, frozenSum_cons, frozenSum_cons]
      ring
    · rfl

theorem insertAskList_subset (o x : Order) (l : List Order)
    (h : x ∈ insertAskList o l) : x = o ∨ x ∈ l := by
  induction l with
  | nil =>
    simp [insertAskList] at h
    exact Or.inl h
  | cons m rest ih =>
    unfold insertAskList at h
    split_ifs at h
    · rcases List.mem_cons.mp h with h1 | h1
      · exact Or.inr (List.mem_cons.mpr (Or.inl h1))
      · rcases ih h1 with h2 | h2
        · exact Or.inl h2
        · exact Or.inr (List.mem_cons.mpr (Or.inr h2))
    · rcases List.mem_cons.mp h with h1 | h1
      · exact Or.inl h1
      · exact Or.inr h1

theorem insertBidList_subset (o x : Order) (l : List Order)
    (h : x ∈ insertBidList o l) : x = o ∨ x ∈ l := by
  induction l with
  | nil =>
    simp [insertBidList] at h
    exact Or.inl h
  | cons m rest ih =>
    unfold insertBidList at h
    split_ifs at h
    · rcases List.mem_cons.mp h with h1 | h1
      · exact Or.inr (List.mem_cons.mpr (Or.inl h1))
      · rcases ih h1 with h2 | h2
        · exact Or.inl h2
        · exact Or.inr (List.mem_cons.mpr (Or.inr h2))
    · rcases List.mem_cons.mp h with h1 | h1
      · exact Or.inl h1
      · exact Or.inr h1

theorem add_neg_none (prec : PrecOf) (b : Bal) (u : ℕ) (bt : BalanceType)
    (a : AssetKind) (amt : ℚ) (h0 : 0 ≤ amt) (hdp : isDp (prec a) amt)
    (hneg : b ⟨u, bt, a⟩ + amt < 0) :
    BalanceManager.add prec b u bt a amt = none := by
  unfold BalanceManager.add BalanceManager.setByKey
  rw [if_neg (not_lt.mpr h0)]
  dsimp only
  rw [hdp.roundHalfEvenDp_eq, if_pos hneg]
  rfl

set_option maxHeartbeats 1000000 in
theorem frozen_ok_inv (prec : PrecOf) (b : Bal) (u : ℕ) (a : AssetKind)
    (amt : ℚ) (b2 : Bal)
    (hdp : isDp (prec a) amt)
    (hav : isDp (prec a) (b ⟨u, BalanceType.AVAILABLE, a⟩))
    (hfr : isDp (prec a) (b ⟨u, BalanceType.FREEZE, a⟩))
    (h : BalanceManager.frozen prec b u a amt = some b2) :
    b2 = (fun k =>
      if k = ⟨u, BalanceType.FREEZE, a⟩ then
        b ⟨u, BalanceType.FREEZE, a⟩ + amt
      else if k = ⟨u, BalanceType.AVAILABLE, a⟩ then
        b ⟨u, BalanceType.AVAILABLE, a⟩ - amt
      else b k) ∧
    0 ≤ amt ∧ amt ≤ b ⟨u, BalanceType.AVAILABLE, a⟩ := by
  unfold BalanceManager.frozen at h
  by_cases h0 : amt < 0
  · rw [if_pos h0] at h
    exact Option.noConfusion h
  rw [if_neg h0] at h
  push_neg at h0
  dsimp only at h
  rw [hdp.roundHalfEvenDp_eq] at h
  by_cases h1 : b ⟨u, BalanceType.AVAILABLE, a⟩ < amt
  · rw [if_pos h1] at h
    exact Option.noConfusion h
  rw [if_neg h1] at h
  push_neg at h1
  rw [sub_ok prec b u BalanceType.AVAILABLE a amt h0 hdp hav h1] at h
  dsimp only at h
  by_cases h2 : 0 ≤ b ⟨u, BalanceType.FREEZE, a⟩ + amt
  · rw [add_ok prec _ u BalanceType.FREEZE a amt h0 hdp (by simpa using hfr)
      (by simpa using h2)] at h
    simp only [Option.some.injEq] at h
    refine ⟨?_, h0, h1⟩
    rw [← h]
    funext k
    by_cases hk1 : k = (⟨u, BalanceType.FREEZE, a⟩ : BalanceMapKey)
    · simp [hk1]
    · by_cases hk2 : k = (⟨u, BalanceType.AVAILABLE, a⟩ : BalanceMapKey)
      · simp [hk1, hk2]
      · simp [hk1, hk2]
  · exfalso
    have hneg2 : (fun k =>
        if k = (⟨u, BalanceType.AVAILABLE, a⟩ : BalanceMapKey) then
          b ⟨u, BalanceType.AVAILABLE, a⟩ - amt
        else b k) ⟨u, BalanceType.FREEZE, a⟩ + amt < 0 := by
      simpa using not_le.mp h2
    rw [add_neg_none prec _ u BalanceType.FREEZE a amt h0 hdp hneg2] at h
    simp at h

theorem get_update (b : Bal) (k0 : BalanceMapKey) (v : ℚ)
    (k1 : BalanceMapKey) :
    (fun k => if k = k0 then b k0 + v else b k) k1 =
      b k1 + (if k1 = k0 then v else 0) := by
  by_cases h : k1 = k0
  · subst h
    simp
  · simp [h]

set_option maxHeartbeats 1000000 in
theorem matchStep_WF_bid (mp : MarketParams) (rp : Bool) (now ql : ℚ)
    (ilo ipo : Bool) (acc : MatchAcc) (maker : Order) (acc2 : MatchAcc)
    (hprec1 : mp.amount_prec ≤ mp.base_prec)
    (hprec2 : mp.amount_prec + mp.price_prec ≤ mp.quote_prec)
    (hbal : ∀ k, isDp (mp.precOf k.asset) (acc.bal k))
    (hmw : askWF mp maker)
    (htr : isDp mp.amount_prec acc.taker.remain)
    (h : matchStep mp rp now ql false ilo ipo acc maker = StepOut.next acc2) :
    ∃ tb tq bf af : ℚ,
      tb ≠ 0 ∧ isDp mp.amount_prec tb ∧ tb ≤ maker.remain ∧
      tb ≤ acc.taker.remain ∧
      acc2.taker = { acc.taker with
        remain := acc.taker.remain - tb
        finished_base := acc.taker.finished_base + tb
        finished_quote := acc.taker.finished_quote + tq
        finished_fee := acc.taker.finished_fee + bf } ∧
      (∀ k, isDp (mp.precOf k.asset) (acc2.bal k)) ∧
      (∀ u, BalanceManager.get acc2.bal u BalanceType.FREEZE AssetKind.base =
        BalanceManager.get acc.bal u BalanceType.FREEZE AssetKind.base -
          (if maker.user = u then tb else 0)) ∧
      (∀ u, BalanceManager.get acc2.bal u BalanceType.FREEZE AssetKind.quote =
        BalanceManager.get acc.bal u BalanceType.FREEZE AssetKind.quote) ∧
      ((maker.remain - tb = 0 ∧ acc2.kept = acc.kept ∧
        acc2.finished = acc.finished ++
          [{ maker with
             remain := maker.remain - tb
             frozen := maker.frozen - tb
             finished_base := maker.finished_base + tb
             finished_quote := maker.finished_quote + tq
             finished_fee := maker.finished_fee + af }]) ∨
       (maker.remain - tb ≠ 0 ∧ acc2.finished = acc.finished ∧
        acc2.kept = acc.kept ++
          [{ maker with
             remain := maker.remain - tb
             frozen := maker.frozen - tb
             finished_base := maker.finished_base + tb
             finished_quote := maker.finished_quote + tq
             finished_fee := maker.finished_fee + af }])) := by
  unfold matchStep at h
  split at h
  · exact StepOut.noConfusion h
  · lift_lets at h
    extract_lets taker ask_fee_rate bid_fee_rate price ask_order bid_order
      taker_is_bid is_market_order tb0 overLimit tb tq quote_sum
      bid_fee ask_fee trade_id trade ask_order2 bid_order2
      taker2 maker2 maker_is_bid maker3 at h
    by_cases c2 : ilo = true ∧ bid_order.price < ask_order.price
    · rw [if_pos c2] at h
      exact StepOut.noConfusion h
    rw [if_neg c2] at h
    by_cases c3 : ipo = true
    · rw [if_pos c3] at h
      exact StepOut.noConfusion h
    rw [if_neg c3] at h
    by_cases c4 : ask_order.user = bid_order.user ∧ mp.disable_self_trade = true
    · rw [if_pos c4] at h
      exact StepOut.noConfusion h
    rw [if_neg c4] at h
    by_cases c5 : overLimit ∧ tb = 0
    · rw [if_pos c5] at h
      exact StepOut.noConfusion h
    rw [if_neg c5] at h
    by_cases c6 : tb = 0
    · rw [if_pos c6] at h
      exact StepOut.noConfusion h
    rw [if_neg c6] at h
    by_cases c7 : tq = 0
    · rw [if_pos c7] at h
      exact StepOut.noConfusion h
    rw [if_neg c7] at h
    by_cases c8 : taker_is_bid ∧ is_market_order ∧ ql < quote_sum
    · rw [if_pos c8] at h
      exact StepOut.noConfusion h
    rw [if_neg c8] at h
    by_cases c9 : mp.disable_self_trade = true ∧
      trade.ask_user_id = trade.bid_user_id
    · rw [if_pos c9] at h
      exact StepOut.noConfusion h
    rw [if_neg c9] at h
    by_cases c10 : ask_order2.remain < 0
    · rw [if_pos c10] at h
      exact StepOut.noConfusion h
    rw [if_neg c10] at h
    by_cases c11 : bid_order2.remain < 0
    · rw [if_pos c11] at h
      exact StepOut.noConfusion h
    rw [if_neg c11] at h
    have hao : ask_order = maker := rfl
    have hbo : bid_order = acc.taker := rfl
    have htib : taker_is_bid := by
      show ¬ (false : Bool) = true
      simp
    have hbt2 : (if taker_is_bid then BalanceType.FREEZE
        else BalanceType.AVAILABLE) = BalanceType.FREEZE := if_pos htib
    have hbt4 : (if taker_is_bid then BalanceType.AVAILABLE
        else BalanceType.FREEZE) = BalanceType.AVAILABLE := if_pos htib
    have hbt2d : (if decide taker_is_bid = true then BalanceType.FREEZE
        else BalanceType.AVAILABLE) = BalanceType.FREEZE := by
      rw [if_pos (by simpa using htib)]
    have hbt4d : (if decide taker_is_bid = true then BalanceType.AVAILABLE
        else BalanceType.FREEZE) = BalanceType.AVAILABLE := by
      rw [if_pos (by simpa using htib)]
    -- basic facts about the traded amount
    have htb : isDp mp.amount_prec tb := by
      show isDp mp.amount_prec
        (if overLimit then
          roundToZeroDp mp.amount_prec ((ql - acc.quote_sum) / price)
        else tb0)
      split_ifs
      · exact isDp_roundToZeroDp _ _
      · exact (hmw.2.2.2.2.2.1).min htr
    have htble : tb ≤ maker.remain := by
      have h10 := not_lt.mp c10
      have : (0 : ℚ) ≤ maker.remain - tb := h10
      linarith
    have httle : tb ≤ acc.taker.remain := by
      have h11 := not_lt.mp c11
      have : (0 : ℚ) ≤ acc.taker.remain - tb := h11
      linarith
    -- isDp facts for the four balance updates
    have htbb : isDp mp.base_prec tb := htb.mono hprec1
    have htqq : isDp mp.quote_prec tq := by
      show isDp mp.quote_prec (price * tb)
      have := (hmw.2.2.2.2.2.2).mul htb
      exact this.mono (by omega)
    have hbfdp : isDp mp.base_prec bid_fee := isDp_roundToZeroDp _ _
    have hafdp : isDp mp.quote_prec ask_fee := isDp_roundToZeroDp _ _
    have hch1 : isDp mp.base_prec (if 0 ≤ bid_fee then tb - bid_fee else tb) := by
      split_ifs
      · exact htbb.sub hbfdp
      · exact htbb
    have hch3 : isDp mp.quote_prec (if 0 ≤ ask_fee then tq - ask_fee else tq) := by
      split_ifs
      · exact htqq.sub hafdp
      · exact htqq
    split at h
    · exact StepOut.noConfusion h
    · rename_i b4 c4x ubEvs heqtbu
      lift_lets at h
      extract_lets acc3 at h
      -- characterize the four balance updates
      unfold tradeBalanceUpdates at heqtbu
      dsimp only at heqtbu
      split at heqtbu
      · rename_i b1 c1 ev1 heq1
        split at heqtbu
        · rename_i b2x c2x ev2 heq2
          split at heqtbu
          · rename_i b3x c3x ev3 heq3
            split at heqtbu
            · rename_i b4y c4y ev4 heq4
              simp only [Option.some.injEq, Prod.mk.injEq] at heqtbu
              obtain ⟨hb4, -, -⟩ := heqtbu
              obtain ⟨hB1, -, -, -⟩ :=
                ub_ok_inv _ _ _ _ _ _ _ _ _ hch1 (hbal _) heq1
              have hb1 : ∀ k, isDp (mp.precOf k.asset) (b1 k) := by
                rw [hB1]
                exact isDp_update _ _ _ _ hbal hch1
              obtain ⟨hB2, -, -, -⟩ :=
                ub_ok_inv _ _ _ _ _ _ _ _ _ htbb.neg (hb1 _) heq2
              have hb2 : ∀ k, isDp (mp.precOf k.asset) (b2x k) := by
                rw [hB2]
                exact isDp_update _ _ _ _ hb1 htbb.neg
              obtain ⟨hB3, -, -, -⟩ :=
                ub_ok_inv _ _ _ _ _ _ _ _ _ hch3 (hb2 _) heq3
              have hb3 : ∀ k, isDp (mp.precOf k.asset) (b3x k) := by
                rw [hB3]
                exact isDp_update _ _ _ _ hb2 hch3
              obtain ⟨hB4, -, -, -⟩ :=
                ub_ok_inv _ _ _ _ _ _ _ _ _ htqq.neg (hb3 _) heq4
              have hb4i : ∀ k, isDp (mp.precOf k.asset) (b4y k) := by
                rw [hB4]
                exact isDp_update _ _ _ _ hb3 htqq.neg
              have hB4f := hb4.symm.trans hB4
              have hb4f : ∀ k, isDp (mp.precOf k.asset) (b4 k) := by
                rw [hb4.symm]
                exact hb4i
              have hFb : ∀ u,
                  BalanceManager.get b4 u BalanceType.FREEZE AssetKind.base =
                    BalanceManager.get acc.bal u BalanceType.FREEZE
                      AssetKind.base - (if maker.user = u then tb else 0) := by
                intro u
                show b4 ⟨u, BalanceType.FREEZE, AssetKind.base⟩ = _
                rw [hB4f, get_update, hB3, get_update, hB2, get_update,
                  hB1, get_update]
                dsimp only [bkey]
                by_cases hu : maker.user = u
                · simp [BalanceManager.get, hu.symm, hao, hbo, htib,
                    hbt2, hbt4, hbt2d, hbt4d, sub_eq_add_neg]
                · have hu2 : ¬ u = maker.user := fun hh => hu hh.symm
                  simp [BalanceManager.get, hu, hu2, hao, hbo, htib,
                    hbt2, hbt4, hbt2d, hbt4d, sub_eq_add_neg]
              have hFq : ∀ u,
                  BalanceManager.get b4 u BalanceType.FREEZE AssetKind.quote =
                    BalanceManager.get acc.bal u BalanceType.FREEZE
                      AssetKind.quote := by
                intro u
                show b4 ⟨u, BalanceType.FREEZE, AssetKind.quote⟩ = _
                rw [hB4f, get_update, hB3, get_update, hB2, get_update,
                  hB1, get_update]
                dsimp only [bkey]
                simp [BalanceManager.get, hao, hbo, htib, hbt2, hbt4,
                  hbt2d, hbt4d]
              by_cases c13 : maker3.remain = 0
              · rw [if_pos c13] at h
                cases h
                refine ⟨tb, tq, bid_fee, ask_fee, c6, htb, htble, httle,
                  rfl, hb4f, hFb, hFq, Or.inl ⟨c13, rfl, rfl⟩⟩
              · rw [if_neg c13] at h
                cases h
                refine ⟨tb, tq, bid_fee, ask_fee, c6, htb, htble, httle,
                  rfl, hb4f, hFb, hFq, Or.inr ⟨c13, rfl, rfl⟩⟩
            · simp at heqtbu
          · simp at heqtbu
        · simp at heqtbu
      · simp at heqtbu

set_option maxHeartbeats 1000000 in
theorem matchStep_WF_ask (mp : MarketParams) (rp : Bool) (now ql : ℚ)
    (ilo ipo : Bool) (acc : MatchAcc) (maker : Order) (acc2 : MatchAcc)
    (hprec1 : mp.amount_prec ≤ mp.base_prec)
    (hprec2 : mp.amount_prec + mp.price_prec ≤ mp.quote_prec)
    (hbal : ∀ k, isDp (mp.precOf k.asset) (acc.bal k))
    (hmw : bidWF mp maker)
    (htr : isDp mp.amount_prec acc.taker.remain)
    (h : matchStep mp rp now ql true ilo ipo acc maker = StepOut.next acc2) :
    ∃ tb tq bf af : ℚ,
      tb ≠ 0 ∧ isDp mp.amount_prec tb ∧ tb ≤ maker.remain ∧
      tb ≤ acc.taker.remain ∧ tq = maker.price * tb ∧
      acc2.taker = { acc.taker with
        remain := acc.taker.remain - tb
        finished_base := acc.taker.finished_base + tb
        finished_quote := acc.taker.finished_quote + tq
        finished_fee := acc.taker.finished_fee + af } ∧
      (∀ k, isDp (mp.precOf k.asset) (acc2.bal k)) ∧
      (∀ u, BalanceManager.get acc2.bal u BalanceType.FREEZE AssetKind.quote =
        BalanceManager.get acc.bal u BalanceType.FREEZE AssetKind.quote -
          (if maker.user = u then tq else 0)) ∧
      (∀ u, BalanceManager.get acc2.bal u BalanceType.FREEZE AssetKind.base =
        BalanceManager.get acc.bal u BalanceType.FREEZE AssetKind.base) ∧
      ((maker.remain - tb = 0 ∧ acc2.kept = acc.kept ∧
        acc2.finished = acc.finished ++
          [{ maker with
             remain := maker.remain - tb
             frozen := maker.frozen - tq
             finished_base := maker.finished_base + tb
             finished_quote := maker.finished_quote + tq
             finished_fee := maker.finished_fee + bf }]) ∨
       (maker.remain - tb ≠ 0 ∧ acc2.finished = acc.finished ∧
        acc2.kept = acc.kept ++
          [{ maker with
             remain := maker.remain - tb
             frozen := maker.frozen - tq
             finished_base := maker.finished_base + tb
             finished_quote := maker.finished_quote + tq
             finished_fee := maker.finished_fee + bf }])) := by
  unfold matchStep at h
  split at h
  · exact StepOut.noConfusion h
  · lift_lets at h
    extract_lets taker ask_fee_rate bid_fee_rate price ask_order bid_order
      taker_is_bid is_market_order tb0 overLimit tb tq quote_sum
      bid_fee ask_fee trade_id trade ask_order2 bid_order2
      taker2 maker2 maker_is_bid maker3 at h
    by_cases c2 : ilo = true ∧ bid_order.price < ask_order.price
    · rw [if_pos c2] at h
      exact StepOut.noConfusion h
    rw [if_neg c2] at h
    by_cases c3 : ipo = true
    · rw [if_pos c3] at h
      exact StepOut.noConfusion h
    rw [if_neg c3] at h
    by_cases c4 : ask_order.user = bid_order.user ∧ mp.disable_self_trade = true
    · rw [if_pos c4] at h
      exact StepOut.noConfusion h
    rw [if_neg c4] at h
    by_cases c5 : overLimit ∧ tb = 0
    · rw [if_pos c5] at h
      exact StepOut.noConfusion h
    rw [if_neg c5] at h
    by_cases c6 : tb = 0
    · rw [if_pos c6] at h
      exact StepOut.noConfusion h
    rw [if_neg c6] at h
    by_cases c7 : tq = 0
    · rw [if_pos c7] at h
      exact StepOut.noConfusion h
    rw [if_neg c7] at h
    by_cases c8 : taker_is_bid ∧ is_market_order ∧ ql < quote_sum
    · rw [if_pos c8] at h
      exact StepOut.noConfusion h
    rw [if_neg c8] at h
    by_cases c9 : mp.disable_self_trade = true ∧
      trade.ask_user_id = trade.bid_user_id
    · rw [if_pos c9] at h
      exact StepOut.noConfusion h
    rw [if_neg c9] at h
    by_cases c10 : ask_order2.remain < 0
    · rw [if_pos c10] at h
      exact StepOut.noConfusion h
    rw [if_neg c10] at h
    by_cases c11 : bid_order2.remain < 0
    · rw [if_pos c11] at h
      exact StepOut.noConfusion h
    rw [if_neg c11] at h
    have hao : ask_order = acc.taker := rfl
    have hbo : bid_order = maker := rfl
    have htib : ¬ taker_is_bid := by
      show ¬ ¬ (true : Bool) = true
      simp
    have hbt2 : (if taker_is_bid then BalanceType.FREEZE
        else BalanceType.AVAILABLE) = BalanceType.AVAILABLE := if_neg htib
    have hbt4 : (if taker_is_bid then BalanceType.AVAILABLE
        else BalanceType.FREEZE) = BalanceType.FREEZE := if_neg htib
    have hbt2d : (if decide taker_is_bid = true then BalanceType.FREEZE
        else BalanceType.AVAILABLE) = BalanceType.AVAILABLE := by
      rw [if_neg (by simpa using htib)]
    have hbt4d : (if decide taker_is_bid = true then BalanceType.AVAILABLE
        else BalanceType.FREEZE) = BalanceType.FREEZE := by
      rw [if_neg (by simpa using htib)]
    have htb : isDp mp.amount_prec tb := by
      show isDp mp.amount_prec
        (if overLimit then
          roundToZeroDp mp.amount_prec ((ql - acc.quote_sum) / price)
        else tb0)
      split_ifs
      · exact isDp_roundToZeroDp _ _
      · exact htr.min (hmw.2.2.2.2.2.1)
    have htble : tb ≤ maker.remain := by
      have h11 := not_lt.mp c11
      have : (0 : ℚ) ≤ maker.remain - tb := h11
      linarith
    have httle : tb ≤ acc.taker.remain := by
      have h10 := not_lt.mp c10
      have : (0 : ℚ) ≤ acc.taker.remain - tb := h10
      linarith
    have htbb : isDp mp.base_prec tb := htb.mono hprec1
    have htqq : isDp mp.quote_prec tq := by
      show isDp mp.quote_prec (price * tb)
      have := (hmw.2.2.2.2.2.2).mul htb
      exact this.mono (by omega)
    have hbfdp : isDp mp.base_prec bid_fee := isDp_roundToZeroDp _ _
    have hafdp : isDp mp.quote_prec ask_fee := isDp_roundToZeroDp _ _
    have hch1 : isDp mp.base_prec (if 0 ≤ bid_fee then tb - bid_fee else tb) := by
      split_ifs
      · exact htbb.sub hbfdp
      · exact htbb
    have hch3 : isDp mp.quote_prec (if 0 ≤ ask_fee then tq - ask_fee else tq) := by
      split_ifs
      · exact htqq.sub hafdp
      · exact htqq
    split at h
    · exact StepOut.noConfusion h
    · rename_i b4 c4x ubEvs heqtbu
      lift_lets at h
      extract_lets acc3 at h
      unfold tradeBalanceUpdates at heqtbu
      dsimp only at heqtbu
      split at heqtbu
      · rename_i b1 c1 ev1 heq1
        split at heqtbu
        · rename_i b2x c2x ev2 heq2
          split at heqtbu
          · rename_i b3x c3x ev3 heq3
            split at heqtbu
            · rename_i b4y c4y ev4 heq4
              simp only [Option.some.injEq, Prod.mk.injEq] at heqtbu
              obtain ⟨hb4, -, -⟩ := heqtbu
              obtain ⟨hB1, -, -, -⟩ :=
                ub_ok_inv _ _ _ _ _ _ _ _ _ hch1 (hbal _) heq1
              have hb1 : ∀ k, isDp (mp.precOf k.asset) (b1 k) := by
                rw [hB1]
                exact isDp_update _ _ _ _ hbal hch1
              obtain ⟨hB2, -, -, -⟩ :=
                ub_ok_inv _ _ _ _ _ _ _ _ _ htbb.neg (hb1 _) heq2
              have hb2 : ∀ k, isDp (mp.precOf k.asset) (b2x k) := by
                rw [hB2]
                exact isDp_update _ _ _ _ hb1 htbb.neg
              obtain ⟨hB3, -, -, -⟩ :=
                ub_ok_inv _ _ _ _ _ _ _ _ _ hch3 (hb2 _) heq3
              have hb3 : ∀ k, isDp (mp.precOf k.asset) (b3x k) := by
                rw [hB3]
                exact isDp_update _ _ _ _ hb2 hch3
              obtain ⟨hB4, -, -, -⟩ :=
                ub_ok_inv _ _ _ _ _ _ _ _ _ htqq.neg (hb3 _) heq4
              have hb4i : ∀ k, isDp (mp.precOf k.asset) (b4y k) := by
                rw [hB4]
                exact isDp_update _ _ _ _ hb3 htqq.neg
              have hB4f := hb4.symm.trans hB4
              have hb4f : ∀ k, isDp (mp.precOf k.asset) (b4 k) := by
                rw [hb4.symm]
                exact hb4i
              have hFq : ∀ u,
                  BalanceManager.get b4 u BalanceType.FREEZE AssetKind.quote =
                    BalanceManager.get acc.bal u BalanceType.FREEZE
                      AssetKind.quote - (if maker.user = u then tq else 0) := by
                intro u
                show b4 ⟨u, BalanceType.FREEZE, AssetKind.quote⟩ = _
                rw [hB4f, get_update, hB3, get_update, hB2, get_update,
                  hB1, get_update]
                dsimp only [bkey]
                by_cases hu : maker.user = u
                · simp [BalanceManager.get, hu.symm, hao, hbo, htib,
                    hbt2, hbt4, hbt2d, hbt4d, sub_eq_add_neg]
                · have hu2 : ¬ u = maker.user := fun hh => hu hh.symm
                  simp [BalanceManager.get, hu, hu2, hao, hbo, htib,
                    hbt2, hbt4, hbt2d, hbt4d, sub_eq_add_neg]
              have hFb : ∀ u,
                  BalanceManager.get b4 u BalanceType.FREEZE AssetKind.base =
                    BalanceManager.get acc.bal u BalanceType.FREEZE
                      AssetKind.base := by
                intro u
                show b4 ⟨u, BalanceType.FREEZE, AssetKind.base⟩ = _
                rw [hB4f, get_update, hB3, get_update, hB2, get_update,
                  hB1, get_update]
                dsimp only [bkey]
                simp [BalanceManager.get, hao, hbo, htib, hbt2, hbt4,
                  hbt2d, hbt4d]
              by_cases c13 : maker3.remain = 0
              · rw [if_pos c13] at h
                cases h
                refine ⟨tb, tq, bid_fee, ask_fee, c6, htb, htble, httle,
                  rfl, rfl, hb4f, hFq, hFb, Or.inl ⟨c13, rfl, rfl⟩⟩
              · rw [if_neg c13] at h
                cases h
                refine ⟨tb, tq, bid_fee, ask_fee, c6, htb, htble, httle,
                  rfl, rfl, hb4f, hFq, hFb, Or.inr ⟨c13, rfl, rfl⟩⟩
            · simp at heqtbu
          · simp at heqtbu
        · simp at heqtbu
      · simp at heqtbu

theorem matchLoop_WF_bid (mp : MarketParams) (rp : Bool) (now ql : ℚ)
    (ilo ipo : Bool) (makers : List Order) (acc acc2 : MatchAcc)
    (hprec1 : mp.amount_prec ≤ mp.base_prec)
    (hprec2 : mp.amount_prec + mp.price_prec ≤ mp.quote_prec)
    (hbal : ∀ k, isDp (mp.precOf k.asset) (acc.bal k))
    (hms : ∀ o ∈ makers, askWF mp o)
    (hts : 0 ≤ acc.taker.remain ∧
      acc.taker.remain + acc.taker.finished_base = acc.taker.amount ∧
      isDp mp.amount_prec acc.taker.remain)
    (h : matchLoop mp rp now ql false ilo ipo acc makers = some acc2) :
    (∀ k, isDp (mp.precOf k.asset) (acc2.bal k)) ∧
    (0 ≤ acc2.taker.remain ∧
      acc2.taker.remain + acc2.taker.finished_base = acc2.taker.amount ∧
      isDp mp.amount_prec acc2.taker.remain) ∧
    acc2.taker.side = acc.taker.side ∧
    acc2.taker.type_ = acc.taker.type_ ∧
    acc2.taker.user = acc.taker.user ∧
    acc2.taker.price = acc.taker.price ∧
    acc2.taker.amount = acc.taker.amount ∧
    acc2.taker.frozen = acc.taker.frozen ∧
    (∀ o ∈ acc2.kept, o ∈ acc.kept ∨ askWF mp o) ∧
    (∀ o ∈ acc2.finished, o ∈ acc.finished ∨ o.remain = 0) ∧
    (∀ u, BalanceManager.get acc2.bal u BalanceType.FREEZE AssetKind.base -
        frozenSum u acc2.kept =
      BalanceManager.get acc.bal u BalanceType.FREEZE AssetKind.base -
        frozenSum u acc.kept - frozenSum u makers) ∧
    (∀ u, BalanceManager.get acc2.bal u BalanceType.FREEZE AssetKind.quote =
      BalanceManager.get acc.bal u BalanceType.FREEZE AssetKind.quote) := by
  induction makers generalizing acc with
  | nil =>
    simp only [matchLoop, Option.some.injEq] at h
    subst h
    refine ⟨hbal, hts, rfl, rfl, rfl, rfl, rfl, rfl,
      fun o ho => Or.inl ho, fun o ho => Or.inl ho, ?_, fun u => rfl⟩
    intro u
    simp [frozenSum]
  | cons maker rest ih =>
    rw [matchLoop] at h
    rcases hstep : matchStep mp rp now ql false ilo ipo acc maker
      with acc3 | _ | acc3
    · rw [hstep] at h
      simp only [Option.some.injEq] at h
      subst h
      obtain ⟨-, htk, -, hbl, hfin, hkp⟩ :=
        matchStep_brk_events _ _ _ _ _ _ _ _ _ _ hstep
      refine ⟨?_, ?_, ?_, ?_, ?_, ?_, ?_, ?_, ?_, ?_, ?_, ?_⟩
      · show ∀ k, isDp (mp.precOf k.asset) (acc3.bal k)
        rw [hbl]
        exact hbal
      · show 0 ≤ acc3.taker.remain ∧ _ ∧ _
        rw [htk]
        exact hts
      · show acc3.taker.side = _
        rw [htk]
      · show acc3.taker.type_ = _
        rw [htk]
      · show acc3.taker.user = _
        rw [htk]
      · show acc3.taker.price = _
        rw [htk]
      · show acc3.taker.amount = _
        rw [htk]
      · show acc3.taker.frozen = _
        rw [htk]
      · intro o ho
        have ho2 : o ∈ acc3.kept ++ rest := ho
        rcases List.mem_append.mp ho2 with h1 | h1
        · rw [hkp] at h1
          rcases List.mem_append.mp h1 with h2 | h2
          · exact Or.inl h2
          · simp only [List.mem_singleton] at h2
            subst h2
            exact Or.inr (hms o (List.mem_cons_self _ _))
        · exact Or.inr (hms o (List.mem_cons_of_mem _ h1))
      · intro o ho
        have ho2 : o ∈ acc3.finished := ho
        rw [hfin] at ho2
        exact Or.inl ho2
      · intro u
        show BalanceManager.get acc3.bal u BalanceType.FREEZE AssetKind.base -
          frozenSum u (acc3.kept ++ rest) = _
        rw [hbl, hkp, frozenSum_append, frozenSum_append, frozenSum_cons,
          frozenSum_cons]
        simp [frozenSum]
        ring
      · intro u
        show BalanceManager.get acc3.bal u BalanceType.FREEZE AssetKind.quote = _
        rw [hbl]
    · rw [hstep] at h
      exact Option.noConfusion h
    · rw [hstep] at h
      obtain ⟨tb, tq, bf, af, htb0, htbdp, htbm, htbt, htaker, hbal3, hFb,
        hFq, hbook⟩ :=
        matchStep_WF_bid mp rp now ql ilo ipo acc maker acc3 hprec1 hprec2
          hbal (hms maker (List.mem_cons_self _ _)) hts.2.2 hstep
      have hts3 : 0 ≤ acc3.taker.remain ∧
          acc3.taker.remain + acc3.taker.finished_base = acc3.taker.amount ∧
          isDp mp.amount_prec acc3.taker.remain := by
        rw [htaker]
        refine ⟨by simpa using htbt, ?_, hts.2.2.sub htbdp⟩
        show acc.taker.remain - tb + (acc.taker.finished_base + tb) = _
        have := hts.2.1
        linarith
      obtain ⟨ibal, its, iside, itype, iuser, iprice, iamount, ifrozen,
        ikept, ifin, iFb, iFq⟩ := ih acc3 hbal3 (fun o ho =>
          hms o (List.mem_cons_of_mem _ ho)) hts3 h
      have hmw := hms maker (List.mem_cons_self _ _)
      refine ⟨ibal, its, ?_, ?_, ?_, ?_, ?_, ?_, ?_, ?_, ?_, ?_⟩
      · rw [iside, htaker]
      · rw [itype, htaker]
      · rw [iuser, htaker]
      · rw [iprice, htaker]
      · rw [iamount, htaker]
      · rw [ifrozen, htaker]
      · intro o ho
        rcases ikept o ho with h1 | h1
        · rcases hbook with ⟨-, hk, -⟩ | ⟨hne, -, hk⟩
          · rw [hk] at h1
            exact Or.inl h1
          · rw [hk] at h1
            rcases List.mem_append.mp h1 with h2 | h2
            · exact Or.inl h2
            · simp only [List.mem_singleton] at h2
              subst h2
              refine Or.inr ⟨hmw.1, hmw.2.1, ?_, ?_, ?_, ?_, hmw.2.2.2.2.2.2⟩
              · show 0 < maker.remain - tb
                rcases lt_or_eq_of_le (sub_nonneg.mpr htbm) with h3 | h3
                · exact h3
                · exact absurd h3.symm hne
              · show maker.remain - tb + (maker.finished_base + tb) = _
                have := hmw.2.2.2.1
                linarith
              · show maker.frozen - tb = maker.remain - tb
                rw [hmw.2.2.2.2.1]
              · exact (hmw.2.2.2.2.2.1).sub htbdp
        · exact Or.inr h1
      · intro o ho
        rcases ifin o ho with h1 | h1
        · rcases hbook with ⟨hz, -, hf⟩ | ⟨-, hf, -⟩
          · rw [hf] at h1
            rcases List.mem_append.mp h1 with h2 | h2
            · exact Or.inl h2
            · simp only [List.mem_singleton] at h2
              subst h2
              exact Or.inr hz
          · rw [hf] at h1
            exact Or.inl h1
        · exact Or.inr h1
      · intro u
        have i1 := iFb u
        have s1 := hFb u
        rcases hbook with ⟨hz, hk, -⟩ | ⟨-, -, hk⟩
        · rw [hk] at i1
          rw [i1, s1, frozenSum_cons]
          have hfr : maker.frozen = maker.remain := hmw.2.2.2.2.1
          have htbeq : tb = maker.remain := by linarith [hz]
          by_cases hu : maker.user = u
          · rw [if_pos hu, if_pos hu, hfr, htbeq]
            ring
          · rw [if_neg hu, if_neg hu]
            ring
        · rw [hk] at i1
          rw [i1, s1, frozenSum_append, frozenSum_cons, frozenSum_cons,
            frozenSum_nil]
          dsimp only
          by_cases hu : maker.user = u
          · rw [if_pos hu, if_pos hu, if_pos hu]
            ring
          · rw [if_neg hu, if_neg hu, if_neg hu]
            ring
      · intro u
        rw [iFq u, hFq u]

theorem matchLoop_WF_ask (mp : MarketParams) (rp : Bool) (now ql : ℚ)
    (ilo ipo : Bool) (makers : List Order) (acc acc2 : MatchAcc)
    (hprec1 : mp.amount_prec ≤ mp.base_prec)
    (hprec2 : mp.amount_prec + mp.price_prec ≤ mp.quote_prec)
    (hbal : ∀ k, isDp (mp.precOf k.asset) (acc.bal k))
    (hms : ∀ o ∈ makers, bidWF mp o)
    (hts : 0 ≤ acc.taker.remain ∧
      acc.taker.remain + acc.taker.finished_base = acc.taker.amount ∧
      isDp mp.amount_prec acc.taker.remain)
    (h : matchLoop mp rp now ql true ilo ipo acc makers = some acc2) :
    (∀ k, isDp (mp.precOf k.asset) (acc2.bal k)) ∧
    (0 ≤ acc2.taker.remain ∧
      acc2.taker.remain + acc2.taker.finished_base = acc2.taker.amount ∧
      isDp mp.amount_prec acc2.taker.remain) ∧
    acc2.taker.side = acc.taker.side ∧
    acc2.taker.type_ = acc.taker.type_ ∧
    acc2.taker.user = acc.taker.user ∧
    acc2.taker.price = acc.taker.price ∧
    acc2.taker.amount = acc.taker.amount ∧
    acc2.taker.frozen = acc.taker.frozen ∧
    (∀ o ∈ acc2.kept, o ∈ acc.kept ∨ bidWF mp o) ∧
    (∀ o ∈ acc2.finished, o ∈ acc.finished ∨ o.remain = 0) ∧
    (∀ u, BalanceManager.get acc2.bal u BalanceType.FREEZE AssetKind.quote -
        frozenSum u acc2.kept =
      BalanceManager.get acc.bal u BalanceType.FREEZE AssetKind.quote -
        frozenSum u acc.kept - frozenSum u makers) ∧
    (∀ u, BalanceManager.get acc2.bal u BalanceType.FREEZE AssetKind.base =
      BalanceManager.get acc.bal u BalanceType.FREEZE AssetKind.base) := by
  induction makers generalizing acc with
  | nil =>
    simp only [matchLoop, Option.some.injEq] at h
    subst h
    refine ⟨hbal, hts, rfl, rfl, rfl, rfl, rfl, rfl,
      fun o ho => Or.inl ho, fun o ho => Or.inl ho, ?_, fun u => rfl⟩
    intro u
    simp [frozenSum]
  | cons maker rest ih =>
    rw [matchLoop] at h
    rcases hstep : matchStep mp rp now ql true ilo ipo acc maker
      with acc3 | _ | acc3
    · rw [hstep] at h
      simp only [Option.some.injEq] at h
      subst h
      obtain ⟨-, htk, -, hbl, hfin, hkp⟩ :=
        matchStep_brk_events _ _ _ _ _ _ _ _ _ _ hstep
      refine ⟨?_, ?_, ?_, ?_, ?_, ?_, ?_, ?_, ?_, ?_, ?_, ?_⟩
      · show ∀ k, isDp (mp.precOf k.asset) (acc3.bal k)
        rw [hbl]
        exact hbal
      · show 0 ≤ acc3.taker.remain ∧ _ ∧ _
        rw [htk]
        exact hts
      · show acc3.taker.side = _
        rw [htk]
      · show acc3.taker.type_ = _
        rw [htk]
      · show acc3.taker.user = _
        rw [htk]
      · show acc3.taker.price = _
        rw [htk]
      · show acc3.taker.amount = _
        rw [htk]
      · show acc3.taker.frozen = _
        rw [htk]
      · intro o ho
        have ho2 : o ∈ acc3.kept ++ rest := ho
        rcases List.mem_append.mp ho2 with h1 | h1
        · rw [hkp] at h1
          rcases List.mem_append.mp h1 with h2 | h2
          · exact Or.inl h2
          · simp only [List.mem_singleton] at h2
            subst h2
            exact Or.inr (hms o (List.mem_cons_self _ _))
        · exact Or.inr (hms o (List.mem_cons_of_mem _ h1))
      · intro o ho
        have ho2 : o ∈ acc3.finished := ho
        rw [hfin] at ho2
        exact Or.inl ho2
      · intro u
        show BalanceManager.get acc3.bal u BalanceType.FREEZE AssetKind.quote -
          frozenSum u (acc3.kept ++ rest) = _
        rw [hbl, hkp, frozenSum_append, frozenSum_append, frozenSum_cons,
          frozenSum_cons]
        simp [frozenSum]
        ring
      · intro u
        show BalanceManager.get acc3.bal u BalanceType.FREEZE AssetKind.base = _
        rw [hbl]
    · rw [hstep] at h
      exact Option.noConfusion h
    · rw [hstep] at h
      obtain ⟨tb, tq, bf, af, htb0, htbdp, htbm, htbt, htq, htaker, hbal3,
        hFq, hFb, hbook⟩ :=
        matchStep_WF_ask mp rp now ql ilo ipo acc maker acc3 hprec1 hprec2
          hbal (hms maker (List.mem_cons_self _ _)) hts.2.2 hstep
      have hts3 : 0 ≤ acc3.taker.remain ∧
          acc3.taker.remain + acc3.taker.finished_base = acc3.taker.amount ∧
          isDp mp.amount_prec acc3.taker.remain := by
        rw [htaker]
        refine ⟨by simpa using htbt, ?_, hts.2.2.sub htbdp⟩
        show acc.taker.remain - tb + (acc.taker.finished_base + tb) = _
        have := hts.2.1
        linarith
      obtain ⟨ibal, its, iside, itype, iuser, iprice, iamount, ifrozen,
        ikept, ifin, iFq, iFb⟩ := ih acc3 hbal3 (fun o ho =>
          hms o (List.mem_cons_of_mem _ ho)) hts3 h
      have hmw := hms maker (List.mem_cons_self _ _)
      refine ⟨ibal, its, ?_, ?_, ?_, ?_, ?_, ?_, ?_, ?_, ?_, ?_⟩
      · rw [iside, htaker]
      · rw [itype, htaker]
      · rw [iuser, htaker]
      · rw [iprice, htaker]
      · rw [iamount, htaker]
      · rw [ifrozen, htaker]
      · intro o ho
        rcases ikept o ho with h1 | h1
        · rcases hbook with ⟨-, hk, -⟩ | ⟨hne, -, hk⟩
          · rw [hk] at h1
            exact Or.inl h1
          · rw [hk] at h1
            rcases List.mem_append.mp h1 with h2 | h2
            · exact Or.inl h2
            · simp only [List.mem_singleton] at h2
              subst h2
              refine Or.inr ⟨hmw.1, hmw.2.1, ?_, ?_, ?_, ?_, hmw.2.2.2.2.2.2⟩
              · show 0 < maker.remain - tb
                rcases lt_or_eq_of_le (sub_nonneg.mpr htbm) with h3 | h3
                · exact h3
                · exact absurd h3.symm hne
              · show maker.remain - tb + (maker.finished_base + tb) = _
                have := hmw.2.2.2.1
                linarith
              · show maker.frozen - tq = (maker.remain - tb) * maker.price
                rw [hmw.2.2.2.2.1, htq]
                ring
              · exact (hmw.2.2.2.2.2.1).sub htbdp
        · exact Or.inr h1
      · intro o ho
        rcases ifin o ho with h1 | h1
        · rcases hbook with ⟨hz, -, hf⟩ | ⟨-, hf, -⟩
          · rw [hf] at h1
            rcases List.mem_append.mp h1 with h2 | h2
            · exact Or.inl h2
            · simp only [List.mem_singleton] at h2
              subst h2
              exact Or.inr hz
          · rw [hf] at h1
            exact Or.inl h1
        · exact Or.inr h1
      · intro u
        have i1 := iFq u
        have s1 := hFq u
        rcases hbook with ⟨hz, hk, -⟩ | ⟨-, -, hk⟩
        · rw [hk] at i1
          rw [i1, s1, frozenSum_cons]
          have hfr : maker.frozen = maker.remain * maker.price :=
            hmw.2.2.2.2.1
          have htbeq : tb = maker.remain := by linarith [hz]
          by_cases hu : maker.user = u
          · rw [if_pos hu, if_pos hu, hfr, htq, htbeq]
            ring
          · rw [if_neg hu, if_neg hu]
            ring
        · rw [hk] at i1
          rw [i1, s1, frozenSum_append, frozenSum_cons, frozenSum_cons,
            frozenSum_nil]
          dsimp only
          have hfr : maker.frozen = maker.remain * maker.price :=
            hmw.2.2.2.2.1
          by_cases hu : maker.user = u
          · rw [if_pos hu, if_pos hu, if_pos hu]
            ring
          · rw [if_neg hu, if_neg hu, if_neg hu]
            ring
      · intro u
        rw [iFb u, hFb u]

theorem executeOrder_WF (mp : MarketParams) (rp : Bool) (now ql : ℚ)
    (s : EngineState) (taker o : Order) (s2 : EngineState) (evs : List Event)
    (hprec1 : mp.amount_prec ≤ mp.base_prec)
    (hprec2 : mp.amount_prec + mp.price_prec ≤ mp.quote_prec)
    (hwf : WF mp s)
    (htk : 0 ≤ taker.remain ∧
      taker.remain + taker.finished_base = taker.amount ∧
      isDp mp.amount_prec taker.remain ∧
      isDp mp.price_prec taker.price ∧ taker.frozen = 0)
    (heq : executeOrder mp rp now s ql taker = (POResult.ok o, s2, evs)) :
    WF mp s2 ∧ (o.frozen = 0 ∨ o ∈ s2.asks ∨ o ∈ s2.bids) := by
  unfold executeOrder at heq
  dsimp only at heq
  rcases hside : taker.side with _ | _
  · -- ASK taker: the loop runs over the bids
    simp only [hside] at heq
    simp only [eq_self_iff_true, decide_True, reduceCtorEq, decide_False,
      if_true, if_false, reduceIte] at heq
    split at heq
    · simp only [Prod.mk.injEq] at heq
      exact POResult.noConfusion heq.1
    · rename_i acc hml
      obtain ⟨ibal, its, iside, itype, iuser, iprice, iamount, ifrozen,
        ikept, ifin, iFq, iFb⟩ :=
        matchLoop_WF_ask _ _ _ _ _ _ _ _ _ hprec1 hprec2 (by exact hwf.1)
          (by exact hwf.2.2.1) (by exact ⟨htk.1, htk.2.1, htk.2.2.1⟩) hml
      have hs1 : acc.taker.side = OrderSide.ASK := by
        have h1 : acc.taker.side = taker.side := iside
        rw [h1, hside]
      have ikept2 : ∀ x ∈ acc.kept, bidWF mp x := by
        intro x hx
        have h1 : x ∈ ([] : List Order) ∨ bidWF mp x := ikept x hx
        exact h1.resolve_left (by simp)
      have ifin2 : ∀ x ∈ acc.finished, x.remain = 0 := by
        intro x hx
        have h1 : x ∈ ([] : List Order) ∨ x.remain = 0 := ifin x hx
        exact h1.resolve_left (by simp)
      have hkq : ∀ u, BalanceManager.get acc.bal u BalanceType.FREEZE
          AssetKind.quote = frozenSum u acc.kept := by
        intro u
        have h1 : BalanceManager.get acc.bal u BalanceType.FREEZE
            AssetKind.quote - frozenSum u acc.kept =
          BalanceManager.get s.bal u BalanceType.FREEZE AssetKind.quote -
            frozenSum u ([] : List Order) - frozenSum u s.bids := iFq u
        rw [frozenSum_nil, hwf.2.2.2.2 u] at h1
        linarith
      have hFb2 : ∀ u, BalanceManager.get acc.bal u BalanceType.FREEZE
          AssetKind.base = BalanceManager.get s.bal u BalanceType.FREEZE
          AssetKind.base := iFb
      have hpq : isDp mp.price_prec acc.taker.price := by
        have h1 : acc.taker.price = taker.price := iprice
        rw [h1]
        exact htk.2.2.2.1
      split at heq
      · simp only [Prod.mk.injEq] at heq
        exact POResult.noConfusion heq.1
      · rename_i b5 finEvents hfo
        rw [finishOrders_noop mp acc.bal acc.finished ifin2] at hfo
        simp only [Option.some.injEq, Prod.mk.injEq] at hfo
        obtain ⟨hb5, -⟩ := hfo
        by_cases hnc : acc.need_cancel = true
        · rw [if_pos hnc] at heq
          simp only [Prod.mk.injEq, POResult.ok.injEq] at heq
          obtain ⟨ho, hs2, -⟩ := heq
          subst hs2
          refine ⟨⟨?_, ?_, ?_, ?_, ?_⟩, Or.inl ?_⟩
          · show ∀ k, isDp (mp.precOf k.asset) (b5 k)
            rw [← hb5]
            exact ibal
          · show ∀ x ∈ s.asks, askWF mp x
            exact hwf.2.1
          · show ∀ x ∈ acc.kept, bidWF mp x
            exact ikept2
          · intro u
            show BalanceManager.get b5 u BalanceType.FREEZE AssetKind.base =
              frozenSum u s.asks
            rw [← hb5, hFb2 u]
            exact hwf.2.2.2.1 u
          · intro u
            show BalanceManager.get b5 u BalanceType.FREEZE AssetKind.quote =
              frozenSum u acc.kept
            rw [← hb5]
            exact hkq u
          · rw [← ho]
            have h1 : acc.taker.frozen = taker.frozen := ifrozen
            rw [h1]
            exact htk.2.2.2.2
        · rw [if_neg hnc] at heq
          by_cases hmk : acc.taker.type_ = OrderType.MARKET
          · rw [if_pos hmk] at heq
            simp only [Prod.mk.injEq, POResult.ok.injEq] at heq
            obtain ⟨ho, hs2, -⟩ := heq
            subst hs2
            refine ⟨⟨?_, ?_, ?_, ?_, ?_⟩, Or.inl ?_⟩
            · show ∀ k, isDp (mp.precOf k.asset) (b5 k)
              rw [← hb5]
              exact ibal
            · show ∀ x ∈ s.asks, askWF mp x
              exact hwf.2.1
            · show ∀ x ∈ acc.kept, bidWF mp x
              exact ikept2
            · intro u
              show BalanceManager.get b5 u BalanceType.FREEZE AssetKind.base =
                frozenSum u s.asks
              rw [← hb5, hFb2 u]
              exact hwf.2.2.2.1 u
            · intro u
              show BalanceManager.get b5 u BalanceType.FREEZE AssetKind.quote =
                frozenSum u acc.kept
              rw [← hb5]
              exact hkq u
            · rw [← ho]
              have h1 : acc.taker.frozen = taker.frozen := ifrozen
              rw [h1]
              exact htk.2.2.2.2
          · rw [if_neg hmk] at heq
            by_cases hr0 : acc.taker.remain = 0
            · rw [if_pos hr0] at heq
              simp only [Prod.mk.injEq, POResult.ok.injEq] at heq
              obtain ⟨ho, hs2, -⟩ := heq
              subst hs2
              refine ⟨⟨?_, ?_, ?_, ?_, ?_⟩, Or.inl ?_⟩
              · show ∀ k, isDp (mp.precOf k.asset) (b5 k)
                rw [← hb5]
                exact ibal
              · show ∀ x ∈ s.asks, askWF mp x
                exact hwf.2.1
              · show ∀ x ∈ acc.kept, bidWF mp x
                exact ikept2
              · intro u
                show BalanceManager.get b5 u BalanceType.FREEZE AssetKind.base =
                  frozenSum u s.asks
                rw [← hb5, hFb2 u]
                exact hwf.2.2.2.1 u
              · intro u
                show BalanceManager.get b5 u BalanceType.FREEZE AssetKind.quote =
                  frozenSum u acc.kept
                rw [← hb5]
                exact hkq u
              · rw [← ho]
                have h1 : acc.taker.frozen = taker.frozen := ifrozen
                rw [h1]
                exact htk.2.2.2.2
            · rw [if_neg hr0] at heq
              split at heq
              · simp only [Prod.mk.injEq] at heq
                exact POResult.noConfusion heq.1
              · rename_i s3 taker2 hins
                unfold insertOrderIntoOrderbook at hins
                dsimp only at hins
                rw [if_pos hs1] at hins
                dsimp only at hins
                split at hins
                · exact Option.noConfusion hins
                · rename_i hlim0
                  have hlim : acc.taker.type_ = OrderType.LIMIT :=
                    not_not.mp hlim0
                  split at hins
                  · exact Option.noConfusion hins
                  · simp only [Option.some.injEq, Prod.mk.injEq] at hins
                    obtain ⟨hs3, ht2⟩ := hins
                    subst hs3
                    subst ht2
                    split at heq
                    · simp only [Prod.mk.injEq] at heq
                      exact POResult.noConfusion heq.1
                    · rename_i b6 hfb
                      unfold frozenBalance at hfb
                      dsimp only at hfb
                      rw [show ({ acc.taker with
                          frozen := acc.taker.remain } : Order).is_ask = true
                        from by simp [Order.is_ask, hs1]] at hfb
                      simp only [eq_self_iff_true, if_true] at hfb
                      rw [← hb5] at hfb
                      obtain ⟨hb6, hamt0, hamtle⟩ :=
                        frozen_ok_inv mp.precOf acc.bal acc.taker.user
                          AssetKind.base acc.taker.remain b6
                          (its.2.2.mono hprec1) (ibal _) (ibal _) hfb
                      simp only [Prod.mk.injEq, POResult.ok.injEq] at heq
                      obtain ⟨ho, hs2, -⟩ := heq
                      subst ho
                      subst hs2
                      refine ⟨⟨?_, ?_, ?_, ?_, ?_⟩, Or.inr (Or.inl ?_)⟩
                      · intro k
                        show isDp (mp.precOf k.asset) (b6 k)
                        rw [hb6]
                        dsimp only
                        by_cases h1 : k = ⟨acc.taker.user,
                            BalanceType.FREEZE, AssetKind.base⟩
                        · rw [if_pos h1]
                          subst h1
                          exact (ibal _).add (its.2.2.mono hprec1)
                        · rw [if_neg h1]
                          by_cases h2 : k = ⟨acc.taker.user,
                              BalanceType.AVAILABLE, AssetKind.base⟩
                          · rw [if_pos h2]
                            subst h2
                            exact (ibal _).sub (its.2.2.mono hprec1)
                          · rw [if_neg h2]
                            exact ibal k
                      · intro x hx
                        have hx2 : x ∈ insertAskList
                            { acc.taker with frozen := acc.taker.remain }
                            s.asks := hx
                        rcases insertAskList_subset _ _ _ hx2 with h1 | h1
                        · subst h1
                          exact ⟨hs1, hlim,
                            lt_of_le_of_ne its.1 (fun hh => hr0 hh.symm),
                            its.2.1, rfl, its.2.2, hpq⟩
                        · exact hwf.2.1 x h1
                      · intro x hx
                        exact ikept2 x hx
                      · intro u
                        show b6 ⟨u, BalanceType.FREEZE, AssetKind.base⟩ =
                          frozenSum u (insertAskList
                            { acc.taker with frozen := acc.taker.remain }
                            s.asks)
                        rw [hb6, frozenSum_insertAskList, frozenSum_cons]
                        dsimp only
                        have hgb : acc.bal ⟨u, BalanceType.FREEZE,
                            AssetKind.base⟩ = frozenSum u s.asks := by
                          show BalanceManager.get acc.bal u
                            BalanceType.FREEZE AssetKind.base = _
                          rw [hFb2 u]
                          exact hwf.2.2.2.1 u
                        by_cases hu : acc.taker.user = u
                        · subst hu
                          rw [if_pos rfl, if_pos rfl, hgb]
                          ring
                        · rw [if_neg (fun hh =>
                              hu ((congrArg BalanceMapKey.user_id hh).symm)),
                            if_neg (fun hh => BalanceType.noConfusion
                              (congrArg BalanceMapKey.balance_type hh)),
                            if_neg hu, hgb]
                          ring
                      · intro u
                        show b6 ⟨u, BalanceType.FREEZE, AssetKind.quote⟩ =
                          frozenSum u acc.kept
                        rw [hb6]
                        dsimp only
                        rw [if_neg (fun hh => AssetKind.noConfusion
                              (congrArg BalanceMapKey.asset hh)),
                          if_neg (fun hh => AssetKind.noConfusion
                              (congrArg BalanceMapKey.asset hh))]
                        exact hkq u
                      · show ({ acc.taker with
                            frozen := acc.taker.remain } : Order) ∈
                          insertAskList
                            { acc.taker with frozen := acc.taker.remain }
                            s.asks
                        exact mem_insertAskList _ _
  · -- BID taker: the loop runs over the asks
    simp only [hside] at heq
    simp only [eq_self_iff_true, decide_True, reduceCtorEq, decide_False,
      if_true, if_false, reduceIte] at heq
    split at heq
    · simp only [Prod.mk.injEq] at heq
      exact POResult.noConfusion heq.1
    · rename_i acc hml
      obtain ⟨ibal, its, iside, itype, iuser, iprice, iamount, ifrozen,
        ikept, ifin, iFb, iFq⟩ :=
        matchLoop_WF_bid _ _ _ _ _ _ _ _ _ hprec1 hprec2 (by exact hwf.1)
          (by exact hwf.2.1) (by exact ⟨htk.1, htk.2.1, htk.2.2.1⟩) hml
      have hs1 : acc.taker.side = OrderSide.BID := by
        have h1 : acc.taker.side = taker.side := iside
        rw [h1, hside]
      have ikept2 : ∀ x ∈ acc.kept, askWF mp x := by
        intro x hx
        have h1 : x ∈ ([] : List Order) ∨ askWF mp x := ikept x hx
        exact h1.resolve_left (by simp)
      have ifin2 : ∀ x ∈ acc.finished, x.remain = 0 := by
        intro x hx
        have h1 : x ∈ ([] : List Order) ∨ x.remain = 0 := ifin x hx
        exact h1.resolve_left (by simp)
      have hkb : ∀ u, BalanceManager.get acc.bal u BalanceType.FREEZE
          AssetKind.base = frozenSum u acc.kept := by
        intro u
        have h1 : BalanceManager.get acc.bal u BalanceType.FREEZE
            AssetKind.base - frozenSum u acc.kept =
          BalanceManager.get s.bal u BalanceType.FREEZE AssetKind.base -
            frozenSum u ([] : List Order) - frozenSum u s.asks := iFb u
        rw [frozenSum_nil, hwf.2.2.2.1 u] at h1
        linarith
      have hFq2 : ∀ u, BalanceManager.get acc.bal u BalanceType.FREEZE
          AssetKind.quote = BalanceManager.get s.bal u BalanceType.FREEZE
          AssetKind.quote := iFq
      have hpq : isDp mp.price_prec acc.taker.price := by
        have h1 : acc.taker.price = taker.price := iprice
        rw [h1]
        exact htk.2.2.2.1
      split at heq
      · simp only [Prod.mk.injEq] at heq
        exact POResult.noConfusion heq.1
      · rename_i b5 finEvents hfo
        rw [finishOrders_noop mp acc.bal acc.finished ifin2] at hfo
        simp only [Option.some.injEq, Prod.mk.injEq] at hfo
        obtain ⟨hb5, -⟩ := hfo
        by_cases hnc : acc.need_cancel = true
        · rw [if_pos hnc] at heq
          simp only [Prod.mk.injEq, POResult.ok.injEq] at heq
          obtain ⟨ho, hs2, -⟩ := heq
          subst hs2
          refine ⟨⟨?_, ?_, ?_, ?_, ?_⟩, Or.inl ?_⟩
          · show ∀ k, isDp (mp.precOf k.asset) (b5 k)
            rw [← hb5]
            exact ibal
          · show ∀ x ∈ acc.kept, askWF mp x
            exact ikept2
          · show ∀ x ∈ s.bids, bidWF mp x
            exact hwf.2.2.1
          · intro u
            show BalanceManager.get b5 u BalanceType.FREEZE AssetKind.base =
              frozenSum u acc.kept
            rw [← hb5]
            exact hkb u
          · intro u
            show BalanceManager.get b5 u BalanceType.FREEZE AssetKind.quote =
              frozenSum u s.bids
            rw [← hb5, hFq2 u]
            exact hwf.2.2.2.2 u
          · rw [← ho]
            have h1 : acc.taker.frozen = taker.frozen := ifrozen
            rw [h1]
            exact htk.2.2.2.2
        · rw [if_neg hnc] at heq
          by_cases hmk : acc.taker.type_ = OrderType.MARKET
          · rw [if_pos hmk] at heq
            simp only [Prod.mk.injEq, POResult.ok.injEq] at heq
            obtain ⟨ho, hs2, -⟩ := heq
            subst hs2
            refine ⟨⟨?_, ?_, ?_, ?_, ?_⟩, Or.inl ?_⟩
            · show ∀ k, isDp (mp.precOf k.asset) (b5 k)
              rw [← hb5]
              exact ibal
            · show ∀ x ∈ acc.kept, askWF mp x
              exact ikept2
            · show ∀ x ∈ s.bids, bidWF mp x
              exact hwf.2.2.1
            · intro u
              show BalanceManager.get b5 u BalanceType.FREEZE AssetKind.base =
                frozenSum u acc.kept
              rw [← hb5]
              exact hkb u
            · intro u
              show BalanceManager.get b5 u BalanceType.FREEZE AssetKind.quote =
                frozenSum u s.bids
              rw [← hb5, hFq2 u]
              exact hwf.2.2.2.2 u
            · rw [← ho]
              have h1 : acc.taker.frozen = taker.frozen := ifrozen
              rw [h1]
              exact htk.2.2.2.2
          · rw [if_neg hmk] at heq
            by_cases hr0 : acc.taker.remain = 0
            · rw [if_pos hr0] at heq
              simp only [Prod.mk.injEq, POResult.ok.injEq] at heq
              obtain ⟨ho, hs2, -⟩ := heq
              subst hs2
              refine ⟨⟨?_, ?_, ?_, ?_, ?_⟩, Or.inl ?_⟩
              · show ∀ k, isDp (mp.precOf k.asset) (b5 k)
                rw [← hb5]
                exact ibal
              · show ∀ x ∈ acc.kept, askWF mp x
                exact ikept2
              · show ∀ x ∈ s.bids, bidWF mp x
                exact hwf.2.2.1
              · intro u
                show BalanceManager.get b5 u BalanceType.FREEZE AssetKind.base =
                  frozenSum u acc.kept
                rw [← hb5]
                exact hkb u
              · intro u
                show BalanceManager.get b5 u BalanceType.FREEZE AssetKind.quote =
                  frozenSum u s.bids
                rw [← hb5, hFq2 u]
                exact hwf.2.2.2.2 u
              · rw [← ho]
                have h1 : acc.taker.frozen = taker.frozen := ifrozen
                rw [h1]
                exact htk.2.2.2.2
            · rw [if_neg hr0] at heq
              split at heq
              · simp only [Prod.mk.injEq] at heq
                exact POResult.noConfusion heq.1
              · rename_i s3 taker2 hins
                unfold insertOrderIntoOrderbook at hins
                dsimp only at hins
                rw [if_neg (show ¬ (acc.taker.side = OrderSide.ASK) from
                  by simp [hs1])] at hins
                dsimp only at hins
                rw [if_neg (show ¬ (acc.taker.side = OrderSide.ASK) from
                  by simp [hs1])] at hins
                split at hins
                · exact Option.noConfusion hins
                · rename_i hlim0
                  have hlim : acc.taker.type_ = OrderType.LIMIT :=
                    not_not.mp hlim0
                  split at hins
                  · exact Option.noConfusion hins
                  · simp only [Option.some.injEq, Prod.mk.injEq] at hins
                    obtain ⟨hs3, ht2⟩ := hins
                    subst hs3
                    subst ht2
                    split at heq
                    · simp only [Prod.mk.injEq] at heq
                      exact POResult.noConfusion heq.1
                    · rename_i b6 hfb
                      unfold frozenBalance at hfb
                      dsimp only at hfb
                      rw [show ({ acc.taker with frozen :=
                          acc.taker.remain * acc.taker.price } :
                          Order).is_ask = false
                        from by simp [Order.is_ask, hs1]] at hfb
                      simp only [Bool.false_eq_true, if_false] at hfb
                      rw [← hb5] at hfb
                      obtain ⟨hb6, hamt0, hamtle⟩ :=
                        frozen_ok_inv mp.precOf acc.bal acc.taker.user
                          AssetKind.quote
                          (acc.taker.remain * acc.taker.price) b6
                          ((its.2.2.mul hpq).mono hprec2) (ibal _) (ibal _)
                          hfb
                      simp only [Prod.mk.injEq, POResult.ok.injEq] at heq
                      obtain ⟨ho, hs2, -⟩ := heq
                      subst ho
                      subst hs2
                      refine ⟨⟨?_, ?_, ?_, ?_, ?_⟩, Or.inr (Or.inr ?_)⟩
                      · intro k
                        show isDp (mp.precOf k.asset) (b6 k)
                        rw [hb6]
                        dsimp only
                        by_cases h1 : k = ⟨acc.taker.user,
                            BalanceType.FREEZE, AssetKind.quote⟩
                        · rw [if_pos h1]
                          subst h1
                          exact (ibal _).add ((its.2.2.mul hpq).mono hprec2)
                        · rw [if_neg h1]
                          by_cases h2 : k = ⟨acc.taker.user,
                              BalanceType.AVAILABLE, AssetKind.quote⟩
                          · rw [if_pos h2]
                            subst h2
                            exact (ibal _).sub ((its.2.2.mul hpq).mono hprec2)
                          · rw [if_neg h2]
                            exact ibal k
                      · intro x hx
                        exact ikept2 x hx
                      · intro x hx
                        have hx2 : x ∈ insertBidList
                            { acc.taker with frozen :=
                              acc.taker.remain * acc.taker.price }
                            s.bids := hx
                        rcases insertBidList_subset _ _ _ hx2 with h1 | h1
                        · subst h1
                          exact ⟨hs1, hlim,
                            lt_of_le_of_ne its.1 (fun hh => hr0 hh.symm),
                            its.2.1, rfl, its.2.2, hpq⟩
                        · exact hwf.2.2.1 x h1
                      · intro u
                        show b6 ⟨u, BalanceType.FREEZE, AssetKind.base⟩ =
                          frozenSum u acc.kept
                        rw [hb6]
                        dsimp only
                        rw [if_neg (fun hh => AssetKind.noConfusion
                              (congrArg BalanceMapKey.asset hh)),
                          if_neg (fun hh => AssetKind.noConfusion
                              (congrArg BalanceMapKey.asset hh))]
                        exact hkb u
                      · intro u
                        show b6 ⟨u, BalanceType.FREEZE, AssetKind.quote⟩ =
                          frozenSum u (insertBidList
                            { acc.taker with frozen :=
                              acc.taker.remain * acc.taker.price }
                            s.bids)
                        rw [hb6, frozenSum_insertBidList, frozenSum_cons]
                        dsimp only
                        have hgq : acc.bal ⟨u, BalanceType.FREEZE,
                            AssetKind.quote⟩ = frozenSum u s.bids := by
                          show BalanceManager.get acc.bal u
                            BalanceType.FREEZE AssetKind.quote = _
                          rw [hFq2 u]
                          exact hwf.2.2.2.2 u
                        by_cases hu : acc.taker.user = u
                        · subst hu
                          rw [if_pos rfl, if_pos rfl, hgq]
                          ring
                        · rw [if_neg (fun hh =>
                              hu ((congrArg BalanceMapKey.user_id hh).symm)),
                            if_neg (fun hh => BalanceType.noConfusion
                              (congrArg BalanceMapKey.balance_type hh)),
                            if_neg hu, hgq]
                          ring
                      · show ({ acc.taker with frozen :=
                            acc.taker.remain * acc.taker.price } : Order) ∈
                          insertBidList
                            { acc.taker with frozen :=
                              acc.taker.remain * acc.taker.price }
                            s.bids
                        exact mem_insertBidList _ _

/-- C3: after every accepted `put_order` on a state satisfying the book
invariant `WF` (every resting ask has `frozen = remain`, every resting bid
`frozen = remain * price`, each with `0 < remain` and
`remain + finished_base = amount`, and each user's FREEZE balance per asset
equals the freeze contributions of their resting orders), the resulting
state satisfies `WF` again, and the returned order either has `frozen = 0`
(it did not rest) or it rests in the book. Requires the market
configuration to be coherent: `0 ≤ min_amount`,
`amount_prec ≤ base_prec` and `amount_prec + price_prec ≤ quote_prec`. -/
theorem C3_book_invariants (mp : MarketParams) (rp : Bool) (now : ℚ)
    (s : EngineState) (inp : OrderInput) (o : Order) (s2 : EngineState)
    (evs : List Event)
    (hmin : 0 ≤ mp.min_amount)
    (hprec1 : mp.amount_prec ≤ mp.base_prec)
    (hprec2 : mp.amount_prec + mp.price_prec ≤ mp.quote_prec)
    (hwf : WF mp s)
    (heq : putOrder mp rp now s inp = (POResult.ok o, s2, evs)) :
    WF mp s2 ∧ (o.frozen = 0 ∨ o ∈ s2.asks ∨ o ∈ s2.bids) := by
  unfold putOrder at heq
  rcases hoc : orderCheck mp s inp with _ | e
  · rw [hoc] at heq
    dsimp only at heq
    have hrej := (orderCheck_none_iff mp s inp).mp hoc
    have h2 : ¬ (inp.amount < mp.min_amount) := fun hc =>
      hrej (Or.inr (Or.inl hc))
    have h4 : roundToZeroDp mp.amount_prec inp.amount = inp.amount := by
      by_contra hc
      exact hrej (Or.inr (Or.inr (Or.inr (Or.inl hc))))
    have h5 : roundHalfEvenDp mp.price_prec inp.price = inp.price := by
      by_contra hc
      exact hrej (Or.inr (Or.inr (Or.inr (Or.inr (Or.inl hc)))))
    have hadp : isDp mp.amount_prec inp.amount := by
      rw [← h4]
      exact isDp_roundToZeroDp _ _
    have hpdp : isDp mp.price_prec inp.price := by
      rw [← h5]
      exact isDp_roundHalfEvenDp _ _
    exact executeOrder_WF mp rp now _ _ _ o s2 evs hprec1 hprec2
      (by exact hwf)
      (by exact ⟨le_trans hmin (not_lt.mp h2), by simp, hadp, hpdp, rfl⟩) heq
  · rw [hoc] at heq
    dsimp only at heq
    simp only [Prod.mk.injEq] at heq
    exact POResult.noConfusion heq.1

/-- C3's theorem applied to a concrete accepted order: the zero-amount
post-only limit bid of the C9 fixtures, submitted to the empty (trivially
well-formed) market state. -/
theorem C3_witness :
    (0 ≤ mpC9.min_amount ∧ mpC9.amount_prec ≤ mpC9.base_prec ∧
      mpC9.amount_prec + mpC9.price_prec ≤ mpC9.quote_prec ∧
      WF mpC9 sC9) ∧
    (WF mpC9 { sC9 with order_id := 1 } ∧
      ((takerOf sC9 inC9).frozen = 0 ∨
        takerOf sC9 inC9 ∈ ({ sC9 with order_id := 1 } : EngineState).asks ∨
        takerOf sC9 inC9 ∈
          ({ sC9 with order_id := 1 } : EngineState).bids)) := by
  have hwf : WF mpC9 sC9 :=
    ⟨fun k => isDp_zero _, fun x hx => absurd hx (by simp [sC9]),
      fun x hx => absurd hx (by simp [sC9]), fun u => rfl, fun u => rfl⟩
  exact ⟨⟨by norm_num [mpC9], by norm_num [mpC9], by norm_num [mpC9], hwf⟩,
    C3_book_invariants mpC9 false 0 sC9 inC9 _ _ _ (by norm_num [mpC9])
      (by norm_num [mpC9]) (by norm_num [mpC9]) hwf putOrder_C9_eval⟩

end Dingir
